import Mathlib

/-!
Verification development for the L-Store column-oriented storage engine
(src/lstore and src/bplustreelib of the repository under review).

The Python sources are shallowly embedded as executable Lean definitions:

* Python integers are modelled as `Int` (counters that are provably
  non-negative are modelled as `Nat`);
* Python strings are modelled as `List Char`;
* Python dicts are modelled as association lists (insertion-ordered, unique
  keys), with `alookup` / `aupsert` mirroring dict lookup and assignment;
* fallible code (operations whose Python counterpart can raise) returns
  `Option` / `Except`, and query operators that convert exceptions into
  `False` / `[]` return those values directly;
* the buffer pool together with the on-disk page files is modelled at the
  level of the values served by `Bufferpool.get_page`: a mutated page is
  resident and dirty until a flush, so the logical content of every page is
  a single map from page id to `Page` (the structural buffer-pool claims
  are settled against a separate frame-accurate model of pagebuffer.py).

Each claim of the specification is stated and settled as a theorem at the
bottom of the file.
-/

namespace LStore

/-! ## Association lists (Python dicts)

Python dicts preserve insertion order, overwrite values in place, and append
new keys at the end.  `alookup` is dict lookup, `aupsert` is dict
assignment, `aremove` is `dict.pop`. -/

def alookup {α β : Type} [DecidableEq α] : List (α × β) → α → Option β
  | [], _ => none
  | (k, v) :: rest, a => if a = k then some v else alookup rest a

def aupsert {α β : Type} [DecidableEq α] : List (α × β) → α → β → List (α × β)
  | [], a, b => [(a, b)]
  | (k, v) :: rest, a, b =>
    if a = k then (k, b) :: rest else (k, v) :: aupsert rest a b

def aremove {α β : Type} [DecidableEq α] : List (α × β) → α → List (α × β)
  | [], _ => []
  | (k, v) :: rest, a => if a = k then rest else (k, v) :: aremove rest a

/-- Update the value stored at the first occurrence of a key (Python mutates
the dict value in place; keys are unique, so only one entry matches). -/
def aupdate {α β : Type} [DecidableEq α] : List (α × β) → α → (β → β) → List (α × β)
  | [], _, _ => []
  | (k, v) :: rest, a, f =>
    if a = k then (k, f v) :: rest else (k, v) :: aupdate rest a f

/-- Sequence an option-valued function over a list (used to model a loop of
reads where any raised exception aborts the whole computation). -/
def optMapList {α β : Type} (f : α → Option β) : List α → Option (List β)
  | [] => some []
  | a :: rest =>
    match f a with
    | none => none
    | some b => (optMapList f rest).map (fun bs => b :: bs)

/-! ## Decimal rendering and parsing of integers

Models Python `str(n)` / `int(s)` as used by `Table._page_id`,
`PageID.__str__`, `PageID.parse`, `Bufferpool.unpack_page_id` and
`Table.recover`.  Strings are `List Char`. -/

def digitChar (d : Nat) : Char :=
  match d with
  | 0 => '0' | 1 => '1' | 2 => '2' | 3 => '3' | 4 => '4'
  | 5 => '5' | 6 => '6' | 7 => '7' | 8 => '8' | _ => '9'

def charDigit (c : Char) : Option Nat :=
  if c = '0' then some 0 else if c = '1' then some 1 else if c = '2' then some 2
  else if c = '3' then some 3 else if c = '4' then some 4 else if c = '5' then some 5
  else if c = '6' then some 6 else if c = '7' then some 7 else if c = '8' then some 8
  else if c = '9' then some 9 else none

/-- Most-significant-first decimal digits of a positive number.  The fuel
argument only bounds the recursion; `n` itself is always enough fuel. -/
def natCharsAux : Nat → Nat → List Char
  | 0, _ => []
  | fuel + 1, n =>
    if n = 0 then [] else natCharsAux fuel (n / 10) ++ [digitChar (n % 10)]

/-- Python `str(n)` for a natural number. -/
def natChars (n : Nat) : List Char :=
  if n = 0 then ['0'] else natCharsAux n n

/-- Python `str(n)` for an integer. -/
def intChars (n : Int) : List Char :=
  if n < 0 then '-' :: natChars (-n).toNat else natChars n.toNat

def charsToNatAux : List Char → Nat → Option Nat
  | [], acc => some acc
  | c :: cs, acc =>
    match charDigit c with
    | none => none
    | some d => charsToNatAux cs (acc * 10 + d)

/-- Python `int(s)` restricted to unsigned decimal strings; `int("")`
raises, hence `none` on the empty string. -/
def charsToNat (l : List Char) : Option Nat :=
  if l = [] then none else charsToNatAux l 0

/-- Python `int(s)`: an optional sign followed by decimal digits
(`int("")` raises, hence `none` on the empty string). -/
def charsToInt : List Char → Option Int
  | [] => none
  | c :: rest =>
    if c = '-' then
      match charsToNat rest with
      | none => none
      | some m => some (-(m : Int))
    else
      match charsToNat (c :: rest) with
      | none => none
      | some m => some ((m : Int))

/-! ## Python `str.split('_')` -/

def splitUnderscoreAux : List Char → List Char → List (List Char)
  | [], acc => [acc.reverse]
  | c :: rest, acc =>
    if c = '_' then acc.reverse :: splitUnderscoreAux rest []
    else splitUnderscoreAux rest (c :: acc)

/-- Python `s.split('_')` over `List Char`. -/
def splitUnderscore (l : List Char) : List (List Char) :=
  splitUnderscoreAux l []

/-! ## PageID (src/lstore/page.py) -/

/-- `PageID` from page.py: identity of one physical page. -/
structure PageID where
  table_name : List Char
  column_index : Int
  page_number : Int
  is_base_page : Bool
deriving DecidableEq, Repr

/-- `PageID.__str__`: canonical underscore form
table, column, page number, base flag rendered `1`/`0`. -/
def PageID.render (p : PageID) : List Char :=
  p.table_name ++ '_' :: (intChars p.column_index ++ '_' ::
    (intChars p.page_number ++ '_' :: [if p.is_base_page then '1' else '0']))

/-- `PageID.parse`: split on underscores, require exactly 4 parts, coerce the
numeric parts with `int(...)` (a failed coercion raises, hence `none`) and
the flag with `bool(int(...))`. -/
def PageID.parseParts : List (List Char) → Option PageID
  | [t, c, p, b] =>
    match charsToInt c, charsToInt p, charsToInt b with
    | some ci, some pn, some bv =>
      some { table_name := t, column_index := ci, page_number := pn,
             is_base_page := bv ≠ 0 }
    | _, _, _ => none
  | _ => none

def PageID.parse (l : List Char) : Option PageID :=
  PageID.parseParts (splitUnderscore l)

/-! ## Configuration constants (src/lstore/config.py) -/

def INDIRECTION_COLUMN : Nat := 0
def RID_COLUMN : Nat := 1
def TIMESTAMP_COLUMN : Nat := 2
def SCHEMA_ENCODING_COLUMN : Nat := 3
def META_COLUMNS : Nat := 4
def MAX_RECORDS_PER_PAGE : Nat := 512
def TAIL_RID_START : Int := 1000000000

/-! ## Page (src/lstore/page.py) -/

/-- `Page`: fixed-capacity append vector of integers.  The `PageID` field of
the Python object is only used for serialization metadata and is not
modelled. -/
structure Page where
  num_records : Nat
  data : List Int
deriving DecidableEq, Repr

def Page.empty : Page := { num_records := 0, data := [] }

/-- `Page.has_capacity`. -/
def Page.has_capacity (p : Page) : Bool :=
  p.num_records < MAX_RECORDS_PER_PAGE

/-- `Page.write`: append a value in the next slot and return the slot index;
`none` models the `OverflowError` raised on a full page. -/
def Page.write (p : Page) (v : Int) : Option (Page × Nat) :=
  if p.num_records < MAX_RECORDS_PER_PAGE then
    some ({ num_records := p.num_records + 1, data := p.data ++ [v] }, p.num_records)
  else none

/-- `Page.read`: `none` models the `IndexError` raised when the slot is out
of bounds (either of the `num_records` check or of the backing list). -/
def Page.read (p : Page) (slot : Nat) : Option Int :=
  if slot < p.num_records then p.data.get? slot else none

/-- `Page.write_at`: in-place overwrite of an already-written slot; `none`
models the `IndexError` on an out-of-range slot (of the `num_records` check
or of the backing list). -/
def Page.write_at (p : Page) (slot : Nat) (v : Int) : Option Page :=
  if slot < p.num_records then
    if slot < p.data.length then some { p with data := p.data.set slot v }
    else none
  else none

/-! ## Logical page storage

The Python engine reads and writes cells through `Bufferpool.get_page`.  A
page that has been written is resident and dirty until a flush, an evicted
dirty page is written back before removal, and a miss loads the on-disk copy
(or a fresh empty page when no file exists).  Consequently the value served
by `get_page` for a given page id is a single logical page, and the
composite of buffer pool and disk behaves as one map from page id to `Page`.
`Storage` is this composite; `Storage.getPage` is `Bufferpool.get_page`
(starting from an empty disk, a miss yields an empty page) and
`Storage.putPage` is the in-place page mutation plus `mark_dirty` performed
by the table layer.  The frame-accurate model of pagebuffer.py (pins, LRU,
dirty flags) appears separately below. -/

abbrev Chars := List Char

abbrev Loc := Chars × Nat

structure Storage where
  pages : List (Chars × Page)
deriving DecidableEq, Repr

def Storage.getPage (s : Storage) (pid : Chars) : Page :=
  (alookup s.pages pid).getD Page.empty

def Storage.putPage (s : Storage) (pid : Chars) (p : Page) : Storage :=
  { pages := aupsert s.pages pid p }

/-- `Table._page_id`: canonical underscore page identifier built from the
table name, physical column index, page number and base flag (same format
as `PageID.__str__`). -/
def tablePid (name : Chars) (c : Nat) (pageNo : Nat) (isBase : Bool) : Chars :=
  PageID.render { table_name := name, column_index := (c : Int),
                  page_number := (pageNo : Int), is_base_page := isBase }

/-! ## Table state (src/lstore/table.py, src/lstore/index.py)

`Table.index` (class `Index`) is a list with one optional dict per user
column, each dict mapping a column value to a posting list of base RIDs;
it is inlined here as the `indices` field.  RIDs are Python ints,
modelled as `Int` (the legacy string RIDs are never produced by this
code base). -/

structure Table where
  name : Chars
  key : Nat
  num_columns : Nat
  page_directory : List (Int × List (Option Loc))
  base_record_count : Nat
  tail_record_count : Nat
  deleted : List Int
  indices : List (Option (List (Int × List Int)))
deriving DecidableEq, Repr

/-- `Table.__init__` followed by `Index.__init__`: empty directory and
counters; the primary-key column is indexed by default (the index is built
from an empty directory, hence empty). -/
def Table.init (name : Chars) (num_columns : Nat) (key : Nat) : Table :=
  { name := name, key := key, num_columns := num_columns,
    page_directory := [], base_record_count := 0, tail_record_count := 0,
    deleted := [],
    indices := (List.range num_columns).map (fun c => if c = key then some [] else none) }

def Table.total_cols (t : Table) : Nat :=
  META_COLUMNS + t.num_columns

/-- `Table._is_base_rid` (integer RIDs). -/
def isBaseRid (rid : Int) : Bool :=
  rid < TAIL_RID_START

def dirLookup (t : Table) (rid : Int) : Option (List (Option Loc)) :=
  alookup t.page_directory rid

/-- `Table._ensure_dir_entry`: create a placeholder row of `None` locations
when the RID is absent. -/
def Table.ensure_dir_entry (t : Table) (rid : Int) : Table :=
  if (dirLookup t rid).isSome then t
  else { t with page_directory :=
          aupsert t.page_directory rid (List.replicate t.total_cols none) }

/-- Directory assignment `page_directory[rid][col] = loc`. -/
def dirSet (t : Table) (rid : Int) (c : Nat) (loc : Loc) : Table :=
  { t with page_directory :=
      aupdate t.page_directory rid (fun row => row.set c (some loc)) }

/-- Read one cell by `(rid, physical column)` through the page directory and
the buffer pool (`Table._read_cell` and the equivalent inlined reads);
`none` models any raised exception (missing RID, missing location, slot out
of range). -/
def readCell (t : Table) (s : Storage) (rid : Int) (c : Nat) : Option Int :=
  match dirLookup t rid with
  | none => none
  | some locs =>
    match locs.get? c with
    | some (some (pid, slot)) => (s.getPage pid).read slot
    | _ => none

/-- Read all user columns of a specific RID
(`Query._read_user_values_from_rid` / the local reader in
`Table.update_row`). -/
def readUserVals (t : Table) (s : Storage) (rid : Int) : Option (List Int) :=
  optMapList (fun i => readCell t s rid (META_COLUMNS + i)) (List.range t.num_columns)

/-- `Table._get_latest_rid` composed with the user-column reads:
`Table._materialize_latest_user_values`. -/
def materialize_latest (t : Table) (s : Storage) (rid : Int) : Option (List Int) :=
  match readCell t s rid INDIRECTION_COLUMN with
  | none => none
  | some ind => readUserVals t s (if ind = 0 then rid else ind)

/-! ## Index operations (src/lstore/index.py) -/

/-- `Index.insert_entry`: PK column gets a unique singleton assignment,
non-PK columns append to the posting list. -/
def insert_entry (t : Table) (rid : Int) (columnNum : Nat) (v : Int) : Table :=
  if columnNum < t.num_columns then
    match t.indices.get? columnNum with
    | none => t
    | some mOpt =>
      let m := mOpt.getD []
      if columnNum = t.key then
        { t with indices := t.indices.set columnNum (some (aupsert m v [rid])) }
      else
        let lst := (alookup m v).getD []
        { t with indices := t.indices.set columnNum (some (aupsert m v (lst ++ [rid]))) }
  else t

/-- `Index.locate`. -/
def locate (t : Table) (column : Nat) (v : Int) : List Int :=
  if column < t.num_columns then
    match t.indices.get? column with
    | some (some d) => (alookup d v).getD []
    | _ => []
  else []

/-- The removal loop of `Index.update_entry`: scan the posting list from the
end and pop the first match found (i.e. the last occurrence of the RID). -/
def removeLastOcc (lst : List Int) (rid : Int) : List Int :=
  if rid ∈ lst then (lst.reverse.erase rid).reverse else lst

/-- The population loop of `Index.create_index`: for every base RID in the
page directory, add its latest materialized value for the column; a raised
exception while materializing aborts index creation (`none`). -/
def createIndexScan (t : Table) (s : Storage) (column : Nat) :
    List (Int × List (Option Loc)) → List (Int × List Int) → Option (List (Int × List Int))
  | [], d => some d
  | (rid, _) :: rest, d =>
    if rid < TAIL_RID_START then
      match materialize_latest t s rid with
      | none => none
      | some vals =>
        match vals.get? column with
        | none => none
        | some v =>
          if column = t.key then createIndexScan t s column rest (aupsert d v [rid])
          else createIndexScan t s column rest (aupsert d v ((alookup d v).getD [] ++ [rid]))
    else createIndexScan t s column rest d

/-- `Index.update_entry`: keep a secondary index in sync when a user-column
value changes; no-op for the PK column, an unindexed column or an unchanged
value.  (This function has no caller anywhere in the source.) -/
def update_entry (t : Table) (rid : Int) (column_number : Nat) (old_value new_value : Int) : Table :=
  if column_number < t.num_columns then
    if column_number = t.key then t
    else
      match t.indices.get? column_number with
      | some (some m) =>
        if old_value = new_value then t
        else
          let m1 :=
            match alookup m old_value with
            | none => m
            | some lst =>
              let lst1 := removeLastOcc lst rid
              if lst1 = [] then aremove m old_value else aupsert m old_value lst1
          let lst2 := (alookup m1 new_value).getD []
          { t with indices := t.indices.set column_number (some (aupsert m1 new_value (lst2 ++ [rid]))) }
      | _ => t
  else t

/-- `Index.create_index`: build an index over one user column from every
base RID's latest materialized value; `none` models the `ValueError` on an
invalid or already-indexed column and any exception raised while
materializing. -/
def create_index (t : Table) (s : Storage) (column_number : Nat) : Option Table :=
  if column_number < t.num_columns then
    match t.indices.get? column_number with
    | some none =>
      match createIndexScan t s column_number t.page_directory [] with
      | none => none
      | some d => some { t with indices := t.indices.set column_number (some d) }
    | _ => none
  else none

/-! ## Insert (Table.insert_row / Query.insert) -/

/-- The fallback uniqueness scan of `Table.insert_row` (PK index absent):
walk the page directory, skipping tails and logically deleted rows, and
compare the base key cell with the new PK.  `Except.error` models an
exception raised while unpacking a missing location or reading the cell
(which propagates to `Query.insert` and becomes `False`). -/
def insertDupScan (t : Table) (s : Storage) (key_col : Nat) (pk_val : Int) :
    List (Int × List (Option Loc)) → Except Unit Bool
  | [] => .ok false
  | (rid, locs) :: rest =>
    if isBaseRid rid = false ∨ rid ∈ t.deleted then
      insertDupScan t s key_col pk_val rest
    else
      match locs.get? key_col with
      | some (some (pid, slot)) =>
        match (s.getPage pid).read slot with
        | none => .error ()
        | some v => if v = pk_val then .ok true else insertDupScan t s key_col pk_val rest
      | _ => .error ()

/-- The per-column write loop shared by `Table._write_to_base_pages` and
`Table._write_to_tail_pages`: for each physical column append the record
value into the page of the given stripe (pinning, marking dirty and
unpinning around the write) and record `(page_id, slot)` in the directory.
A full page raises `OverflowError`, which aborts the loop leaving the
already-written columns in place (the `false` flag; the exception then
surfaces as a `False` result of the calling query operator). -/
def writeColumns (rid : Int) (pageNo : Nat) (isBase : Bool) (full : List Int) :
    List Nat → Table → Storage → Table × Storage × Bool
  | [], t, s => (t, s, true)
  | c :: rest, t, s =>
    match full.get? c with
    | none => (t, s, false)
    | some v =>
      let pid := tablePid t.name c pageNo isBase
      match (s.getPage pid).write v with
      | none => (t, s, false)
      | some (pg, slot) =>
        writeColumns rid pageNo isBase full rest (dirSet t rid c (pid, slot)) (s.putPage pid pg)

/-- `Table._write_to_base_pages`. -/
def write_to_base_pages (t : Table) (s : Storage) (rid : Int) (full : List Int) :
    Table × Storage × Bool :=
  match writeColumns rid (t.base_record_count / MAX_RECORDS_PER_PAGE) true full
      (List.range t.total_cols) (t.ensure_dir_entry rid) s with
  | (t2, s2, true) => ({ t2 with base_record_count := t2.base_record_count + 1 }, s2, true)
  | (t2, s2, false) => (t2, s2, false)

/-- `Table._write_to_tail_pages`. -/
def write_to_tail_pages (t : Table) (s : Storage) (rid : Int) (full : List Int) :
    Table × Storage × Bool :=
  match writeColumns rid (t.tail_record_count / MAX_RECORDS_PER_PAGE) false full
      (List.range t.total_cols) (t.ensure_dir_entry rid) s with
  | (t2, s2, true) => ({ t2 with tail_record_count := t2.tail_record_count + 1 }, s2, true)
  | (t2, s2, false) => (t2, s2, false)

/-- The index-maintenance loop at the end of `Table.insert_row`: insert the
new row into every existing per-column index. -/
def insertIndexLoop (rid : Int) (columns : List Int) : List Nat → Table → Table
  | [], t => t
  | c :: rest, t =>
    insertIndexLoop rid columns rest
      (match t.indices.get? c, columns.get? c with
       | some (some _), some v => insert_entry t rid c v
       | _, _ => t)

/-- `Table.insert_row` (with the exception-to-`False` wrapper of
`Query.insert` folded in: every raised exception surfaces as a `False`
result, with whatever partial writes had already been performed).  The
timestamp read from the wall clock is passed in as `ts`. -/
def insert_row (t : Table) (s : Storage) (ts : Int) (columns : List Int) :
    Bool × Table × Storage :=
  if columns.length ≠ t.num_columns then (false, t, s)
  else
    match columns.get? t.key, t.indices.get? t.key with
    | some pk_val, some pkIdxOpt =>
      let dup : Except Unit Bool :=
        match pkIdxOpt with
        | some d => .ok (alookup d pk_val).isSome
        | none => insertDupScan t s (META_COLUMNS + t.key) pk_val t.page_directory
      match dup with
      | .error _ => (false, t, s)
      | .ok true => (false, t, s)
      | .ok false =>
        let rid : Int := (t.base_record_count : Int)
        let full : List Int := [0, rid, ts, 0] ++ columns
        match write_to_base_pages t s rid full with
        | (t2, s2, false) => (false, t2, s2)
        | (t2, s2, true) =>
          (true, insertIndexLoop rid columns (List.range t2.num_columns) t2, s2)
    | _, _ => (false, t, s)

/-! ## Update (Table.update_row / Query.update) -/

/-- The `new_vals` / `bitmask` construction of `Table.update_row`: walk the
current values and supplied columns in parallel; a provided value that
differs from the current one replaces it and sets its bit. -/
def buildUpdate : Nat → List Int → List (Option Int) → List Int × Nat
  | _, [], _ => ([], 0)
  | _, cur, [] => (cur, 0)
  | i, c :: cs, v :: vs =>
    let rest := buildUpdate (i + 1) cs vs
    match v with
    | some w =>
      if w ≠ c then (w :: rest.1, rest.2 ||| (1 <<< i)) else (c :: rest.1, rest.2)
    | none => (c :: rest.1, rest.2)

/-- `Table.update_row`: write a cumulative tail record for `base_rid`
(`none` in a supplied column means "no change"); returns `False` on any
contract violation or raised exception (the whole body is wrapped in
`try/except` in the source), keeping whatever partial writes occurred. -/
def update_row (t : Table) (s : Storage) (ts : Int) (base_rid : Int)
    (columns : List (Option Int)) : Bool × Table × Storage :=
  if columns.length ≠ t.num_columns then (false, t, s)
  else if (dirLookup t base_rid).isNone then (false, t, s)
  else
    match readCell t s base_rid INDIRECTION_COLUMN with
    | none => (false, t, s)
    | some latestVal =>
      let latest_rid := if latestVal = 0 then base_rid else latestVal
      match readUserVals t s latest_rid with
      | none => (false, t, s)
      | some current =>
        let step := buildUpdate 0 current columns
        if step.2 = 0 then (true, t, s)
        else
          let new_tail_rid : Int := TAIL_RID_START + (t.tail_record_count : Int)
          let prev_ptr : Int := if latest_rid ≠ base_rid then latest_rid else 0
          let full : List Int := [prev_ptr, new_tail_rid, ts, (step.2 : Int)] ++ step.1
          match write_to_tail_pages t s new_tail_rid full with
          | (t2, s2, false) => (false, t2, s2)
          | (t2, s2, true) =>
            match dirLookup t2 base_rid with
            | none => (false, t2, s2)
            | some locs =>
              match locs.get? INDIRECTION_COLUMN with
              | some (some (pid, slot)) =>
                match (s2.getPage pid).write_at slot new_tail_rid with
                | some pg => (true, t2, s2.putPage pid pg)
                | none => (false, t2, s2)
              | _ => (false, t2, s2)

/-! ## Query helpers (src/lstore/query.py) -/

/-- The fallback scan of `Query._pk_to_rid`: walk the page directory,
keeping only live base rows with a usable key location, and return the
first whose key cell reads equal to `pk` (reads that raise are skipped). -/
def pkToRidScan (t : Table) (s : Storage) (key_col : Nat) (pk : Int) :
    List (Int × List (Option Loc)) → Option Int
  | [] => none
  | (rid, locs) :: rest =>
    if TAIL_RID_START ≤ rid ∨ rid ∈ t.deleted then
      pkToRidScan t s key_col pk rest
    else
      match locs.get? key_col with
      | some (some (pid, slot)) =>
        match (s.getPage pid).read slot with
        | some v => if v = pk then some rid else pkToRidScan t s key_col pk rest
        | none => pkToRidScan t s key_col pk rest
      | _ => pkToRidScan t s key_col pk rest

/-- `Query._pk_to_rid`: resolve a base RID by primary key, via the PK index
when present (a deleted hit yields `None` without falling through); the
fallback scan runs when the index is absent or has no (non-empty) posting
for the key. -/
def pkToRid (t : Table) (s : Storage) (pk : Int) : Option Int :=
  match t.indices.get? t.key with
  | some (some d) =>
    match alookup d pk with
    | some (r :: _) => if r ∈ t.deleted then none else some r
    | _ => pkToRidScan t s (META_COLUMNS + t.key) pk t.page_directory
  | _ => pkToRidScan t s (META_COLUMNS + t.key) pk t.page_directory

/-- `Query._proj`: align a projection mask to the user columns. -/
def projNorm (t : Table) (proj : List Int) : List Int :=
  if proj.length = t.num_columns then proj
  else if proj.length = t.num_columns + META_COLUMNS then proj.drop META_COLUMNS
  else List.replicate t.num_columns 1

/-- `Query._make_records` restricted to a single row: a `Record`'s columns
under a projection mask (masked-out columns become `None`).  Rows produced
by the engine always have full user width, so the default value of the
out-of-range read is never exercised. -/
def makeRecord (t : Table) (row : List Int) (proj : List Int) : List (Option Int) :=
  (List.range t.num_columns).map
    (fun i => if proj.getD i 0 ≠ 0 then some (row.getD i 0) else none)

/-- Python list indexing with negative-index wrap-around; `none` models the
`IndexError` on an out-of-range index. -/
def pyGet (l : List Int) (i : Int) : Option Int :=
  if 0 ≤ i then l.get? i.toNat
  else
    let j : Int := (l.length : Int) + i
    if 0 ≤ j then l.get? j.toNat else none

/-- `Query.update`: fill the `None` ("no change") columns with the current
latest values and delegate to `Table.update_row`; any raised exception or
failed lookup yields `False`. -/
def query_update (t : Table) (s : Storage) (ts : Int) (pk : Int)
    (columns : List (Option Int)) : Bool × Table × Storage :=
  if columns.length ≠ t.num_columns then (false, t, s)
  else
    match pkToRid t s pk with
    | none => (false, t, s)
    | some rid =>
      if rid ∈ t.deleted then (false, t, s)
      else
        match materialize_latest t s rid with
        | none => (false, t, s)
        | some current =>
          let filled := List.zipWith (fun c v => Option.getD v c) current columns
          update_row t s ts rid (filled.map some)

/-- `Query.delete`: logical delete — drop the PK index entry (when the index
is present, non-empty and holds the key) and add the base RID to the
`deleted` set. -/
def query_delete (t : Table) (s : Storage) (pk : Int) : Bool × Table × Storage :=
  match pkToRid t s pk with
  | none => (false, t, s)
  | some rid =>
    match t.indices.get? t.key with
    | none => (false, t, s)
    | some idxOpt =>
      let t1 :=
        match idxOpt with
        | some d =>
          if d ≠ [] ∧ (alookup d pk).isSome then
            { t with indices := t.indices.set t.key (some (aremove d pk)) }
          else t
        | none => t
      let t2 := if rid ∈ t1.deleted then t1 else { t1 with deleted := t1.deleted ++ [rid] }
      (true, t2, s)

/-! ## Select and versioned select (src/lstore/query.py) -/

/-- The robust fallback scan of the primary-key branch of `Query.select`:
walk live base rows, compare the key cell (a raised read is skipped), and
materialize the first match (a raised materialization is also skipped via
the same `except: continue`).  `none` models an exception raised outside
that inner `try` (a too-short directory row), which makes `select` return
`[]`. -/
def selectPkScan (t : Table) (s : Storage) (key_col : Nat) (pk : Int) :
    List (Int × List (Option Loc)) → Option (List (List Int))
  | [] => some []
  | (rid, locs) :: rest =>
    if TAIL_RID_START ≤ rid ∨ rid ∈ t.deleted then
      selectPkScan t s key_col pk rest
    else
      match locs.get? key_col with
      | none => none
      | some none => selectPkScan t s key_col pk rest
      | some (some (pid, slot)) =>
        match (s.getPage pid).read slot with
        | none => selectPkScan t s key_col pk rest
        | some v =>
          if v = pk then
            match materialize_latest t s rid with
            | some vals => some [vals]
            | none => selectPkScan t s key_col pk rest
          else selectPkScan t s key_col pk rest

/-- The final fallback of the non-PK branch of `Query.select`: materialize
every live base row and keep those whose value at the search column equals
the key; `none` models a raised exception (which makes `select` return
`[]`). -/
def selectScanAll (t : Table) (s : Storage) (ski : Int) (pk : Int) :
    List (Int × List (Option Loc)) → Option (List (List Int))
  | [] => some []
  | (rid, _) :: rest =>
    if TAIL_RID_START ≤ rid ∨ rid ∈ t.deleted then
      selectScanAll t s ski pk rest
    else
      match materialize_latest t s rid with
      | none => none
      | some vals =>
        match pyGet vals ski with
        | none => none
        | some v =>
          match selectScanAll t s ski pk rest with
          | none => none
          | some rows => some (if v = pk then vals :: rows else rows)

/-- `Query.select`: point select with projection; all exceptions surface as
`[]`. -/
def query_select (t : Table) (s : Storage) (search_key : Int)
    (search_key_index : Int) (proj : List Int) : List (List (Option Int)) :=
  let pj := projNorm t proj
  if search_key_index = (t.key : Int) then
    match pkToRid t s search_key with
    | some rid =>
      if rid ∈ t.deleted then
        match selectPkScan t s (META_COLUMNS + t.key) search_key t.page_directory with
        | none => []
        | some rows => rows.map (fun r => makeRecord t r pj)
      else
        match materialize_latest t s rid with
        | none => []
        | some vals => [makeRecord t vals pj]
    | none =>
      match selectPkScan t s (META_COLUMNS + t.key) search_key t.page_directory with
      | none => []
      | some rows => rows.map (fun r => makeRecord t r pj)
  else
    let ridsFromIndex : List Int :=
      if 0 ≤ search_key_index ∧ search_key_index < (t.num_columns : Int) then
        locate t search_key_index.toNat search_key
      else []
    if ridsFromIndex ≠ [] then
      match optMapList (fun rid => materialize_latest t s rid)
          (ridsFromIndex.filter (fun rid => isBaseRid rid ∧ rid ∉ t.deleted)) with
      | none => []
      | some rows => rows.map (fun r => makeRecord t r pj)
    else
      match selectScanAll t s search_key_index search_key t.page_directory with
      | none => []
      | some rows => rows.map (fun r => makeRecord t r pj)

/-- The chain walk of `Query._collect_tail_chain`, newest tail first.  The
previous-RID cache of the source always agrees with the INDIRECTION cells
it was loaded from (tail cells are never overwritten), so the walk is
modelled by direct cell reads; the fuel argument only bounds the loop,
which for the acyclic chains the engine builds terminates within
`tail_record_count` steps. -/
def chainWalk (t : Table) (s : Storage) : Nat → Int → List Int → Option (List Int)
  | 0, cur, acc => if cur = 0 then some acc else some acc
  | fuel + 1, cur, acc =>
    if cur = 0 then some acc
    else
      let acc1 := acc ++ [cur]
      match readCell t s cur INDIRECTION_COLUMN with
      | none => none
      | some prev => if prev = cur then some acc1 else chainWalk t s fuel prev acc1

/-- `Query._collect_tail_chain`: read the base head pointer (a raised read
degrades to 0, and the head cache holds no entry for a base whose head
pointer is 0), then walk the previous-RID chain. -/
def collectTailChain (t : Table) (s : Storage) (base_rid : Int) : Option (List Int) :=
  let head := (readCell t s base_rid INDIRECTION_COLUMN).getD 0
  chainWalk t s (t.tail_record_count + 1) head []

/-- One overlay pass of `Query._compose_row_at_version`: for every user
column whose SCHEMA bit is set and which is not yet filled, take the tail's
value and mark the column filled. -/
def overlayStep (bm : Nat) : Nat → List Int → List Bool → List Int → List Int × List Bool
  | _, [], _, _ => ([], [])
  | _, row, [], _ => (row, [])
  | _, row, _, [] => (row, [])
  | c, r :: rs, f :: fs, tv :: tvs =>
    let rest := overlayStep bm (c + 1) rs fs tvs
    if bm.testBit c ∧ f = false then (tv :: rest.1, true :: rest.2)
    else (r :: rest.1, f :: rest.2)

/-- The overlay loop of `Query._compose_row_at_version` over the chain
suffix starting at the requested version, with the early exit once every
column is filled.  SCHEMA cells hold the (non-negative) bitmask written by
`Table.update_row`, so the Python bit test is modelled on `toNat`. -/
def composeOverlay (t : Table) (s : Storage) :
    List Int → List Int → List Bool → Option (List Int)
  | [], row, _ => some row
  | tr :: rest, row, filled =>
    match readCell t s tr SCHEMA_ENCODING_COLUMN with
    | none => none
    | some bm =>
      match readUserVals t s tr with
      | none => none
      | some tvals =>
        let stepped := overlayStep bm.toNat 0 row filled tvals
        if stepped.2.all id then some stepped.1
        else composeOverlay t s rest stepped.1 stepped.2

/-- `Query._compose_row_at_version`: compose the row at a non-negative
relative version index (0 = newest), starting from the base values and
overlaying from the chosen tail towards older tails. -/
def composeRowAtVersion (t : Table) (s : Storage) (base_rid : Int)
    (rv_index : Nat) : Option (List Int) :=
  match readUserVals t s base_rid with
  | none => none
  | some row =>
    match collectTailChain t s base_rid with
    | none => none
    | some tails =>
      if tails = [] then some row
      else if tails.length ≤ rv_index then some row
      else composeOverlay t s (tails.drop rv_index)
        row (List.replicate t.num_columns false)

/-- `Query.select_version`: versioned select on the primary key (a non-PK
search key delegates to `Query.select`); all exceptions surface as `[]`. -/
def select_version (t : Table) (s : Storage) (search_key : Int)
    (search_key_index : Int) (proj : List Int) (relative_version : Int) :
    List (List (Option Int)) :=
  if search_key_index ≠ (t.key : Int) then
    query_select t s search_key search_key_index proj
  else
    let pj := projNorm t proj
    match pkToRid t s search_key with
    | none => []
    | some base_rid =>
      if base_rid ∈ t.deleted then []
      else
        let rv_index : Nat := if 0 ≤ relative_version then 0 else (-relative_version).toNat
        match composeRowAtVersion t s base_rid rv_index with
        | none => []
        | some row => [makeRecord t row pj]

/-! ## Lock manager (src/lstore/lock_manager.py)

Per-RID entry with a set of shared holders and an optional exclusive
holder; conflicts raise `LockException` (modelled by `Except.error`). -/

structure LockEntry where
  shared : Finset Nat
  exclusive : Option Nat
deriving DecidableEq

def LockEntry.empty : LockEntry := { shared := ∅, exclusive := none }

/-- `LockManager.acquire_shared` on one entry. -/
def acquire_shared (txn_id : Nat) (e : LockEntry) : Except String LockEntry :=
  if txn_id ∈ e.shared ∨ e.exclusive = some txn_id then .ok e
  else if e.exclusive.isSome then .error "S conflict: X held by another transaction"
  else .ok { e with shared := insert txn_id e.shared }

/-- `LockManager.acquire_exclusive` on one entry: retain if already held;
upgrade a sole shared holder; otherwise grant only when no locks are held,
raising `LockException` in every other case. -/
def acquire_exclusive (txn_id : Nat) (e : LockEntry) : Except String LockEntry :=
  if e.exclusive = some txn_id then .ok e
  else if txn_id ∈ e.shared then
    if e.shared.card = 1 then .ok { shared := e.shared.erase txn_id, exclusive := some txn_id }
    else .error "upgrade conflict: others hold S"
  else if e.shared ≠ ∅ ∨ e.exclusive.isSome then .error "X conflict: locks held"
  else .ok { e with exclusive := some txn_id }

/-- `LockManager.release_all`: drop the transaction from every entry and
remove entries that become empty. -/
def release_all (txn_id : Nat) (locks : List (Int × LockEntry)) : List (Int × LockEntry) :=
  (locks.map (fun kv =>
      (kv.1, { shared := kv.2.shared.erase txn_id,
               exclusive := if kv.2.exclusive = some txn_id then none else kv.2.exclusive }))).filter
    (fun kv => ¬ (kv.2.shared = ∅ ∧ kv.2.exclusive = none))

/-! ## Transactions (src/lstore/transaction.py)

A transaction holds an ordered list of deferred operations and three
rollback logs.  No query operator in the source ever appends to those logs
(nor acquires locks), so they stay as initialized. -/

inductive TOp where
  | ins (ts : Int) (cols : List Int)
  | upd (ts : Int) (pk : Int) (cols : List (Option Int))
  | del (pk : Int)
deriving DecidableEq, Repr

def applyOp : TOp → Table → Storage → Bool × Table × Storage
  | .ins ts cols, t, s => insert_row t s ts cols
  | .upd ts pk cols, t, s => query_update t s ts pk cols
  | .del pk, t, s => query_delete t s pk

structure Txn where
  txn_id : Nat
  queries : List TOp
  inserted_rids : List Int
  updated_rids : List (Int × Int × List Int)
  deleted_rids : List Int
deriving DecidableEq, Repr

/-- `Transaction.__init__` followed by `add_query` for each operation. -/
def Txn.make (id : Nat) (qs : List TOp) : Txn :=
  { txn_id := id, queries := qs, inserted_rids := [], updated_rids := [], deleted_rids := [] }

/-- The update-rollback loop of `Transaction.abort`: re-write the pre-update
user values through `Table.update_row` (producing a fresh tail).  The
subsequent indirection reset calls `Page.write(slot, prev_indirection)`
with two positional arguments, but `Page.write` accepts a single value;
the resulting `TypeError` is swallowed by the bare `except`, so the
indirection pointer is left pointing at the rollback tail. -/
def abortUpdates (ts : Int) : List (Int × Int × List Int) → Table → Storage → Table × Storage
  | [], t, s => (t, s)
  | (base_rid, _prev_ind, old_values) :: rest, t, s =>
    let r := update_row t s ts base_rid (old_values.map some)
    abortUpdates ts rest r.2.1 r.2.2

/-- The insert-rollback loop of `Transaction.abort`: mark the RID as
deleted.  The PK-strip scan compares each posting list `pk_rid` with the
integer `rid` (`if pk_rid == rid`); a Python list never equals an integer,
so no key is ever found and nothing is popped from the PK index. -/
def abortInserted : List Int → Table → Table
  | [], t => t
  | rid :: rest, t =>
    abortInserted rest
      { t with deleted := if rid ∈ t.deleted then t.deleted else t.deleted ++ [rid] }

/-- The delete-rollback loop of `Transaction.abort`: un-tombstone the RID
and restore its PK index entry from the base key cell.  (The source stores
the bare integer `rid` where every other writer stores a singleton posting
list; the assignment is modelled as the singleton list.  No operator ever
populates `deleted_rids`, so this loop is dead code.) -/
def abortDeleted : List Int → Table → Storage → Table
  | [], t, _ => t
  | rid :: rest, t, s =>
    if rid ∈ t.deleted then
      let t1 := { t with deleted := t.deleted.erase rid }
      let t2 :=
        if (dirLookup t1 rid).isSome then
          match readCell t1 s rid (META_COLUMNS + t1.key) with
          | none => t1
          | some pk_value =>
            match t1.indices.get? t1.key with
            | some (some d) =>
              { t1 with indices := t1.indices.set t1.key (some (aupsert d pk_value [rid])) }
            | _ => t1
        else t1
      abortDeleted rest t2 s
    else abortDeleted rest t s

/-- `Transaction.abort`: roll back updates, inserts and deletes from the
rollback logs, release all locks, return `False`. -/
def Txn.abort (txn : Txn) (ts : Int) (t : Table) (s : Storage)
    (locks : List (Int × LockEntry)) : Bool × Table × Storage × List (Int × LockEntry) :=
  let r1 := abortUpdates ts txn.updated_rids t s
  let t2 := abortInserted txn.inserted_rids r1.1
  let t3 := abortDeleted txn.deleted_rids t2 r1.2
  (false, t3, r1.2, release_all txn.txn_id locks)

/-- The operation loop of `Transaction.run`: execute each operation in
order; a `False` result aborts.  (No embedded operator raises
`LockException`, since the query layer never touches the lock manager; the
`except LockException` branch of the source is therefore dead.) -/
def runLoop (txn : Txn) (ts : Int) (locks : List (Int × LockEntry)) :
    List TOp → Table → Storage → Bool × Table × Storage × List (Int × LockEntry)
  | [], t, s => (true, t, s, release_all txn.txn_id locks)
  | op :: rest, t, s =>
    let r := applyOp op t s
    if r.1 = false then txn.abort ts r.2.1 r.2.2 locks
    else runLoop txn ts locks rest r.2.1 r.2.2

/-- `Transaction.run` followed by `commit` / `abort`: `commit` clears the
(already empty) rollback logs, releases the transaction's locks and
returns `True`; `abort` rolls back and returns `False`. -/
def Txn.run (txn : Txn) (ts : Int) (t : Table) (s : Storage)
    (locks : List (Int × LockEntry)) : Bool × Table × Storage × List (Int × LockEntry) :=
  runLoop txn ts locks txn.queries t s

/-! ## Frame-accurate buffer pool (src/lstore/pagebuffer.py)

This model keeps the frame table (dirty / pinned / LRU tick per frame) and
the on-disk page files separately; `disk` is the set of page files written
through the table's `write_page` hook (or the direct JSON fallback, which
has the same effect). -/

structure PFrame where
  page : Page
  is_dirty : Bool
  is_pinned : Bool
  last_access_time : Nat
deriving DecidableEq, Repr

structure Bufferpool where
  size : Nat
  pages : List (Chars × PFrame)
  clock : Nat
  disk : List (Chars × Page)
deriving DecidableEq, Repr

/-- `Bufferpool.write_page_to_disk` (via the table hook or the JSON
fallback): overwrite the page file. -/
def write_page_to_disk (b : Bufferpool) (pid : Chars) (p : Page) : Bufferpool :=
  { b with disk := aupsert b.disk pid p }

/-- One selection pass of `Bufferpool._evict_page`: track the eligible frame
with the strictly smallest `last_access_time` seen so far (ties keep the
earlier frame, as in the source's dict iteration). -/
def scanVictim (pred : PFrame → Bool) :
    List (Chars × PFrame) → Option (Chars × Nat) → Option (Chars × Nat)
  | [], best => best
  | (pid, f) :: rest, best =>
    let best1 :=
      match best with
      | none => if pred f then some (pid, f.last_access_time) else none
      | some (v, bt) =>
        if pred f ∧ f.last_access_time < bt then some (pid, f.last_access_time)
        else some (v, bt)
    scanVictim pred rest best1

/-- `Bufferpool._evict_page`: prefer the LRU clean unpinned frame, then the
LRU unpinned frame (written back when dirty); raise when every frame is
pinned.  (The lookup of the selected victim cannot fail, because the victim
id was found in the frame table.) -/
def evict_page (b : Bufferpool) : Except String Bufferpool :=
  let v1 := scanVictim (fun f => f.is_pinned = false ∧ f.is_dirty = false) b.pages none
  let v2 :=
    match v1 with
    | some x => some x
    | none => scanVictim (fun f => f.is_pinned = false) b.pages none
  match v2 with
  | none => .error "No pages available for eviction - all pages are pinned"
  | some (vid, _) =>
    match alookup b.pages vid with
    | none => .error "victim vanished"
    | some victim =>
      let b1 := if victim.is_dirty then write_page_to_disk b vid victim.page else b
      .ok { b1 with pages := aremove b1.pages vid }

/-- `Bufferpool.get_page`: bump the clock; on a hit refresh the frame's
access time; on a miss evict if full (propagating the all-pinned
exception), load from disk (an absent file yields an empty page) and
install a clean, unpinned frame. -/
def bp_get_page (b : Bufferpool) (pid : Chars) : Except String (Page × Bufferpool) :=
  let b0 := { b with clock := b.clock + 1 }
  match alookup b0.pages pid with
  | some f =>
    .ok (f.page,
      { b0 with pages := aupdate b0.pages pid (fun g => { g with last_access_time := b0.clock }) })
  | none =>
    let step : Except String Bufferpool :=
      if b0.size ≤ b0.pages.length then evict_page b0 else .ok b0
    match step with
    | .error e => .error e
    | .ok b1 =>
      let pg := (alookup b1.disk pid).getD Page.empty
      .ok (pg,
        { b1 with pages := b1.pages ++
            [(pid, { page := pg, is_dirty := false, is_pinned := false,
                     last_access_time := b1.clock })] })

/-- `Bufferpool.pin_page`: mark a resident page pinned; a non-resident page
id is silently ignored. -/
def pin_page (b : Bufferpool) (pid : Chars) : Bufferpool :=
  if (alookup b.pages pid).isSome then
    { b with pages := aupdate b.pages pid (fun f => { f with is_pinned := true }) }
  else b

/-- `Bufferpool.unpin_page`: clear the pinned flag of a resident page; a
non-resident page id is silently ignored. -/
def unpin_page (b : Bufferpool) (pid : Chars) : Bufferpool :=
  if (alookup b.pages pid).isSome then
    { b with pages := aupdate b.pages pid (fun f => { f with is_pinned := false }) }
  else b

/-- `Bufferpool.mark_dirty`: mark a resident page dirty; a non-resident page
id is silently ignored. -/
def mark_dirty (b : Bufferpool) (pid : Chars) : Bufferpool :=
  if (alookup b.pages pid).isSome then
    { b with pages := aupdate b.pages pid (fun f => { f with is_dirty := true }) }
  else b

def flushAllLoop : List (Chars × PFrame) → List (Chars × Page) →
    List (Chars × PFrame) × List (Chars × Page)
  | [], disk => ([], disk)
  | (pid, f) :: rest, disk =>
    if f.is_dirty then
      let r := flushAllLoop rest (aupsert disk pid f.page)
      ((pid, { f with is_dirty := false }) :: r.1, r.2)
    else
      let r := flushAllLoop rest disk
      ((pid, f) :: r.1, r.2)

/-- `Bufferpool.flush_all`: write every dirty frame to disk and mark it
clean. -/
def bp_flush_all (b : Bufferpool) : Bufferpool :=
  let r := flushAllLoop b.pages b.disk
  { b with pages := r.1, disk := r.2 }

/-- `Bufferpool.evict_all`: evict frames until the pool is empty (the fuel
only bounds the loop; every successful eviction removes a frame, so
`b.pages.length` steps always suffice). -/
def evictAllLoop : Nat → Bufferpool → Except String Bufferpool
  | 0, b => .ok b
  | fuel + 1, b =>
    if b.pages = [] then .ok b
    else
      match evict_page b with
      | .error e => .error e
      | .ok b1 => evictAllLoop fuel b1

def bp_evict_all (b : Bufferpool) : Except String Bufferpool :=
  evictAllLoop b.pages.length b

/-! ## Flush and recovery (src/lstore/table.py)

`flushStorage` is `Bufferpool.flush_all` seen through the logical `Storage`
model: starting from an empty database directory, every page ever written
by the table layer is either resident and dirty (written now) or was
already written back by an eviction, so after the flush the page files hold
exactly the logical content of every written page. -/

def flushStorage (s : Storage) : List (Chars × Page) := s.pages

structure RecoverAcc where
  dir : List (Int × List (Option Loc))
  baseCount : Nat
  maxTailSeq : Int
deriving Repr

/-- The slot loop of `Table.recover` over one RID-column page: every slot
holding a readable RID binds all physical columns of that stripe at the
same slot, and bumps the base / tail counters. -/
def recoverSlots (name : Chars) (total : Nat) (pageNo : Int) (isBase : Bool)
    (p : Page) : List Nat → RecoverAcc → RecoverAcc
  | [], acc => acc
  | slot :: rest, acc =>
    match p.read slot with
    | none => recoverSlots name total pageNo isBase p rest acc
    | some rid_val =>
      let row : List (Option Loc) :=
        (List.range total).map (fun (c : Nat) =>
          some (PageID.render { table_name := name, column_index := (c : Int),
                                page_number := pageNo, is_base_page := isBase }, slot))
      let acc1 : RecoverAcc :=
        { dir := aupsert acc.dir rid_val row,
          baseCount := if isBase then max acc.baseCount (rid_val + 1).toNat else acc.baseCount,
          maxTailSeq :=
            if isBase then acc.maxTailSeq
            else if TAIL_RID_START ≤ rid_val then max acc.maxTailSeq (rid_val - TAIL_RID_START)
            else acc.maxTailSeq }
      recoverSlots name total pageNo isBase p rest acc1

/-- The file loop of `Table.recover`: disk entries are keyed by page id (the
`.page.json` suffix appended on write and stripped at scan time cancels
out).  Names that do not split into four parts are skipped; a part that
fails integer coercion raises (`none`); only RID-column pages of this table
are read. -/
def recoverFiles (name : Chars) (total : Nat) :
    List (Chars × Page) → RecoverAcc → Option RecoverAcc
  | [], acc => some acc
  | (pid, p) :: rest, acc =>
    match splitUnderscore pid with
    | [tname, colStr, pageStr, baseStr] =>
      if tname ≠ name then recoverFiles name total rest acc
      else
        match charsToInt colStr, charsToInt pageStr, charsToInt baseStr with
        | some ci, some pn, some bi =>
          if ci ≠ (RID_COLUMN : Int) then recoverFiles name total rest acc
          else
            recoverFiles name total rest
              (recoverSlots name total pn (bi ≠ 0) p (List.range p.num_records) acc)
        | _, _, _ => none
    | _ => recoverFiles name total rest acc

/-- `Table.recover` on a freshly constructed table (as performed by
`Database.open`): rebuild the page directory and counters from the
RID-column page files, then rebuild the primary-key index by materializing
every base RID's latest values from the recovered pages; `none` models a
raised exception. -/
def recover (name : Chars) (num_columns key : Nat) (disk : List (Chars × Page)) :
    Option Table :=
  let t0 := Table.init name num_columns key
  match recoverFiles name (META_COLUMNS + num_columns) disk
      { dir := [], baseCount := 0, maxTailSeq := -1 } with
  | none => none
  | some acc =>
    let t1 := { t0 with page_directory := acc.dir, base_record_count := acc.baseCount,
                        tail_record_count := (acc.maxTailSeq + 1).toNat }
    match createIndexScan t1 { pages := disk } key t1.page_directory [] with
    | none => none
    | some d =>
      some { t1 with indices :=
              (List.range num_columns).map (fun c => if c = key then some d else none) }

/-! ## Concrete scenario states

Small executable scenarios used to evaluate the engine at specific inputs
(tables named with single characters; timestamps are arbitrary). -/

/-- Two user columns, PK on column 0, with a secondary index created on
column 1 while the table is empty. -/
def c2_table : Table :=
  (create_index (Table.init ['u'] 2 0) { pages := [] } 1).getD (Table.init ['u'] 2 0)

/-- Insert the row `(1, 100)`. -/
def c2_afterInsert : Bool × Table × Storage :=
  insert_row c2_table { pages := [] } 5 [1, 100]

/-- Update column 1 of the row with PK 1 from 100 to 101. -/
def c2_afterUpdate : Bool × Table × Storage :=
  query_update c2_afterInsert.2.1 c2_afterInsert.2.2 6 1 [none, some 101]

/-- A transaction that inserts PK 5 and then attempts a duplicate insert of
PK 5 (the second insert returns `False`, so `run` aborts). -/
def c3_txn : Txn := Txn.make 0 [TOp.ins 3 [5, 7], TOp.ins 4 [5, 8]]

def c3_run : Bool × Table × Storage × List (Int × LockEntry) :=
  c3_txn.run 9 (Table.init ['v'] 2 0) { pages := [] } []

/-! ## Specification functions for versioned reads (claim C1)

The logical row state after applying a sequence of updates, written
directly from the spec's wording: an update overlays its non-`None` values
onto the current row. -/

/-- One logical update step: supplied values overwrite, `none` keeps. -/
def specApply (cur : List Int) (cols : List (Option Int)) : List Int :=
  List.zipWith (fun c v => Option.getD v c) cur cols

/-- Row state after a sequence of updates applied to a base row. -/
def stateAfter (base : List Int) (ups : List (List (Option Int))) : List Int :=
  ups.foldl specApply base

/-- The tail RID of the i-th tail record (0-based). -/
def tailRid (i : Nat) : Int := TAIL_RID_START + (i : Nat)

/-- Apply a list of timestamped updates to one primary key through
`Query.update`. -/
def runUpdates (pk : Int) : List (Int × List (Option Int)) → Table × Storage → Table × Storage
  | [], st => st
  | (ts, cols) :: rest, st =>
    runUpdates pk rest ((query_update st.1 st.2 ts pk cols).2.1,
      (query_update st.1 st.2 ts pk cols).2.2)

/-- The (bitmask, cumulative snapshot) pairs the engine writes for a
sequence of updates of one row, as computed by `Table.update_row`'s
`buildUpdate`. -/
def snapsOfAux (cur : List Int) : List (List (Option Int)) → List (Nat × List Int)
  | [] => []
  | cols :: rest =>
    ((buildUpdate 0 cur cols).2, (buildUpdate 0 cur cols).1) ::
      snapsOfAux (buildUpdate 0 cur cols).1 rest

def snapsOf (base : List Int) (ups : List (List (Option Int))) : List (Nat × List Int) :=
  snapsOfAux base ups

/-- The row state at 1-based snapshot index `n` (0 = base). -/
def stateAt (base : List Int) (snaps : List (Nat × List Int)) (n : Nat) : List Int :=
  if n = 0 then base else (snaps.getD (n - 1) (0, [])).2

/-- Single-row storage invariant: the exact table and storage state after
inserting `base` as row 0 of a fresh table and applying the value-changing
updates recorded in `snaps` (oldest first; `snaps[i]` is the bitmask and
cumulative snapshot of the i-th tail record). -/
def SInv (base : List Int) (snaps : List (Nat × List Int)) (t : Table) (s : Storage) : Prop :=
  0 < t.num_columns ∧ t.key < t.num_columns ∧
  base.length = t.num_columns ∧
  (∀ sn ∈ snaps, sn.2.length = t.num_columns) ∧
  t.base_record_count = 1 ∧
  t.tail_record_count = snaps.length ∧
  t.deleted = [] ∧
  t.indices = (List.range t.num_columns).map
    (fun c => if c = t.key then some [(base.getD t.key 0, [(0 : Int)])] else none) ∧
  dirLookup t 0 = some ((List.range t.total_cols).map
    (fun c => some (tablePid t.name c 0 true, 0))) ∧
  (∀ i, i < snaps.length → dirLookup t (tailRid i) = some ((List.range t.total_cols).map
    (fun c => some (tablePid t.name c (i / MAX_RECORDS_PER_PAGE) false,
      i % MAX_RECORDS_PER_PAGE)))) ∧
  (∀ rid : Int, rid ≠ 0 → (∀ i, i < snaps.length → rid ≠ tailRid i) →
    dirLookup t rid = none) ∧
  (∀ c, c < t.total_cols → ∃ pg, alookup s.pages (tablePid t.name c 0 true) = some pg ∧
    pg.num_records = 1 ∧ pg.data.length = 1) ∧
  (∀ c, c < t.total_cols → ∀ p : Nat,
    (MAX_RECORDS_PER_PAGE * p < snaps.length →
      ∃ pg, alookup s.pages (tablePid t.name c p false) = some pg ∧
        pg.num_records = min MAX_RECORDS_PER_PAGE (snaps.length - MAX_RECORDS_PER_PAGE * p) ∧
        pg.data.length = pg.num_records) ∧
    (snaps.length ≤ MAX_RECORDS_PER_PAGE * p →
      alookup s.pages (tablePid t.name c p false) = none)) ∧
  readCell t s 0 INDIRECTION_COLUMN =
    some (if snaps.length = 0 then 0 else tailRid (snaps.length - 1)) ∧
  (∀ c, c < t.num_columns → readCell t s 0 (META_COLUMNS + c) = some (base.getD c 0)) ∧
  (∀ i, i < snaps.length → readCell t s (tailRid i) INDIRECTION_COLUMN =
    some (if i = 0 then 0 else tailRid (i - 1))) ∧
  (∀ i, i < snaps.length → readCell t s (tailRid i) SCHEMA_ENCODING_COLUMN =
    some (((snaps.getD i (0, [])).1 : Int))) ∧
  (∀ i, i < snaps.length → ∀ c, c < t.num_columns →
    readCell t s (tailRid i) (META_COLUMNS + c) = some ((snaps.getD i (0, [])).2.getD c 0))

/-- Every update in the list changes at least one column value relative to
the evolving row state (its `buildUpdate` bitmask is non-zero). -/
def ChangingFrom : List Int → List (List (Option Int)) → Prop
  | _, [] => True
  | cur, cols :: rest =>
    (buildUpdate 0 cur cols).2 ≠ 0 ∧ ChangingFrom (buildUpdate 0 cur cols).1 rest

/-- All updates in the sequence report success through `Query.update`. -/
def runUpdatesOk (pk : Int) : List (Int × List (Option Int)) → Table × Storage → Bool
  | [], _ => true
  | (ts, cols) :: rest, st =>
    (query_update st.1 st.2 ts pk cols).1 &&
      runUpdatesOk pk rest ((query_update st.1 st.2 ts pk cols).2.1,
        (query_update st.1 st.2 ts pk cols).2.2)

/-- Consistency of the recorded schema bitmasks with the recorded cumulative
snapshots: bit `c` of snapshot `i`'s mask is set exactly when column `c`
changed relative to the previous state. -/
def MaskOk (base : List Int) (snaps : List (Nat × List Int)) : Prop :=
  ∀ i, i < snaps.length → ∀ c, c < base.length →
    ((snaps.getD i (0, [])).1.testBit c =
      decide ((snaps.getD i (0, [])).2.getD c 0 ≠ (stateAt base snaps i).getD c 0))

/-- One operation of an insert/update workload: `Query.insert` with a full
row, or `Query.update` addressed by primary key with an optional value per
user column (`none` = leave unchanged). -/
inductive C8Op where
  | ins (ts : Int) (cols : List Int)
  | upd (ts : Int) (pk : Int) (cols : List (Option Int))
deriving DecidableEq, Repr

/-- Run a workload of inserts and updates (timestamps are arbitrary). -/
def runOps : List C8Op → Table × Storage → Table × Storage
  | [], st => st
  | C8Op.ins ts cols :: rest, st =>
    runOps rest ((insert_row st.1 st.2 ts cols).2.1, (insert_row st.1 st.2 ts cols).2.2)
  | C8Op.upd ts pk cols :: rest, st =>
    runOps rest ((query_update st.1 st.2 ts pk cols).2.1, (query_update st.1 st.2 ts pk cols).2.2)

/-- All operations in the workload report success. -/
def runOpsOk : List C8Op → Table × Storage → Bool
  | [], _ => true
  | C8Op.ins ts cols :: rest, st =>
    (insert_row st.1 st.2 ts cols).1 &&
      runOpsOk rest ((insert_row st.1 st.2 ts cols).2.1, (insert_row st.1 st.2 ts cols).2.2)
  | C8Op.upd ts pk cols :: rest, st =>
    (query_update st.1 st.2 ts pk cols).1 &&
      runOpsOk rest ((query_update st.1 st.2 ts pk cols).2.1,
        (query_update st.1 st.2 ts pk cols).2.2)

/-- The primary keys inserted by a workload, in order. -/
def insPks (key : Nat) : List C8Op → List Int
  | [] => []
  | C8Op.ins _ cols :: rest => cols.getD key 0 :: insPks key rest
  | C8Op.upd _ _ _ :: rest => insPks key rest

/-- Well-formed workload relative to the already-inserted primary keys:
inserts carry a full row with a fresh primary key; updates carry a full
option row that leaves the key column untouched and address an inserted
primary key. -/
def c8wf (U key : Nat) : List C8Op → List Int → Bool
  | [], _ => true
  | C8Op.ins _ cols :: rest, pks =>
    decide (cols.length = U) && decide (∀ pk ∈ pks, cols.getD key 0 ≠ pk) &&
      c8wf U key rest (pks ++ [cols.getD key 0])
  | C8Op.upd _ pk cols :: rest, pks =>
    decide (cols.length = U) && decide (cols.get? key = some none) && decide (pk ∈ pks) &&
      c8wf U key rest pks

/-- Position of the last occurrence of `r` in the tail-owner list. -/
def lastIdx : List Nat → Nat → Option Nat
  | [], _ => none
  | a :: rest, r =>
    match lastIdx rest r with
    | some k => some (k + 1)
    | none => if a = r then some 0 else none

/-- The INDIRECTION cell of base row `r`: the RID of its newest tail record,
or `0` when the row was never updated. -/
def indVal (tl : List Nat) (r : Nat) : Int :=
  match lastIdx tl r with
  | none => 0
  | some k => TAIL_RID_START + (k : Int)

/-- The canonical page-directory row of base record `r`: every physical
column bound to the stripe page of `r` at slot `r % MAX_RECORDS_PER_PAGE`. -/
def C8Row (name : Chars) (total r : Nat) : List (Option Loc) :=
  (List.range total).map (fun c =>
    some (tablePid name c (r / MAX_RECORDS_PER_PAGE) true, r % MAX_RECORDS_PER_PAGE))

/-- The canonical page-directory row of tail record `k`: every physical
column bound to the tail stripe page of `k` at slot
`k % MAX_RECORDS_PER_PAGE`. -/
def C8RowT (name : Chars) (total k : Nat) : List (Option Loc) :=
  (List.range total).map (fun c =>
    some (tablePid name c (k / MAX_RECORDS_PER_PAGE) false, k % MAX_RECORDS_PER_PAGE))

/-- Multi-row storage invariant for a table populated by successful inserts
with primary keys `pks` (in order) and cumulative tail records owned by the
base rows listed in `tl` (in write order), with no deletes and no updates
of the key column: exact counters, index, directory and page shapes, with
the RID / INDIRECTION / key-column page contents pinned. -/
def C8Inv (name : Chars) (U key : Nat) (pks : List Int) (tl : List Nat)
    (t : Table) (s : Storage) : Prop :=
  t.name = name ∧ t.key = key ∧ t.num_columns = U ∧
  t.base_record_count = pks.length ∧ t.tail_record_count = tl.length ∧ t.deleted = [] ∧
  (∀ k, k < tl.length → tl.getD k 0 < pks.length) ∧
  t.indices = (List.range U).map (fun c => if c = key then
    some ((List.range pks.length).map (fun r => (pks.getD r 0, [(r : Int)]))) else none) ∧
  (∀ r : Nat, r < pks.length →
    dirLookup t (r : Nat) = some (C8Row name (META_COLUMNS + U) r)) ∧
  (∀ k : Nat, k < tl.length →
    dirLookup t (TAIL_RID_START + (k : Int)) = some (C8RowT name (META_COLUMNS + U) k)) ∧
  (∀ rid : Int, (∀ r : Nat, r < pks.length → rid ≠ (r : Nat)) →
    (∀ k : Nat, k < tl.length → rid ≠ TAIL_RID_START + (k : Int)) →
    dirLookup t rid = none) ∧
  (∀ c, c < META_COLUMNS + U → ∀ p : Nat,
    (MAX_RECORDS_PER_PAGE * p < pks.length →
      ∃ pg, alookup s.pages (tablePid name c p true) = some pg ∧
        pg.num_records = min MAX_RECORDS_PER_PAGE (pks.length - MAX_RECORDS_PER_PAGE * p) ∧
        pg.data.length = pg.num_records ∧
        (c = RID_COLUMN → ∀ j, j < pg.num_records →
          pg.read j = some ((MAX_RECORDS_PER_PAGE * p + j : Nat) : Int)) ∧
        (c = INDIRECTION_COLUMN → ∀ j, j < pg.num_records →
          pg.read j = some (indVal tl (MAX_RECORDS_PER_PAGE * p + j))) ∧
        (c = META_COLUMNS + key → ∀ j, j < pg.num_records →
          pg.read j = some (pks.getD (MAX_RECORDS_PER_PAGE * p + j) 0))) ∧
    (pks.length ≤ MAX_RECORDS_PER_PAGE * p →
      alookup s.pages (tablePid name c p true) = none)) ∧
  (∀ c, c < META_COLUMNS + U → ∀ q : Nat,
    (MAX_RECORDS_PER_PAGE * q < tl.length →
      ∃ pg, alookup s.pages (tablePid name c q false) = some pg ∧
        pg.num_records = min MAX_RECORDS_PER_PAGE (tl.length - MAX_RECORDS_PER_PAGE * q) ∧
        pg.data.length = pg.num_records ∧
        (c = RID_COLUMN → ∀ j, j < pg.num_records →
          pg.read j = some (TAIL_RID_START + ((MAX_RECORDS_PER_PAGE * q + j : Nat) : Int))) ∧
        (c = META_COLUMNS + key → ∀ j, j < pg.num_records →
          pg.read j = some (pks.getD (tl.getD (MAX_RECORDS_PER_PAGE * q + j) 0) 0))) ∧
    (tl.length ≤ MAX_RECORDS_PER_PAGE * q →
      alookup s.pages (tablePid name c q false) = none)) ∧
  (∀ pid : Chars, (∀ c p : Nat, c < META_COLUMNS + U → pid ≠ tablePid name c p true) →
    (∀ c q : Nat, c < META_COLUMNS + U → pid ≠ tablePid name c q false) →
    alookup s.pages pid = none) ∧
  (s.pages.map Prod.fst).Nodup

/-! # Theorems -/

/-! ## Decimal round-trip lemmas -/

theorem charDigit_digitChar (d : Nat) (h : d < 10) : charDigit (digitChar d) = some d := by
  interval_cases d <;> rfl

theorem charDigit_digitChar_isSome (d : Nat) : (charDigit (digitChar d)).isSome := by
  rcases Nat.lt_or_ge d 9 with h | h
  · rw [charDigit_digitChar d (by omega)]; rfl
  · have : digitChar d = '9' := by
      unfold digitChar
      rcases d with _ | _ | _ | _ | _ | _ | _ | _ | _ | d <;> first | omega | rfl
    rw [this]; rfl

theorem charsToNatAux_append (A B : List Char) (acc : Nat) :
    charsToNatAux (A ++ B) acc =
      match charsToNatAux A acc with
      | none => none
      | some v => charsToNatAux B v := by
  induction A generalizing acc with
  | nil => simp [charsToNatAux]
  | cons c cs ih =>
    simp only [List.cons_append, charsToNatAux]
    cases charDigit c with
    | none => rfl
    | some d => simpa using ih (acc * 10 + d)

theorem natCharsAux_correct (fuel : Nat) :
    ∀ n acc, n ≤ fuel →
      charsToNatAux (natCharsAux fuel n) acc =
        some (acc * 10 ^ (natCharsAux fuel n).length + n) := by
  induction fuel with
  | zero => intro n acc h; interval_cases n; simp [natCharsAux, charsToNatAux]
  | succ fuel ih =>
    intro n acc h
    by_cases hn : n = 0
    · subst hn; simp [natCharsAux, charsToNatAux]
    · have hstep : natCharsAux (fuel + 1) n = natCharsAux fuel (n / 10) ++ [digitChar (n % 10)] := by
        simp [natCharsAux, hn]
      have hdiv : n / 10 ≤ fuel := by
        have := Nat.div_lt_self (Nat.pos_of_ne_zero hn) (by norm_num : 1 < 10)
        omega
      rw [hstep, charsToNatAux_append, ih (n / 10) acc hdiv]
      simp only [charsToNatAux, charDigit_digitChar (n % 10) (Nat.mod_lt n (by norm_num)),
        List.length_append, List.length_cons, List.length_nil]
      congr 1
      have hmod : 10 * (n / 10) + n % 10 = n := Nat.div_add_mod n 10
      calc (acc * 10 ^ (natCharsAux fuel (n / 10)).length + n / 10) * 10 + n % 10
          = acc * (10 ^ (natCharsAux fuel (n / 10)).length * 10) + (10 * (n / 10) + n % 10) := by
            ring
        _ = acc * 10 ^ ((natCharsAux fuel (n / 10)).length + 1) + n := by
            rw [pow_succ, hmod]

theorem natChars_ne_nil (n : Nat) : natChars n ≠ [] := by
  unfold natChars
  by_cases hn : n = 0
  · simp [hn]
  · simp only [hn, if_false]
    cases n with
    | zero => omega
    | succ m => simp [natCharsAux, hn]

theorem charsToNat_natChars (n : Nat) : charsToNat (natChars n) = some n := by
  unfold charsToNat
  rw [if_neg (natChars_ne_nil n)]
  by_cases hn : n = 0
  · subst hn; rfl
  · unfold natChars
    rw [if_neg hn]
    simpa using natCharsAux_correct n n 0 le_rfl

theorem mem_natCharsAux_digit (fuel n : Nat) :
    ∀ c ∈ natCharsAux fuel n, (charDigit c).isSome := by
  induction fuel generalizing n with
  | zero => intro c hc; simp [natCharsAux] at hc
  | succ fuel ih =>
    intro c hc
    unfold natCharsAux at hc
    by_cases hn : n = 0
    · simp [hn] at hc
    · rw [if_neg hn] at hc
      rcases List.mem_append.mp hc with h | h
      · exact ih (n / 10) c h
      · rcases List.mem_singleton.mp h with rfl
        exact charDigit_digitChar_isSome (n % 10)

theorem mem_natChars_digit (n : Nat) : ∀ c ∈ natChars n, (charDigit c).isSome := by
  intro c hc
  unfold natChars at hc
  by_cases hn : n = 0
  · simp [hn] at hc; subst hc; rfl
  · rw [if_neg hn] at hc
    exact mem_natCharsAux_digit n n c hc

theorem natChars_no_underscore (n : Nat) : '_' ∉ natChars n := by
  intro h
  have := mem_natChars_digit n '_' h
  simp [charDigit] at this

theorem intChars_no_underscore (n : Int) : '_' ∉ intChars n := by
  unfold intChars
  split
  · intro h
    rcases List.mem_cons.mp h with h | h
    · exact absurd h (by decide)
    · exact natChars_no_underscore _ h
  · exact natChars_no_underscore _

theorem charsToInt_cons_ne_dash (c : Char) (cs : List Char) (m : Nat) (h : c ≠ '-')
    (hm : charsToNat (c :: cs) = some m) : charsToInt (c :: cs) = some ((m : Int)) := by
  simp [charsToInt, h, hm]

theorem charsToInt_dash (l : List Char) (m : Nat) (hm : charsToNat l = some m) :
    charsToInt ('-' :: l) = some (-(m : Int)) := by
  simp [charsToInt, hm]

theorem natChars_head_digit (n : Nat) :
    ∃ c cs, natChars n = c :: cs ∧ (charDigit c).isSome := by
  cases hl : natChars n with
  | nil => exact absurd hl (natChars_ne_nil n)
  | cons c cs =>
    refine ⟨c, cs, rfl, ?_⟩
    exact mem_natChars_digit n c (hl ▸ List.mem_cons_self c cs)

theorem charsToInt_intChars (n : Int) : charsToInt (intChars n) = some n := by
  unfold intChars
  by_cases hneg : n < 0
  · rw [if_pos hneg]
    show charsToInt ('-' :: natChars (-n).toNat) = some n
    rw [charsToInt_dash _ _ (charsToNat_natChars _)]
    congr 1
    rw [Int.toNat_of_nonneg (by omega : (0 : Int) ≤ -n)]
    ring
  · rw [if_neg hneg]
    obtain ⟨c, cs, hl, hdig⟩ := natChars_head_digit n.toNat
    rw [hl, charsToInt_cons_ne_dash c cs n.toNat
      (by rintro rfl; simp [charDigit] at hdig) (hl ▸ charsToNat_natChars n.toNat)]
    congr 1
    omega

/-! ## Split lemmas -/

theorem splitUnderscoreAux_no_underscore (xs : List Char) (h : '_' ∉ xs) :
    ∀ rest acc, splitUnderscoreAux (xs ++ rest) acc = splitUnderscoreAux rest (xs.reverse ++ acc) := by
  induction xs with
  | nil => intro rest acc; simp
  | cons c cs ih =>
    intro rest acc
    have hc : c ≠ '_' := fun hc => h (hc ▸ List.mem_cons_self c cs)
    have hcs : '_' ∉ cs := fun hm => h (List.mem_cons_of_mem c hm)
    simp only [List.cons_append, splitUnderscoreAux, if_neg (by simpa using hc)]
    rw [List.append_eq, ih hcs rest (c :: acc)]
    simp

theorem splitUnderscoreAux_underscore (xs : List Char) (h : '_' ∉ xs) (rest acc : List Char) :
    splitUnderscoreAux (xs ++ '_' :: rest) acc =
      (acc.reverse ++ xs) :: splitUnderscoreAux rest [] := by
  rw [splitUnderscoreAux_no_underscore xs h ('_' :: rest) acc]
  simp [splitUnderscoreAux]

theorem splitUnderscoreAux_final (xs : List Char) (h : '_' ∉ xs) (acc : List Char) :
    splitUnderscoreAux (xs ++ []) acc = [acc.reverse ++ xs] := by
  rw [splitUnderscoreAux_no_underscore xs h [] acc]
  simp [splitUnderscoreAux]

theorem splitUnderscore_four (n A B C : List Char)
    (hn : '_' ∉ n) (hA : '_' ∉ A) (hB : '_' ∉ B) (hC : '_' ∉ C) :
    splitUnderscore (n ++ '_' :: (A ++ '_' :: (B ++ '_' :: C))) = [n, A, B, C] := by
  unfold splitUnderscore
  rw [splitUnderscoreAux_underscore n hn, splitUnderscoreAux_underscore A hA,
    splitUnderscoreAux_underscore B hB]
  have := splitUnderscoreAux_final C hC []
  simp only [List.append_nil] at this
  rw [this]
  simp

/-! ## C9: PageID canonical string round-trip -/

/-- C9 (counterexample): for a table name containing an underscore the
canonical string does not round-trip: parsing the rendered string of
PageID("a_b", 0, 0, base) fails, instead of succeeding with equal
components as the claim states. -/
theorem claim_c9_counterexample :
    PageID.parse (PageID.render
      { table_name := ['a', '_', 'b'], column_index := 0, page_number := 0,
        is_base_page := true }) = none := by
  decide

/-- C9 (amended): for every PageID whose table name contains no underscore
(the engine's separator character), rendering to the canonical
string and parsing back succeeds and returns the original components. -/
theorem claim_c9 (p : PageID) (h : '_' ∉ p.table_name) :
    PageID.parse (PageID.render p) = some p := by
  obtain ⟨tn, ci, pn, ib⟩ := p
  simp only at h
  cases ib with
  | true =>
    have hr : PageID.render
        { table_name := tn, column_index := ci, page_number := pn, is_base_page := true }
        = tn ++ '_' :: (intChars ci ++ '_' :: (intChars pn ++ '_' :: ['1'])) := rfl
    rw [hr]
    unfold PageID.parse
    rw [splitUnderscore_four tn (intChars ci) (intChars pn) ['1'] h
      (intChars_no_underscore _) (intChars_no_underscore _) (by decide)]
    simp only [PageID.parseParts, charsToInt_intChars]
    have h1 : charsToInt ['1'] = some 1 := by decide
    rw [h1]
    simp
  | false =>
    have hr : PageID.render
        { table_name := tn, column_index := ci, page_number := pn, is_base_page := false }
        = tn ++ '_' :: (intChars ci ++ '_' :: (intChars pn ++ '_' :: ['0'])) := rfl
    rw [hr]
    unfold PageID.parse
    rw [splitUnderscore_four tn (intChars ci) (intChars pn) ['0'] h
      (intChars_no_underscore _) (intChars_no_underscore _) (by decide)]
    simp only [PageID.parseParts, charsToInt_intChars]
    have h0 : charsToInt ['0'] = some 0 := by decide
    rw [h0]
    simp

/-- C9 witness: a concrete underscore-free PageID round-trips. -/
theorem claim_c9_witness :
    PageID.parse (PageID.render
      { table_name := ['t'], column_index := 2, page_number := 3,
        is_base_page := false }) =
      some { table_name := ['t'], column_index := 2, page_number := 3,
             is_base_page := false } :=
  claim_c9 _ (by decide)

/-! ## C4: exclusive lock acquisition -/

/-- C4: over well-formed lock entries (an exclusive holder excludes shared
holders, the invariant `acquire_shared` / `acquire_exclusive` /
`release_all` maintain), `acquire_exclusive(txn, rid)` grants (or retains)
the exclusive lock exactly when the entry holds no locks, or the
transaction already holds the exclusive lock, or it is the sole shared
holder (whose shared lock is then upgraded); in every other case it raises
`LockException` (so, being pure, it leaves the lock table unmodified). -/
theorem claim_c4 (txn_id : Nat) (e : LockEntry)
    (hwf : ∀ u, e.exclusive = some u → e.shared = ∅) :
    ((∃ r, acquire_exclusive txn_id e = .ok r) ↔
      ((e.shared = ∅ ∧ e.exclusive = none) ∨ e.exclusive = some txn_id ∨
        e.shared = {txn_id})) ∧
    (∀ r, acquire_exclusive txn_id e = .ok r → r.exclusive = some txn_id) ∧
    (e.exclusive = some txn_id → acquire_exclusive txn_id e = .ok e) ∧
    (e.shared = {txn_id} →
      acquire_exclusive txn_id e = .ok { shared := ∅, exclusive := some txn_id }) ∧
    (¬ ((e.shared = ∅ ∧ e.exclusive = none) ∨ e.exclusive = some txn_id ∨
        e.shared = {txn_id}) →
      ∃ msg, acquire_exclusive txn_id e = .error msg) := by
  obtain ⟨sh, ex⟩ := e
  unfold acquire_exclusive
  by_cases hex : ex = some txn_id
  · subst hex
    have hsh : sh = ∅ := hwf txn_id rfl
    subst hsh
    refine ⟨?_, ?_, ?_, ?_, ?_⟩
    · simp
    · intro r hr
      simp at hr
      rw [← hr]
    · intro _; simp
    · intro hcontra; exact absurd hcontra.symm (by simp)
    · intro hcontra; exact absurd (Or.inr (Or.inl rfl)) hcontra
  · rw [if_neg (by simpa using hex)]
    by_cases hmem : txn_id ∈ sh
    · rw [if_pos hmem]
      by_cases hcard : sh.card = 1
      · have hsing : sh = {txn_id} := by
          rcases Finset.card_eq_one.mp hcard with ⟨a, ha⟩
          subst ha
          rcases Finset.mem_singleton.mp hmem with rfl
          rfl
        rw [if_pos hcard]
        subst hsing
        have hexn : ex = none := by
          cases ex with
          | none => rfl
          | some u =>
            have := hwf u rfl
            simp at this
        subst hexn
        refine ⟨?_, ?_, ?_, ?_, ?_⟩
        · simp
        · intro r hr
          simp at hr
          rw [← hr]
        · intro hc; exact absurd hc (by simp)
        · intro _
          simp [Finset.erase_singleton]
        · intro hcontra; exact absurd (Or.inr (Or.inr rfl)) hcontra
      · rw [if_neg hcard]
        have hns : ¬ (sh = ∅ ∧ ex = none) := by
          rintro ⟨h1, _⟩
          subst h1
          simp at hmem
        have hnsing : sh ≠ {txn_id} := by
          intro h1
          subst h1
          simp at hcard
        refine ⟨?_, ?_, ?_, ?_, ?_⟩
        · constructor
          · rintro ⟨r, hr⟩; simp at hr
          · rintro (h1 | h1 | h1)
            · exact absurd h1 hns
            · exact absurd h1 hex
            · exact absurd h1 hnsing
        · intro r hr; simp at hr
        · intro h1; exact absurd h1 hex
        · intro h1; exact absurd h1 hnsing
        · intro _; exact ⟨_, rfl⟩
    · rw [if_neg hmem]
      by_cases hheld : sh ≠ ∅ ∨ ex.isSome
      · rw [if_pos hheld]
        have hns : ¬ (sh = ∅ ∧ ex = none) := by
          rintro ⟨h1, h2⟩
          rcases hheld with h3 | h3
          · exact h3 h1
          · rw [h2] at h3; simp at h3
        have hnsing : sh ≠ {txn_id} := by
          intro h1; subst h1; simp at hmem
        refine ⟨?_, ?_, ?_, ?_, ?_⟩
        · constructor
          · rintro ⟨r, hr⟩; simp at hr
          · rintro (h1 | h1 | h1)
            · exact absurd h1 hns
            · exact absurd h1 hex
            · exact absurd h1 hnsing
        · intro r hr; simp at hr
        · intro h1; exact absurd h1 hex
        · intro h1; exact absurd h1 hnsing
        · intro _; exact ⟨_, rfl⟩
      · rw [if_neg hheld]
        have h1e : sh = ∅ := by
          by_contra hne
          exact hheld (Or.inl hne)
        have h2e : ex = none := by
          cases ex with
          | none => rfl
          | some u => exact absurd (Or.inr rfl) hheld
        subst h1e h2e
        refine ⟨?_, ?_, ?_, ?_, ?_⟩
        · simp
        · intro r hr
          simp at hr
          rw [← hr]
        · intro h3; exact absurd h3 (by simp)
        · intro h3; exact absurd h3.symm (by simp)
        · intro hcontra; exact absurd (Or.inl ⟨rfl, rfl⟩) hcontra

/-- C4 witness: with a concrete entry held shared by another transaction,
acquisition raises; with the transaction as sole shared holder, and the
entry is upgraded. -/
theorem claim_c4_witness :
    (∃ msg, acquire_exclusive 1 { shared := {2}, exclusive := none } = .error msg) ∧
      acquire_exclusive 1 { shared := {1}, exclusive := none } =
        .ok { shared := ∅, exclusive := some 1 } := by
  constructor
  · exact (claim_c4 1 { shared := {2}, exclusive := none }
      (by intro u hu; simp at hu)).2.2.2.2 (by decide)
  · exact (claim_c4 1 { shared := {1}, exclusive := none }
      (by intro u hu; simp at hu)).2.2.2.1 (by decide)

/-! ## C10: pin / unpin / mark_dirty on a non-resident page -/

/-- C10: calling `pin_page`, `unpin_page` or `mark_dirty` with a page id
that is not resident leaves the buffer pool completely unchanged (no
exception is raised — the functions are total — no frame is installed, and
no resident frame's pinned or dirty state changes); in particular a
`mark_dirty` issued before the page is loaded is lost. -/
theorem claim_c10 (b : Bufferpool) (pid : Chars) (h : alookup b.pages pid = none) :
    pin_page b pid = b ∧ unpin_page b pid = b ∧ mark_dirty b pid = b := by
  unfold pin_page unpin_page mark_dirty
  rw [h]
  simp

/-- C10 witness: a concrete pool with one resident frame ignores operations
on a different page id. -/
theorem claim_c10_witness :
    pin_page
        { size := 2,
          pages := [(['a'], { page := Page.empty, is_dirty := false,
                              is_pinned := false, last_access_time := 1 })],
          clock := 1, disk := [] } ['z'] =
      { size := 2,
        pages := [(['a'], { page := Page.empty, is_dirty := false,
                            is_pinned := false, last_access_time := 1 })],
        clock := 1, disk := [] } :=
  (claim_c10 _ ['z'] (by decide)).1

/-! ## C2: secondary index maintenance on update (code bug) -/

/-- C2 (failing input): with a secondary index on non-PK column 1, insert
`(1, 100)` and update column 1 to 101.  Both operations succeed and the
latest materialized row is `[1, 101]`, but `Table.update_row` never calls
`Index.update_entry` (that function has no caller in the code base), so the
RID is not in the posting list of its latest value 101 and still sits in
the posting list of the stale value 100 — the claimed invariant fails. -/
theorem claim_c2_failing_input :
    c2_afterInsert.1 = true ∧ c2_afterUpdate.1 = true ∧
      materialize_latest c2_afterUpdate.2.1 c2_afterUpdate.2.2 0 = some [1, 101] ∧
      locate c2_afterUpdate.2.1 1 101 = [] ∧
      locate c2_afterUpdate.2.1 1 100 = [0] := by
  decide

/-! ## C3: transaction abort rollback (code bug) -/

/-- C3 (failing input): a transaction inserts PK 5 and then fails on a
duplicate insert; `run()` aborts and returns `False` and all locks are
released (none were acquired — the query layer never touches the lock
manager), but the effects of the executed insert are NOT undone: no query
operator ever appends to the rollback logs, so the inserted RID stays
live (not marked deleted), its PK entry survives in the index, and the row
remains selectable. -/
theorem claim_c3_failing_input :
    c3_run.1 = false ∧
      c3_run.2.1.deleted = [] ∧
      locate c3_run.2.1 0 5 = [0] ∧
      query_select c3_run.2.1 c3_run.2.2.1 5 0 [1, 1] = [[some 5, some 7]] ∧
      c3_run.2.2.2 = [] := by
  decide

/-! ## C5: eviction policy lemmas -/

theorem alookup_of_mem_nodup {α β : Type} [DecidableEq α] (l : List (α × β)) (k : α) (v : β)
    (hmem : (k, v) ∈ l) (hnd : (l.map Prod.fst).Nodup) : alookup l k = some v := by
  induction l with
  | nil => simp at hmem
  | cons kv rest ih =>
    obtain ⟨k0, v0⟩ := kv
    simp only [List.map_cons, List.nodup_cons] at hnd
    rcases List.mem_cons.mp hmem with h | h
    · obtain ⟨rfl, rfl⟩ := Prod.mk.injEq .. ▸ h
      simp [alookup]
    · have hk : k ≠ k0 := by
        rintro rfl
        exact hnd.1 (List.mem_map.mpr ⟨(k, v), h, rfl⟩)
      simp only [alookup, if_neg hk]
      exact ih h hnd.2

theorem scanVictim_none (pred : PFrame → Bool) (l : List (Chars × PFrame))
    (h : ∀ pf ∈ l, pred pf.2 = false) : scanVictim pred l none = none := by
  induction l with
  | nil => rfl
  | cons pf rest ih =>
    obtain ⟨pid, f⟩ := pf
    simp only [scanVictim]
    rw [h (pid, f) (List.mem_cons_self _ _)]
    simp only [Bool.false_eq_true, if_false]
    exact ih (fun pf hm => h pf (List.mem_cons_of_mem _ hm))

theorem scanVictim_stable (pred : PFrame → Bool) (l : List (Chars × PFrame))
    (v : Chars) (tv : Nat)
    (h : ∀ pf ∈ l, pred pf.2 = true → tv < pf.2.last_access_time) :
    scanVictim pred l (some (v, tv)) = some (v, tv) := by
  induction l with
  | nil => rfl
  | cons pf rest ih =>
    obtain ⟨pid, f⟩ := pf
    simp only [scanVictim]
    have hcond : ¬ (pred f = true ∧ f.last_access_time < tv) := by
      rintro ⟨h1, h2⟩
      have h3 := h (pid, f) (List.mem_cons_self _ _) h1
      dsimp only at h3
      omega
    rw [if_neg hcond]
    exact ih (fun pf hm hp => h pf (List.mem_cons_of_mem _ hm) hp)

theorem scanVictim_min (pred : PFrame → Bool) (l : List (Chars × PFrame))
    (vid : Chars) (f : PFrame)
    (hmem : (vid, f) ∈ l) (hpred : pred f = true)
    (hmin : ∀ pf ∈ l, pred pf.2 = true → f.last_access_time ≤ pf.2.last_access_time)
    (hdist : l.Pairwise (fun x y => x.2.last_access_time ≠ y.2.last_access_time)) :
    ∀ acc : Option (Chars × Nat),
      (∀ w bt, acc = some (w, bt) → f.last_access_time < bt) →
      scanVictim pred l acc = some (vid, f.last_access_time) := by
  induction l with
  | nil => simp at hmem
  | cons pf rest ih =>
    obtain ⟨pid, g⟩ := pf
    intro acc hacc
    rcases List.mem_cons.mp hmem with hhead | htail
    · cases hhead
      have hstep : ∀ pf ∈ rest, pred pf.2 = true →
          f.last_access_time < pf.2.last_access_time := by
        intro pf hm hp
        have hle := hmin pf (List.mem_cons_of_mem _ hm) hp
        have hne := (List.pairwise_cons.mp hdist).1 pf hm
        dsimp only at hne
        omega
      cases acc with
      | none =>
        simp only [scanVictim]
        rw [if_pos hpred]
        exact scanVictim_stable pred rest vid f.last_access_time hstep
      | some wp =>
        obtain ⟨w, bt⟩ := wp
        simp only [scanVictim]
        rw [if_pos ⟨hpred, hacc w bt rfl⟩]
        exact scanVictim_stable pred rest vid f.last_access_time hstep
    · have hminrest : ∀ pf ∈ rest, pred pf.2 = true → f.last_access_time ≤ pf.2.last_access_time :=
        fun pf hm hp => hmin pf (List.mem_cons_of_mem _ hm) hp
      have hdrest : rest.Pairwise (fun x y => x.2.last_access_time ≠ y.2.last_access_time) :=
        (List.pairwise_cons.mp hdist).2
      have hfg : pred g = true → f.last_access_time < g.last_access_time := by
        intro hp
        have hle := hmin (pid, g) (List.mem_cons_self _ _) hp
        have hne := (List.pairwise_cons.mp hdist).1 (vid, f) htail
        dsimp only at hle hne
        omega
      cases acc with
      | none =>
        simp only [scanVictim]
        by_cases hp : pred g = true
        · rw [if_pos hp]
          exact ih htail hminrest hdrest (some (pid, g.last_access_time))
            (by rintro w bt h; cases h; exact hfg hp)
        · rw [if_neg hp]
          exact ih htail hminrest hdrest none (by rintro w bt h; cases h)
      | some wp =>
        obtain ⟨w, bt⟩ := wp
        simp only [scanVictim]
        by_cases hcond : pred g = true ∧ g.last_access_time < bt
        · rw [if_pos hcond]
          exact ih htail hminrest hdrest (some (pid, g.last_access_time))
            (by rintro w1 bt1 h; cases h; exact hfg hcond.1)
        · rw [if_neg hcond]
          exact ih htail hminrest hdrest (some (w, bt))
            (by rintro w1 bt1 h; cases h; exact hacc w bt rfl)

/-- C5: whenever the buffer pool must evict (at capacity on a miss, or
while `evict_all` drains), and the frames carry pairwise-distinct LRU
ticks and unique page ids (both invariants of the pool): (1) if an
unpinned clean frame exists, `_evict_page` removes the unpinned clean frame
with the smallest `last_access` and writes nothing back; (2) otherwise, if
an unpinned (necessarily dirty) frame exists, it removes the unpinned
frame with the smallest `last_access` after writing its page to storage;
(3) if every frame is pinned, it raises the all-frames-pinned error and
removes nothing (the error branch returns before touching the frame
table). -/
theorem claim_c5 (b : Bufferpool)
    (hdist : b.pages.Pairwise (fun x y => x.2.last_access_time ≠ y.2.last_access_time))
    (hkeys : (b.pages.map Prod.fst).Nodup) :
    (∀ vid f, (vid, f) ∈ b.pages → f.is_pinned = false → f.is_dirty = false →
      (∀ pf ∈ b.pages, pf.2.is_pinned = false → pf.2.is_dirty = false →
        f.last_access_time ≤ pf.2.last_access_time) →
      evict_page b = .ok { b with pages := aremove b.pages vid }) ∧
    ((∀ pf ∈ b.pages, pf.2.is_pinned = false → pf.2.is_dirty = true) →
      ∀ vid f, (vid, f) ∈ b.pages → f.is_pinned = false →
      (∀ pf ∈ b.pages, pf.2.is_pinned = false →
        f.last_access_time ≤ pf.2.last_access_time) →
      evict_page b = .ok { b with pages := aremove b.pages vid,
                                  disk := aupsert b.disk vid f.page }) ∧
    ((∀ pf ∈ b.pages, pf.2.is_pinned = true) →
      ∃ msg, evict_page b = .error msg) := by
  refine ⟨?_, ?_, ?_⟩
  · intro vid f hmem hpin hdirty hmin
    unfold evict_page
    rw [scanVictim_min (fun g => g.is_pinned = false ∧ g.is_dirty = false) b.pages vid f hmem
      (by simp [hpin, hdirty])
      (by
        intro pf hm hp
        simp only [Bool.and_eq_true, decide_eq_true_eq] at hp
        exact hmin pf hm hp.1 hp.2)
      hdist none (by rintro w bt h; cases h)]
    simp only
    rw [alookup_of_mem_nodup b.pages vid f hmem hkeys]
    simp [hdirty]
  · intro hnoclean vid f hmem hpin hmin
    have hdirty : f.is_dirty = true := hnoclean (vid, f) hmem hpin
    unfold evict_page
    rw [scanVictim_none (fun g => g.is_pinned = false ∧ g.is_dirty = false) b.pages
      (by
        intro pf hm
        by_cases hp : pf.2.is_pinned = false
        · have := hnoclean pf hm hp
          simp [hp, this]
        · simp only [Bool.not_eq_false] at hp
          simp [hp])]
    rw [scanVictim_min (fun g => g.is_pinned = false) b.pages vid f hmem
      (by simp [hpin])
      (by
        intro pf hm hp
        simp only [decide_eq_true_eq] at hp
        exact hmin pf hm hp)
      hdist none (by rintro w bt h; cases h)]
    simp only
    rw [alookup_of_mem_nodup b.pages vid f hmem hkeys]
    simp [hdirty, write_page_to_disk]
  · intro hall
    unfold evict_page
    rw [scanVictim_none _ b.pages (by intro pf hm; simp [hall pf hm]),
      scanVictim_none _ b.pages (by intro pf hm; simp [hall pf hm])]
    exact ⟨_, rfl⟩

/-- C5 witness: a two-frame pool where the clean newer frame is evicted in
preference to the older dirty one; and the same pool with the clean frame
pinned evicts the dirty frame, writing it back. -/
theorem claim_c5_witness :
    evict_page
        { size := 2,
          pages := [(['a'], { page := Page.empty, is_dirty := false,
                              is_pinned := false, last_access_time := 5 }),
                    (['b'], { page := { num_records := 1, data := [7] }, is_dirty := true,
                              is_pinned := false, last_access_time := 3 })],
          clock := 10, disk := [] } =
      .ok { size := 2,
            pages := [(['b'], { page := { num_records := 1, data := [7] }, is_dirty := true,
                                is_pinned := false, last_access_time := 3 })],
            clock := 10, disk := [] } := by
  have h := (claim_c5
    { size := 2,
      pages := [(['a'], { page := Page.empty, is_dirty := false,
                          is_pinned := false, last_access_time := 5 }),
                (['b'], { page := { num_records := 1, data := [7] }, is_dirty := true,
                          is_pinned := false, last_access_time := 3 })],
      clock := 10, disk := [] }
    (by decide) (by decide)).1 ['a']
    { page := Page.empty, is_dirty := false, is_pinned := false, last_access_time := 5 }
    (by decide) rfl rfl (by decide)
  rw [h]
  rfl

/-! ## C7: a value-preserving update is a pure no-op -/

theorem optMapList_length {α β : Type} (f : α → Option β) (l : List α) (bs : List β)
    (h : optMapList f l = some bs) : bs.length = l.length := by
  induction l generalizing bs with
  | nil => simp [optMapList] at h; simp [← h]
  | cons a rest ih =>
    simp only [optMapList] at h
    cases hf : f a with
    | none => rw [hf] at h; simp at h
    | some b =>
      rw [hf] at h
      cases hr : optMapList f rest with
      | none => rw [hr] at h; simp at h
      | some bs1 =>
        rw [hr] at h
        simp only [Option.map_some'] at h
        cases h
        simp [ih bs1 hr]

theorem readUserVals_length (t : Table) (s : Storage) (rid : Int) (vals : List Int)
    (h : readUserVals t s rid = some vals) : vals.length = t.num_columns := by
  have := optMapList_length _ _ _ h
  simpa using this

theorem buildUpdate_self (cur : List Int) : ∀ i, buildUpdate i cur (cur.map some) = (cur, 0) := by
  induction cur with
  | nil => intro i; rfl
  | cons c cs ih =>
    intro i
    simp only [List.map_cons, buildUpdate, ih (i + 1)]
    simp

theorem zipWith_getD_self (cur : List Int) :
    ∀ cols : List (Option Int),
      (∀ i, i < cols.length → cols.getD i none = none ∨ cols.getD i none = some (cur.getD i 0)) →
      List.zipWith (fun c v => Option.getD v c) cur cols = cur.take cols.length := by
  induction cur with
  | nil => intro cols _; simp
  | cons c cs ih =>
    intro cols hsame
    cases cols with
    | nil => simp
    | cons v vs =>
      have h0 := hsame 0 (by simp)
      simp only [List.getD_cons_zero] at h0
      have htail : ∀ i, i < vs.length → vs.getD i none = none ∨
          vs.getD i none = some (cs.getD i 0) := by
        intro i hi
        have := hsame (i + 1) (by simpa using Nat.succ_lt_succ hi)
        simpa using this
      simp only [List.zipWith_cons_cons, List.length_cons, List.take_succ_cons]
      rw [ih vs htail]
      rcases h0 with h0 | h0 <;> rw [h0] <;> rfl

/-- C7: `Query.update` applied to an existing non-deleted base row where
every supplied column is `None` or equal to the row's current latest value
returns `True` and leaves table and storage exactly unchanged: no tail
record is written, `tail_count`, the page directory and the base row's
INDIRECTION cell are untouched (the bitmask computed by `Table.update_row`
is 0, so the no-op branch returns before any write). -/
theorem claim_c7 (t : Table) (s : Storage) (ts pk : Int) (columns : List (Option Int))
    (rid : Int) (current : List Int)
    (hlen : columns.length = t.num_columns)
    (hrid : pkToRid t s pk = some rid)
    (hdel : rid ∉ t.deleted)
    (hcur : materialize_latest t s rid = some current)
    (hsame : ∀ i, i < t.num_columns →
      columns.getD i none = none ∨ columns.getD i none = some (current.getD i 0)) :
    query_update t s ts pk columns = (true, t, s) := by
  unfold query_update
  rw [if_neg (by omega), hrid]
  dsimp only
  rw [if_neg (by simpa using hdel), hcur]
  dsimp only
  have hcl : current.length = t.num_columns := by
    unfold materialize_latest at hcur
    cases hread : readCell t s rid INDIRECTION_COLUMN with
    | none => rw [hread] at hcur; simp at hcur
    | some ind =>
      rw [hread] at hcur
      exact readUserVals_length _ _ _ _ hcur
  have hfilled : List.zipWith (fun c v => Option.getD v c) current columns = current := by
    rw [zipWith_getD_self current columns (by rw [hlen]; exact hsame)]
    rw [hlen, ← hcl]
    exact List.take_length current
  rw [hfilled]
  unfold update_row
  rw [if_neg (by simp [hcl])]
  have hdir : (dirLookup t rid).isNone = false := by
    unfold materialize_latest readCell at hcur
    cases hd : dirLookup t rid with
    | none => rw [hd] at hcur; simp at hcur
    | some locs => simp
  rw [if_neg (by rw [hdir]; simp)]
  unfold materialize_latest at hcur
  cases hread : readCell t s rid INDIRECTION_COLUMN with
  | none => rw [hread] at hcur; simp at hcur
  | some ind =>
    rw [hread] at hcur
    simp only at hcur
    simp only [hcur, buildUpdate_self]
    simp

/-- C7 witness: insert `(1, 10)` then update with `(None, 10)` — the
supplied value equals the current one, so the update is a pure no-op. -/
theorem claim_c7_witness :
    query_update (insert_row (Table.init ['q'] 2 0) { pages := [] } 1 [1, 10]).2.1
        (insert_row (Table.init ['q'] 2 0) { pages := [] } 1 [1, 10]).2.2 2 1 [none, some 10] =
      (true, (insert_row (Table.init ['q'] 2 0) { pages := [] } 1 [1, 10]).2.1,
        (insert_row (Table.init ['q'] 2 0) { pages := [] } 1 [1, 10]).2.2) := by
  exact claim_c7 _ _ 2 1 [none, some 10] 0 [1, 10] (by decide) (by decide) (by decide)
    (by decide) (by decide)

/-! ## C6: insert validation failures -/

theorem insertDupScan_finds (t : Table) (s : Storage) (key_col : Nat) (pk : Int)
    (hnd : (t.page_directory.map Prod.fst).Nodup) :
    ∀ l : List (Int × List (Option Loc)),
      (∀ pair ∈ l, pair ∈ t.page_directory) →
      (∃ pair ∈ l, isBaseRid pair.1 = true ∧ pair.1 ∉ t.deleted ∧
        readCell t s pair.1 key_col = some pk) →
      insertDupScan t s key_col pk l ≠ .ok false := by
  intro l
  induction l with
  | nil =>
    rintro _ ⟨pair, hmem, _⟩
    simp at hmem
  | cons hd rest ih =>
    obtain ⟨rid0, locs0⟩ := hd
    rintro hsub ⟨pair, hmem, hbase, hdel, hread⟩
    have hlook : dirLookup t pair.1 = some pair.2 :=
      alookup_of_mem_nodup _ _ _ (hsub pair hmem) hnd
    unfold insertDupScan
    by_cases hskip : isBaseRid rid0 = false ∨ rid0 ∈ t.deleted
    · rw [if_pos hskip]
      apply ih (fun q hq => hsub q (List.mem_cons_of_mem _ hq))
      refine ⟨pair, ?_, hbase, hdel, hread⟩
      rcases List.mem_cons.mp hmem with hh | hh
      · exfalso
        cases hh
        rcases hskip with h1 | h1
        · rw [hbase] at h1; simp at h1
        · exact hdel h1
      · exact hh
    · rw [if_neg hskip]
      cases hget : locs0.get? key_col with
      | none => simp
      | some oloc =>
        cases oloc with
        | none => simp
        | some loc =>
          obtain ⟨pid, slot⟩ := loc
          dsimp only
          cases hr : (s.getPage pid).read slot with
          | none => simp
          | some v =>
            dsimp only
            by_cases hv : v = pk
            · rw [if_pos hv]; simp
            · rw [if_neg hv]
              apply ih (fun q hq => hsub q (List.mem_cons_of_mem _ hq))
              refine ⟨pair, ?_, hbase, hdel, hread⟩
              rcases List.mem_cons.mp hmem with hh | hh
              · exfalso
                cases hh
                have hlookh : dirLookup t rid0 = some locs0 :=
                  alookup_of_mem_nodup _ _ _ (hsub (rid0, locs0) (List.mem_cons_self _ _)) hnd
                unfold readCell at hread
                rw [hlookh] at hread
                simp only at hread
                rw [hget] at hread
                simp only at hread
                rw [hr] at hread
                exact hv (by injection hread)
              · exact hh

/-- C6: `insert` (Table.insert_row wrapped by Query.insert) returns `False`
and leaves the whole table state — counters, page directory, page contents
and every index — exactly unchanged whenever (1) the number of supplied
columns differs from the user-column count, or the supplied PK equals the
PK of a live base row, checked (2) against the PK index when one is present
(membership of the duplicate's key there is the index invariant the engine
maintains for live rows), or (3) by scanning the base key cells when the PK
index is absent. -/
theorem claim_c6 (t : Table) (s : Storage) (ts : Int) (columns : List Int)
    (hnd : (t.page_directory.map Prod.fst).Nodup) :
    (columns.length ≠ t.num_columns → insert_row t s ts columns = (false, t, s)) ∧
    (∀ pk d, columns.get? t.key = some pk → t.indices.get? t.key = some (some d) →
      (∃ pair ∈ t.page_directory, isBaseRid pair.1 = true ∧ pair.1 ∉ t.deleted ∧
        readCell t s pair.1 (META_COLUMNS + t.key) = some pk) →
      (alookup d pk).isSome →
      insert_row t s ts columns = (false, t, s)) ∧
    (∀ pk, columns.get? t.key = some pk → t.indices.get? t.key = some none →
      (∃ pair ∈ t.page_directory, isBaseRid pair.1 = true ∧ pair.1 ∉ t.deleted ∧
        readCell t s pair.1 (META_COLUMNS + t.key) = some pk) →
      insert_row t s ts columns = (false, t, s)) := by
  refine ⟨?_, ?_, ?_⟩
  · intro hlen
    unfold insert_row
    rw [if_pos hlen]
  · intro pk d hpk hidx hdup hmem
    unfold insert_row
    by_cases hlen : columns.length ≠ t.num_columns
    · rw [if_pos hlen]
    · rw [if_neg hlen, hpk, hidx]
      simp only
      rw [show (alookup d pk).isSome = true from by simpa using hmem]
  · intro pk hpk hidx hdup
    unfold insert_row
    by_cases hlen : columns.length ≠ t.num_columns
    · rw [if_pos hlen]
    · rw [if_neg hlen, hpk, hidx]
      simp only
      have hscan := insertDupScan_finds t s (META_COLUMNS + t.key) pk hnd
        t.page_directory (fun q hq => hq) hdup
      cases hs : insertDupScan t s (META_COLUMNS + t.key) pk t.page_directory with
      | error e => rfl
      | ok b =>
        cases b with
        | false => exact absurd hs hscan
        | true => rfl

/-- C6 witness: after inserting `(7, 8)`, a duplicate insert of PK 7 fails
through the PK index and leaves the state unchanged. -/
theorem claim_c6_witness :
    insert_row (insert_row (Table.init ['w'] 2 0) { pages := [] } 1 [7, 8]).2.1
        (insert_row (Table.init ['w'] 2 0) { pages := [] } 1 [7, 8]).2.2 2 [7, 9] =
      (false, (insert_row (Table.init ['w'] 2 0) { pages := [] } 1 [7, 8]).2.1,
        (insert_row (Table.init ['w'] 2 0) { pages := [] } 1 [7, 8]).2.2) := by
  exact (claim_c6 _ _ 2 [7, 9] (by decide)).2.1 7 [(7, [0])] (by decide) (by decide)
    (by decide) (by decide)

/-! ## List and association-list utilities -/

theorem list_ext_getD {α : Type} (d : α) :
    ∀ l1 l2 : List α, l1.length = l2.length →
      (∀ i, i < l1.length → l1.getD i d = l2.getD i d) → l1 = l2 := by
  intro l1
  induction l1 with
  | nil =>
    intro l2 hlen _
    cases l2 with
    | nil => rfl
    | cons b bs => simp at hlen
  | cons a as ih =>
    intro l2 hlen h
    cases l2 with
    | nil => simp at hlen
    | cons b bs =>
      have h0 := h 0 (by simp)
      simp only [List.getD_cons_zero] at h0
      subst h0
      congr 1
      refine ih bs (by simpa using hlen) ?_
      intro i hi
      have := h (i + 1) (by simpa using Nat.succ_lt_succ hi)
      simpa using this

theorem get?_map_range {β : Type} (f : Nat → β) (n i : Nat) :
    ((List.range n).map f).get? i = if i < n then some (f i) else none := by
  by_cases h : i < n
  · rw [if_pos h, List.get?_map, List.get?_range h]
    rfl
  · rw [if_neg h]
    apply List.get?_eq_none.mpr
    simpa using Nat.le_of_not_lt h

theorem getD_eq_get?_getD {α : Type} (l : List α) (i : Nat) (d : α) :
    l.getD i d = (l.get? i).getD d := by
  induction l generalizing i with
  | nil => cases i <;> rfl
  | cons a as ih =>
    cases i with
    | zero => rfl
    | succ j => simp only [List.getD_cons_succ, List.get?_cons_succ]; exact ih j

theorem getD_map_range {β : Type} (f : Nat → β) (n i : Nat) (d : β) (h : i < n) :
    ((List.range n).map f).getD i d = f i := by
  rw [getD_eq_get?_getD, get?_map_range, if_pos h]
  rfl

theorem optMapList_forall {α β : Type} (f : α → Option β) (g : α → β) :
    ∀ l : List α, (∀ a ∈ l, f a = some (g a)) → optMapList f l = some (l.map g) := by
  intro l
  induction l with
  | nil => intro _; rfl
  | cons a rest ih =>
    intro h
    simp only [optMapList, h a (List.mem_cons_self _ _),
      ih (fun b hb => h b (List.mem_cons_of_mem _ hb))]
    rfl

theorem alookup_aupsert {α β : Type} [DecidableEq α] :
    ∀ (l : List (α × β)) (k : α) (v : β) (k' : α),
      alookup (aupsert l k v) k' = if k' = k then some v else alookup l k' := by
  intro l
  induction l with
  | nil =>
    intro k v k'
    simp [aupsert, alookup]
  | cons kv rest ih =>
    intro k v k'
    obtain ⟨k0, v0⟩ := kv
    by_cases hk : k = k0
    · subst hk
      simp only [aupsert, if_pos rfl]
      by_cases hk' : k' = k
      · subst hk'; simp [alookup]
      · simp [alookup, hk']
    · simp only [aupsert, if_neg hk]
      by_cases hk' : k' = k0
      · subst hk'
        rw [if_neg (fun h => hk h.symm)]
        simp [alookup]
      · simp only [alookup, if_neg hk']
        exact ih k v k'

theorem alookup_aupdate {α β : Type} [DecidableEq α] :
    ∀ (l : List (α × β)) (k : α) (f : β → β) (k' : α),
      alookup (aupdate l k f) k' =
        if k' = k then (alookup l k).map f else alookup l k' := by
  intro l
  induction l with
  | nil => intro k f k'; simp [aupdate, alookup]
  | cons kv rest ih =>
    intro k f k'
    obtain ⟨k0, v0⟩ := kv
    by_cases hk : k = k0
    · subst hk
      simp only [aupdate, if_pos rfl]
      by_cases hk' : k' = k
      · subst hk'; simp [alookup]
      · simp [alookup, hk']
    · simp only [aupdate, if_neg hk]
      by_cases hk' : k' = k0
      · subst hk'
        rw [if_neg (fun h => hk h.symm)]
        simp [alookup]
      · simp only [alookup, if_neg hk']
        rw [if_neg (fun h => hk h)]
        exact ih k f k'

/-! ## Injectivity of canonical page ids -/

theorem natChars_injective (m n : Nat) (h : natChars m = natChars n) : m = n := by
  have h1 := charsToNat_natChars m
  rw [h, charsToNat_natChars n] at h1
  injection h1 with h2
  omega

theorem underscore_sep_cancel :
    ∀ A B X Y : List Char, '_' ∉ A → '_' ∉ B →
      A ++ '_' :: X = B ++ '_' :: Y → A = B ∧ X = Y := by
  intro A
  induction A with
  | nil =>
    intro B X Y _ hB h
    cases B with
    | nil => simpa using h
    | cons b bs =>
      simp only [List.nil_append, List.cons_append, List.cons.injEq] at h
      exact absurd (h.1 ▸ List.mem_cons_self b bs) hB
  | cons a as ih =>
    intro B X Y hA hB h
    cases B with
    | nil =>
      simp only [List.nil_append, List.cons_append, List.cons.injEq] at h
      exact absurd (h.1.symm ▸ List.mem_cons_self a as) hA
    | cons b bs =>
      simp only [List.cons_append, List.cons.injEq] at h
      obtain ⟨rfl, h2⟩ := h
      have := ih bs X Y (fun hm => hA (List.mem_cons_of_mem _ hm))
        (fun hm => hB (List.mem_cons_of_mem _ hm)) h2
      exact ⟨by rw [this.1], this.2⟩

theorem tablePid_eq (name : Chars) (c p : Nat) (b : Bool) :
    tablePid name c p b =
      name ++ '_' :: (natChars c ++ '_' :: (natChars p ++ '_' :: [if b then '1' else '0'])) := by
  unfold tablePid PageID.render intChars
  simp only
  rw [if_neg (by omega : ¬ ((c : Int) < 0)), if_neg (by omega : ¬ ((p : Int) < 0))]
  simp

theorem tablePid_inj (name : Chars) (c p : Nat) (b : Bool) (c' p' : Nat) (b' : Bool)
    (h : tablePid name c p b = tablePid name c' p' b') : c = c' ∧ p = p' ∧ b = b' := by
  rw [tablePid_eq, tablePid_eq] at h
  have h1 := List.append_cancel_left h
  simp only [List.cons.injEq, true_and] at h1
  obtain ⟨hc, h2⟩ := underscore_sep_cancel _ _ _ _ (natChars_no_underscore c)
    (natChars_no_underscore c') h1
  obtain ⟨hp, h3⟩ := underscore_sep_cancel _ _ _ _ (natChars_no_underscore p)
    (natChars_no_underscore p') h2
  refine ⟨natChars_injective _ _ hc, natChars_injective _ _ hp, ?_⟩
  cases b <;> cases b' <;> simp_all

theorem get?_set_same {α : Type} :
    ∀ (l : List α) (i : Nat) (a : α), i < l.length → (l.set i a).get? i = some a := by
  intro l
  induction l with
  | nil => intro i a h; simp at h
  | cons b bs ih =>
    intro i a h
    cases i with
    | zero => rfl
    | succ j => simpa using ih j a (by simpa using h)

theorem get?_set_ne {α : Type} :
    ∀ (l : List α) (i j : Nat) (a : α), i ≠ j → (l.set i a).get? j = l.get? j := by
  intro l
  induction l with
  | nil => intro i j a _; simp
  | cons b bs ih =>
    intro i j a hij
    cases i with
    | zero =>
      cases j with
      | zero => exact absurd rfl hij
      | succ j' => rfl
    | succ i' =>
      cases j with
      | zero => rfl
      | succ j' => simpa using ih i' j' a (fun h => hij (by rw [h]))

theorem get?_eq_getD_of_lt {α : Type} (l : List α) (i : Nat) (d : α) (h : i < l.length) :
    l.get? i = some (l.getD i d) := by
  rw [getD_eq_get?_getD]
  cases hg : l.get? i with
  | none => exact absurd (List.get?_eq_none.mp hg) (by omega)
  | some a => rfl

/-! ## Storage frame lemmas -/

theorem getPage_putPage_same (s : Storage) (pid : Chars) (p : Page) :
    (s.putPage pid p).getPage pid = p := by
  simp [Storage.getPage, Storage.putPage, alookup_aupsert]

theorem getPage_putPage_other (s : Storage) (pid : Chars) (p : Page) (pid' : Chars)
    (h : pid' ≠ pid) : (s.putPage pid p).getPage pid' = s.getPage pid' := by
  simp [Storage.getPage, Storage.putPage, alookup_aupsert, h]

theorem Page_write_of_capacity (pg : Page) (v : Int) (h : pg.num_records < MAX_RECORDS_PER_PAGE) :
    pg.write v = some ({ num_records := pg.num_records + 1, data := pg.data ++ [v] },
      pg.num_records) := by
  simp [Page.write, h]

theorem Page_read_append (pg : Page) (v : Int) (slot : Nat) (h : slot < pg.num_records)
    (hlen : pg.data.length = pg.num_records) :
    Page.read { num_records := pg.num_records + 1, data := pg.data ++ [v] } slot =
      pg.read slot := by
  simp only [Page.read, if_pos (by omega : slot < pg.num_records + 1), if_pos h]
  exact List.get?_append (by omega)

theorem Page_read_append_new (pg : Page) (v : Int) (hlen : pg.data.length = pg.num_records) :
    Page.read { num_records := pg.num_records + 1, data := pg.data ++ [v] } pg.num_records =
      some v := by
  simp only [Page.read, if_pos (by omega : pg.num_records < pg.num_records + 1)]
  rw [← hlen]
  exact List.get?_concat_length pg.data v

/-! ## The per-column write loop -/

theorem writeColumns_spec (rid : Int) (pageNo : Nat) (isBase : Bool) (full : List Int)
    (n : Nat) (hcap : n < MAX_RECORDS_PER_PAGE) :
    ∀ (cols : List Nat) (t : Table) (s : Storage),
      cols.Nodup →
      (∀ c ∈ cols, c < full.length) →
      (∀ c ∈ cols, (s.getPage (tablePid t.name c pageNo isBase)).num_records = n ∧
        (s.getPage (tablePid t.name c pageNo isBase)).data.length = n) →
      ∃ t' s',
        writeColumns rid pageNo isBase full cols t s = (t', s', true) ∧
        t'.name = t.name ∧ t'.key = t.key ∧ t'.num_columns = t.num_columns ∧
        t'.base_record_count = t.base_record_count ∧
        t'.tail_record_count = t.tail_record_count ∧
        t'.deleted = t.deleted ∧ t'.indices = t.indices ∧
        (∀ rid' : Int, rid' ≠ rid → dirLookup t' rid' = dirLookup t rid') ∧
        (∀ row, dirLookup t rid = some row →
          ∃ row', dirLookup t' rid = some row' ∧ row'.length = row.length ∧
            (∀ c ∈ cols, c < row.length →
              row'.get? c = some (some (tablePid t.name c pageNo isBase, n))) ∧
            (∀ c, c ∉ cols → row'.get? c = row.get? c)) ∧
        (dirLookup t rid = none → dirLookup t' rid = none) ∧
        (∀ pid, (∀ c ∈ cols, pid ≠ tablePid t.name c pageNo isBase) →
          alookup s'.pages pid = alookup s.pages pid) ∧
        (∀ c ∈ cols,
          alookup s'.pages (tablePid t.name c pageNo isBase) =
            some { num_records := n + 1,
                   data := (s.getPage (tablePid t.name c pageNo isBase)).data ++
                     [full.getD c 0] }) := by
  intro cols
  induction cols with
  | nil =>
    intro t s _ _ _
    refine ⟨t, s, rfl, rfl, rfl, rfl, rfl, rfl, rfl, rfl, fun _ _ => rfl, ?_, fun h => h,
      fun _ _ => rfl, by simp⟩
    intro row hrow
    exact ⟨row, hrow, rfl, by simp, fun _ _ => rfl⟩
  | cons c0 rest ih =>
    intro t s hnd hfull hpages
    have hc0full : c0 < full.length := hfull c0 (List.mem_cons_self _ _)
    have hc0pg := hpages c0 (List.mem_cons_self _ _)
    have hc0rest : c0 ∉ rest := (List.nodup_cons.mp hnd).1
    unfold writeColumns
    rw [get?_eq_getD_of_lt full c0 0 hc0full]
    dsimp only
    rw [show (s.getPage (tablePid t.name c0 pageNo isBase)).write (full.getD c0 0) =
      some ({ num_records := (s.getPage (tablePid t.name c0 pageNo isBase)).num_records + 1,
              data := (s.getPage (tablePid t.name c0 pageNo isBase)).data ++ [full.getD c0 0] },
            (s.getPage (tablePid t.name c0 pageNo isBase)).num_records) from
      Page_write_of_capacity _ _ (by rw [hc0pg.1]; exact hcap)]
    dsimp only
    set pid0 := tablePid t.name c0 pageNo isBase with hpid0def
    set t1 := dirSet t rid c0 (pid0, (s.getPage pid0).num_records) with ht1
    set s1 := s.putPage pid0
      { num_records := (s.getPage pid0).num_records + 1,
        data := (s.getPage pid0).data ++ [full.getD c0 0] } with hs1
    have ht1name : t1.name = t.name := rfl
    have hpid_ne : ∀ c ∈ rest, tablePid t.name c pageNo isBase ≠ pid0 := by
      intro c hc heq
      exact hc0rest ((tablePid_inj t.name c pageNo isBase c0 pageNo isBase heq).1 ▸ hc)
    have hpages1 : ∀ c ∈ rest, (s1.getPage (tablePid t1.name c pageNo isBase)).num_records = n ∧
        (s1.getPage (tablePid t1.name c pageNo isBase)).data.length = n := by
      intro c hc
      rw [ht1name, hs1, getPage_putPage_other s pid0 _ _ (hpid_ne c hc)]
      exact hpages c (List.mem_cons_of_mem _ hc)
    obtain ⟨t', s', heq, hname, hkey, hnum, hbase, htail, hdel, hidx, hother, hrow, hnone,
      hpother, hpwritten⟩ :=
      ih t1 s1 (List.nodup_cons.mp hnd).2 (fun c hc => hfull c (List.mem_cons_of_mem _ hc))
        hpages1
    refine ⟨t', s', heq, hname.trans ht1name, hkey, hnum, hbase, htail, hdel, hidx, ?_, ?_, ?_,
      ?_, ?_⟩
    · intro rid' hr
      rw [hother rid' hr, ht1]
      unfold dirSet dirLookup
      simp only
      rw [alookup_aupdate, if_neg hr]
    · intro row hrowt
      have hrow1 : dirLookup t1 rid = some (row.set c0 (some (pid0, (s.getPage pid0).num_records))) := by
        rw [ht1]
        unfold dirSet dirLookup
        simp only
        rw [alookup_aupdate, if_pos rfl]
        unfold dirLookup at hrowt
        rw [hrowt]
        rfl
      obtain ⟨row', hrow', hlen', hin', hout'⟩ := hrow _ hrow1
      refine ⟨row', hrow', by rw [hlen', List.length_set], ?_, ?_⟩
      · intro c hc hcrow
        rcases List.mem_cons.mp hc with rfl | hc'
        · rw [hout' c hc0rest, get?_set_same row c (some (pid0, (s.getPage pid0).num_records))
            hcrow, hc0pg.1]
        · rw [ht1name] at hin'
          exact hin' c hc' (by rw [List.length_set]; exact hcrow)
      · intro c hc
        rw [hout' c (fun hm => hc (List.mem_cons_of_mem _ hm)),
          get?_set_ne row c0 c _ (fun h => hc (h ▸ List.mem_cons_self _ _))]
    · intro hnonet
      apply hnone
      rw [ht1]
      unfold dirSet dirLookup
      simp only
      rw [alookup_aupdate, if_pos rfl]
      unfold dirLookup at hnonet
      rw [hnonet]
      rfl
    · intro pid hp
      rw [hpother pid (by
        intro c hc
        rw [ht1name]
        exact hp c (List.mem_cons_of_mem _ hc))]
      rw [hs1]
      unfold Storage.putPage
      simp only
      rw [alookup_aupsert, if_neg (hp c0 (List.mem_cons_self _ _))]
    · intro c hc
      rcases List.mem_cons.mp hc with rfl | hc'
      · rw [hpother pid0 (by
          intro c1 hc1
          rw [ht1name]
          exact fun h => (hpid_ne c1 hc1) h.symm)]
        rw [hs1]
        unfold Storage.putPage
        simp only
        rw [alookup_aupsert, if_pos rfl, hc0pg.1]
      · rw [ht1name] at hpwritten
        rw [hpwritten c hc']
        rw [hs1, getPage_putPage_other s pid0 _ _ (hpid_ne c hc')]

theorem writeColumns_range_spec (t : Table) (s : Storage) (rid : Int) (pageNo : Nat)
    (isBase : Bool) (full : List Int) (n : Nat) (hcap : n < MAX_RECORDS_PER_PAGE)
    (hlen : full.length = t.total_cols)
    (hrow : dirLookup t rid = some (List.replicate t.total_cols none))
    (hpages : ∀ c, c < t.total_cols →
      (s.getPage (tablePid t.name c pageNo isBase)).num_records = n ∧
      (s.getPage (tablePid t.name c pageNo isBase)).data.length = n) :
    ∃ t' s',
      writeColumns rid pageNo isBase full (List.range t.total_cols) t s = (t', s', true) ∧
      t'.name = t.name ∧ t'.key = t.key ∧ t'.num_columns = t.num_columns ∧
      t'.base_record_count = t.base_record_count ∧
      t'.tail_record_count = t.tail_record_count ∧
      t'.deleted = t.deleted ∧ t'.indices = t.indices ∧
      (∀ rid' : Int, rid' ≠ rid → dirLookup t' rid' = dirLookup t rid') ∧
      dirLookup t' rid = some ((List.range t.total_cols).map
        (fun c => some (tablePid t.name c pageNo isBase, n))) ∧
      (∀ pid, (∀ c, c < t.total_cols → pid ≠ tablePid t.name c pageNo isBase) →
        alookup s'.pages pid = alookup s.pages pid) ∧
      (∀ c, c < t.total_cols →
        alookup s'.pages (tablePid t.name c pageNo isBase) =
          some { num_records := n + 1,
                 data := (s.getPage (tablePid t.name c pageNo isBase)).data ++
                   [full.getD c 0] }) := by
  obtain ⟨t', s', heq, hname, hkey, hnum, hbase, htail, hdel, hidx, hother, hrowc, _, hpother,
    hpwritten⟩ :=
    writeColumns_spec rid pageNo isBase full n hcap (List.range t.total_cols) t s
      (List.nodup_range _) (fun c hc => hlen ▸ List.mem_range.mp hc)
      (fun c hc => hpages c (List.mem_range.mp hc))
  obtain ⟨row', hrow', hlen', hin', hout'⟩ := hrowc _ hrow
  refine ⟨t', s', heq, hname, hkey, hnum, hbase, htail, hdel, hidx, hother, ?_,
    (fun pid hp => hpother pid (fun c hc => hp c (List.mem_range.mp hc))),
    (fun c hc => hpwritten c (List.mem_range.mpr hc))⟩
  rw [hrow']
  congr 1
  apply List.ext
  intro idx
  by_cases hidx2 : idx < t.total_cols
  · rw [hin' idx (List.mem_range.mpr hidx2)
      (by rw [List.length_replicate]; exact hidx2), get?_map_range, if_pos hidx2]
  · rw [hout' idx (fun hm => hidx2 (List.mem_range.mp hm)), get?_map_range, if_neg hidx2]
    apply List.get?_eq_none.mpr
    rw [List.length_replicate]
    omega

theorem write_to_base_pages_spec (t : Table) (s : Storage) (rid : Int) (full : List Int)
    (hlen : full.length = t.total_cols)
    (habsent : dirLookup t rid = none)
    (hpages : ∀ c, c < t.total_cols →
      (s.getPage (tablePid t.name c (t.base_record_count / MAX_RECORDS_PER_PAGE) true)).num_records =
        t.base_record_count % MAX_RECORDS_PER_PAGE ∧
      (s.getPage (tablePid t.name c (t.base_record_count / MAX_RECORDS_PER_PAGE) true)).data.length =
        t.base_record_count % MAX_RECORDS_PER_PAGE) :
    ∃ t' s',
      write_to_base_pages t s rid full = (t', s', true) ∧
      t'.name = t.name ∧ t'.key = t.key ∧ t'.num_columns = t.num_columns ∧
      t'.base_record_count = t.base_record_count + 1 ∧
      t'.tail_record_count = t.tail_record_count ∧
      t'.deleted = t.deleted ∧ t'.indices = t.indices ∧
      (∀ rid' : Int, rid' ≠ rid → dirLookup t' rid' = dirLookup t rid') ∧
      dirLookup t' rid = some ((List.range t.total_cols).map
        (fun c => some (tablePid t.name c (t.base_record_count / MAX_RECORDS_PER_PAGE) true,
          t.base_record_count % MAX_RECORDS_PER_PAGE))) ∧
      (∀ pid, (∀ c, c < t.total_cols →
          pid ≠ tablePid t.name c (t.base_record_count / MAX_RECORDS_PER_PAGE) true) →
        alookup s'.pages pid = alookup s.pages pid) ∧
      (∀ c, c < t.total_cols →
        alookup s'.pages (tablePid t.name c (t.base_record_count / MAX_RECORDS_PER_PAGE) true) =
          some { num_records := t.base_record_count % MAX_RECORDS_PER_PAGE + 1,
                 data := (s.getPage
                   (tablePid t.name c (t.base_record_count / MAX_RECORDS_PER_PAGE) true)).data ++
                   [full.getD c 0] }) := by
  unfold write_to_base_pages
  have hens : t.ensure_dir_entry rid =
      { t with page_directory :=
          aupsert t.page_directory rid (List.replicate t.total_cols none) } := by
    unfold Table.ensure_dir_entry
    rw [habsent]
    rfl
  rw [hens]
  set t1 : Table := { t with page_directory := aupsert t.page_directory rid (List.replicate t.total_cols none) } with ht1
  have ht1tot : t1.total_cols = t.total_cols := rfl
  have ht1row : dirLookup t1 rid = some (List.replicate t1.total_cols none) := by
    unfold dirLookup
    rw [ht1]
    simp only
    rw [alookup_aupsert, if_pos rfl]
    rfl
  obtain ⟨t', s', heq, hname, hkey, hnum, hbase, htail, hdel, hidx, hother, hrowc, hpother,
    hpwritten⟩ :=
    writeColumns_range_spec t1 s rid (t.base_record_count / MAX_RECORDS_PER_PAGE) true full
      (t.base_record_count % MAX_RECORDS_PER_PAGE) (Nat.mod_lt _ (by decide)) hlen ht1row
      hpages
  have heq2 : writeColumns rid (t.base_record_count / MAX_RECORDS_PER_PAGE) true full
      (List.range t.total_cols) t1 s = (t', s', true) := heq
  rw [heq2]
  refine ⟨{ t' with base_record_count := t'.base_record_count + 1 }, s', rfl, hname, hkey, hnum,
    by simp only; rw [hbase], htail, hdel, hidx, ?_, ?_, hpother, hpwritten⟩
  · intro rid' hr
    show dirLookup t' rid' = dirLookup t rid'
    rw [hother rid' hr]
    unfold dirLookup
    rw [ht1]
    simp only
    rw [alookup_aupsert, if_neg hr]
  · exact hrowc

theorem write_to_tail_pages_spec (t : Table) (s : Storage) (rid : Int) (full : List Int)
    (hlen : full.length = t.total_cols)
    (habsent : dirLookup t rid = none)
    (hpages : ∀ c, c < t.total_cols →
      (s.getPage (tablePid t.name c (t.tail_record_count / MAX_RECORDS_PER_PAGE) false)).num_records =
        t.tail_record_count % MAX_RECORDS_PER_PAGE ∧
      (s.getPage (tablePid t.name c (t.tail_record_count / MAX_RECORDS_PER_PAGE) false)).data.length =
        t.tail_record_count % MAX_RECORDS_PER_PAGE) :
    ∃ t' s',
      write_to_tail_pages t s rid full = (t', s', true) ∧
      t'.name = t.name ∧ t'.key = t.key ∧ t'.num_columns = t.num_columns ∧
      t'.base_record_count = t.base_record_count ∧
      t'.tail_record_count = t.tail_record_count + 1 ∧
      t'.deleted = t.deleted ∧ t'.indices = t.indices ∧
      (∀ rid' : Int, rid' ≠ rid → dirLookup t' rid' = dirLookup t rid') ∧
      dirLookup t' rid = some ((List.range t.total_cols).map
        (fun c => some (tablePid t.name c (t.tail_record_count / MAX_RECORDS_PER_PAGE) false,
          t.tail_record_count % MAX_RECORDS_PER_PAGE))) ∧
      (∀ pid, (∀ c, c < t.total_cols →
          pid ≠ tablePid t.name c (t.tail_record_count / MAX_RECORDS_PER_PAGE) false) →
        alookup s'.pages pid = alookup s.pages pid) ∧
      (∀ c, c < t.total_cols →
        alookup s'.pages (tablePid t.name c (t.tail_record_count / MAX_RECORDS_PER_PAGE) false) =
          some { num_records := t.tail_record_count % MAX_RECORDS_PER_PAGE + 1,
                 data := (s.getPage
                   (tablePid t.name c (t.tail_record_count / MAX_RECORDS_PER_PAGE) false)).data ++
                   [full.getD c 0] }) := by
  unfold write_to_tail_pages
  have hens : t.ensure_dir_entry rid =
      { t with page_directory :=
          aupsert t.page_directory rid (List.replicate t.total_cols none) } := by
    unfold Table.ensure_dir_entry
    rw [habsent]
    rfl
  rw [hens]
  set t1 : Table := { t with page_directory := aupsert t.page_directory rid (List.replicate t.total_cols none) } with ht1
  have ht1row : dirLookup t1 rid = some (List.replicate t1.total_cols none) := by
    unfold dirLookup
    rw [ht1]
    simp only
    rw [alookup_aupsert, if_pos rfl]
    rfl
  obtain ⟨t', s', heq, hname, hkey, hnum, hbase, htail, hdel, hidx, hother, hrowc, hpother,
    hpwritten⟩ :=
    writeColumns_range_spec t1 s rid (t.tail_record_count / MAX_RECORDS_PER_PAGE) false full
      (t.tail_record_count % MAX_RECORDS_PER_PAGE) (Nat.mod_lt _ (by decide)) hlen ht1row
      hpages
  have heq2 : writeColumns rid (t.tail_record_count / MAX_RECORDS_PER_PAGE) false full
      (List.range t.total_cols) t1 s = (t', s', true) := heq
  rw [heq2]
  refine ⟨{ t' with tail_record_count := t'.tail_record_count + 1 }, s', rfl, hname, hkey, hnum,
    hbase, by simp only; rw [htail], hdel, hidx, ?_, ?_, hpother, hpwritten⟩
  · intro rid' hr
    show dirLookup t' rid' = dirLookup t rid'
    rw [hother rid' hr]
    unfold dirLookup
    rw [ht1]
    simp only
    rw [alookup_aupsert, if_neg hr]
  · exact hrowc

/-! ## buildUpdate lemmas -/

theorem buildUpdate_length :
    ∀ (cur : List Int) (cols : List (Option Int)) (i : Nat),
      (buildUpdate i cur cols).1.length = cur.length := by
  intro cur
  induction cur with
  | nil => intro cols i; cases cols <;> rfl
  | cons c cs ih =>
    intro cols i
    cases cols with
    | nil => rfl
    | cons v vs =>
      simp only [buildUpdate]
      cases v with
      | none => simpa using ih vs (i + 1)
      | some w =>
        by_cases hw : w ≠ c
        · simp only [if_pos hw, List.length_cons]
          rw [ih vs (i + 1)]
        · simp only [if_neg hw, List.length_cons]
          rw [ih vs (i + 1)]

theorem buildUpdate_fst_spec :
    ∀ (cur : List Int) (cols : List (Option Int)) (i : Nat),
      cols.length = cur.length →
      (buildUpdate i cur cols).1 = specApply cur cols := by
  intro cur
  induction cur with
  | nil =>
    intro cols i h
    cases cols with
    | nil => rfl
    | cons v vs => simp at h
  | cons c cs ih =>
    intro cols i h
    cases cols with
    | nil => simp at h
    | cons v vs =>
      simp only [buildUpdate, specApply, List.zipWith_cons_cons]
      cases v with
      | none =>
        dsimp only
        rw [ih vs (i + 1) (by simpa using h)]
        rfl
      | some w =>
        dsimp only
        by_cases hw : w ≠ c
        · simp only [if_pos hw, Option.getD_some]
          rw [ih vs (i + 1) (by simpa using h)]
          rfl
        · simp only [if_neg hw, Option.getD_some]
          rw [ih vs (i + 1) (by simpa using h), not_not.mp hw]
          rfl

theorem buildUpdate_filled :
    ∀ (cur : List Int) (cols : List (Option Int)) (i : Nat),
      cols.length = cur.length →
      buildUpdate i cur ((List.zipWith (fun c v => Option.getD v c) cur cols).map some) =
        buildUpdate i cur cols := by
  intro cur
  induction cur with
  | nil => intro cols i h; cases cols <;> rfl
  | cons c cs ih =>
    intro cols i h
    cases cols with
    | nil => simp at h
    | cons v vs =>
      simp only [List.zipWith_cons_cons, List.map_cons, buildUpdate]
      rw [ih vs (i + 1) (by simpa using h)]
      cases v with
      | none => simp
      | some w =>
        by_cases hw : w ≠ c
        · simp only [Option.getD_some, if_pos hw]
        · simp only [Option.getD_some, if_neg hw]

theorem buildUpdate_mask_low :
    ∀ (cur : List Int) (cols : List (Option Int)) (i j : Nat),
      j < i → (buildUpdate i cur cols).2.testBit j = false := by
  intro cur
  induction cur with
  | nil =>
    intro cols i j hj
    cases cols <;> simp [buildUpdate]
  | cons c cs ih =>
    intro cols i j hj
    cases cols with
    | nil => simp [buildUpdate]
    | cons v vs =>
      simp only [buildUpdate]
      cases v with
      | none => exact ih vs (i + 1) j (by omega)
      | some w =>
        by_cases hw : w ≠ c
        · simp only [if_pos hw, Nat.testBit_or, ih vs (i + 1) j (by omega),
            Nat.shiftLeft_eq, one_mul, Nat.testBit_two_pow]
          simp
          omega
        · simp only [if_neg hw]
          exact ih vs (i + 1) j (by omega)

theorem buildUpdate_mask_bit :
    ∀ (cur : List Int) (cols : List (Option Int)) (i c : Nat),
      c < cur.length →
      ((buildUpdate i cur cols).2.testBit (i + c) =
        decide ((buildUpdate i cur cols).1.getD c 0 ≠ cur.getD c 0)) := by
  intro cur
  induction cur with
  | nil => intro cols i c hc; simp at hc
  | cons x cs ih =>
    intro cols i c hc
    cases cols with
    | nil =>
      simp only [buildUpdate]
      rw [Nat.zero_testBit]
      simp
    | cons v vs =>
      simp only [buildUpdate]
      cases v with
      | none =>
        dsimp only
        cases c with
        | zero =>
          have hlow := buildUpdate_mask_low cs vs (i + 1) i (by omega)
          simp [hlow]
        | succ c' =>
          rw [show i + (c' + 1) = (i + 1) + c' from by omega]
          rw [ih vs (i + 1) c' (by simpa using hc)]
          simp
      | some w =>
        dsimp only
        by_cases hw : w ≠ x
        · simp only [if_pos hw]
          cases c with
          | zero =>
            have hlow := buildUpdate_mask_low cs vs (i + 1) i (by omega)
            simp [hlow, Nat.testBit_or, Nat.shiftLeft_eq, Nat.testBit_two_pow, hw]
          | succ c' =>
            rw [show i + (c' + 1) = (i + 1) + c' from by omega, Nat.testBit_or,
              Nat.shiftLeft_eq, one_mul, Nat.testBit_two_pow]
            rw [ih vs (i + 1) c' (by simpa using hc)]
            have : ¬ (i = i + 1 + c') := by omega
            simp [this]
        · simp only [if_neg hw]
          cases c with
          | zero =>
            have hlow := buildUpdate_mask_low cs vs (i + 1) i (by omega)
            simp [hlow]
          | succ c' =>
            rw [show i + (c' + 1) = (i + 1) + c' from by omega]
            rw [ih vs (i + 1) c' (by simpa using hc)]
            simp

/-! ## C1: list utilities for the versioned-read development -/

theorem map_range_getD {α : Type} (l : List α) (d : α) :
    (List.range l.length).map (fun c => l.getD c d) = l := by
  apply list_ext_getD d
  · simp
  · intro i hi
    simp only [List.length_map, List.length_range] at hi
    rw [getD_map_range _ _ _ _ hi]

theorem map_range_congr {α : Type} (f g : Nat → α) (n : Nat)
    (h : ∀ c, c < n → f c = g c) : (List.range n).map f = (List.range n).map g := by
  apply List.ext
  intro i
  rw [get?_map_range, get?_map_range]
  by_cases hi : i < n
  · rw [if_pos hi, if_pos hi, h i hi]
  · rw [if_neg hi, if_neg hi]

theorem map_range_set {α : Type} (f : Nat → α) (n i : Nat) (x : α) (h : i < n) :
    ((List.range n).map f).set i x =
      (List.range n).map (fun c => if c = i then x else f c) := by
  apply List.ext
  intro j
  by_cases hij : j = i
  · subst hij
    rw [get?_set_same _ _ _ (by simp [h]), get?_map_range, if_pos h, if_pos rfl]
  · rw [get?_set_ne _ _ _ _ (fun hh => hij hh.symm), get?_map_range, get?_map_range]
    by_cases hj : j < n
    · rw [if_pos hj, if_pos hj, if_neg hij]
    · rw [if_neg hj, if_neg hj]

theorem getD_mem {α : Type} (l : List α) (i : Nat) (d : α) (h : i < l.length) :
    l.getD i d ∈ l := by
  rw [getD_eq_get?_getD]
  cases hg : l.get? i with
  | none => exact absurd (List.get?_eq_none.mp hg) (by omega)
  | some a => exact List.get?_mem hg

theorem getD_append_lt {α : Type} (l l' : List α) (i : Nat) (d : α) (h : i < l.length) :
    (l ++ l').getD i d = l.getD i d := by
  rw [getD_eq_get?_getD, getD_eq_get?_getD, List.get?_append h]

theorem getD_append_len {α : Type} (l : List α) (x : α) (d : α) :
    (l ++ [x]).getD l.length d = x := by
  rw [getD_eq_get?_getD, List.get?_concat_length]
  rfl

theorem getD_append_four (a b c0 d : Int) (l : List Int) (c : Nat) :
    ([a, b, c0, d] ++ l).getD (4 + c) 0 = l.getD c 0 := by
  rw [getD_eq_get?_getD, getD_eq_get?_getD, List.get?_append_right (by simp)]
  simp

theorem getD_replicate {α : Type} (a d : α) :
    ∀ (n i : Nat), i < n → (List.replicate n a).getD i d = a := by
  intro n
  induction n with
  | zero => intro i hi; omega
  | succ m ih =>
    intro i hi
    cases i with
    | zero => rfl
    | succ j => exact ih j (by omega)

theorem all_id_getD (l : List Bool) (h : l.all id = true) (i : Nat) (hi : i < l.length) :
    l.getD i false = true := by
  exact List.all_eq_true.mp h _ (getD_mem l i false hi)

theorem map_range_some_getD (l : List Int) :
    (List.range l.length).map (fun i => some (l.getD i 0)) = l.map some := by
  apply List.ext
  intro i
  rw [get?_map_range, List.get?_map]
  by_cases h : i < l.length
  · rw [if_pos h, get?_eq_getD_of_lt l i 0 h]
    rfl
  · rw [if_neg h, List.get?_eq_none.mpr (by omega)]
    rfl

theorem range_reverse_map_succ {α : Type} (g : Nat → α) (n : Nat) :
    (List.range (n + 1)).reverse.map g = g n :: (List.range n).reverse.map g := by
  rw [List.range_succ, List.reverse_append]
  simp

theorem range_reverse_drop :
    ∀ (n j : Nat), (List.range n).reverse.drop j = (List.range (n - j)).reverse := by
  intro n
  induction n with
  | zero => intro j; simp
  | succ m ih =>
    intro j
    cases j with
    | zero => simp
    | succ j' =>
      rw [List.range_succ, List.reverse_append]
      simp only [List.reverse_singleton, List.singleton_append, List.drop_succ_cons]
      rw [ih j']
      congr 2
      omega

/-! ## C1: the snapshot history computed by the engine -/

theorem tailRid_pos (i : Nat) : 0 < tailRid i := by
  unfold tailRid TAIL_RID_START
  omega

theorem tailRid_ne_zero (i : Nat) : tailRid i ≠ 0 := by
  have := tailRid_pos i
  omega

theorem tailRid_inj (i j : Nat) (h : tailRid i = tailRid j) : i = j := by
  unfold tailRid at h
  omega

theorem specApply_length (cur : List Int) (cols : List (Option Int))
    (h : cols.length = cur.length) : (specApply cur cols).length = cur.length := by
  simp [specApply, h]

theorem snapsOfAux_cons (cur : List Int) (u : List (Option Int))
    (rest : List (List (Option Int))) :
    snapsOfAux cur (u :: rest) =
      ((buildUpdate 0 cur u).2, (buildUpdate 0 cur u).1) ::
        snapsOfAux (buildUpdate 0 cur u).1 rest := rfl

theorem snapsOfAux_length : ∀ (l : List (List (Option Int))) (cur : List Int),
    (snapsOfAux cur l).length = l.length := by
  intro l
  induction l with
  | nil => intro cur; rfl
  | cons u rest ih => intro cur; simp [snapsOfAux_cons, ih]

theorem snapsOfAux_snd_length : ∀ (l : List (List (Option Int))) (cur : List Int),
    (∀ u ∈ l, u.length = cur.length) →
    ∀ sn ∈ snapsOfAux cur l, sn.2.length = cur.length := by
  intro l
  induction l with
  | nil => intro cur _ sn hsn; simp [snapsOfAux] at hsn
  | cons u rest ih =>
    intro cur hl sn hsn
    rw [snapsOfAux_cons] at hsn
    have hv1 : (buildUpdate 0 cur u).1.length = cur.length := buildUpdate_length cur u 0
    rcases List.mem_cons.mp hsn with rfl | hsn'
    · exact hv1
    · have := ih (buildUpdate 0 cur u).1
        (fun x hx => (hl x (List.mem_cons_of_mem _ hx)).trans hv1.symm) sn hsn'
      rw [this, hv1]

theorem stateAt_zero (base : List Int) (snaps : List (Nat × List Int)) :
    stateAt base snaps 0 = base := by
  simp [stateAt]

theorem stateAt_succ (base : List Int) (snaps : List (Nat × List Int)) (m : Nat) :
    stateAt base snaps (m + 1) = (snaps.getD m (0, [])).2 := by
  unfold stateAt
  rw [if_neg (Nat.succ_ne_zero m)]
  simp

theorem stateAt_append_le (base : List Int) (snaps ext : List (Nat × List Int)) (n : Nat)
    (h : n ≤ snaps.length) : stateAt base (snaps ++ ext) n = stateAt base snaps n := by
  cases n with
  | zero => rw [stateAt_zero, stateAt_zero]
  | succ m =>
    rw [stateAt_succ, stateAt_succ, getD_append_lt _ _ _ _ (by omega)]

theorem stateAt_cons_snapsOfAux (cur : List Int) (u : List (Option Int))
    (rest : List (List (Option Int))) (i : Nat) :
    stateAt cur (snapsOfAux cur (u :: rest)) (i + 1) =
      stateAt (buildUpdate 0 cur u).1 (snapsOfAux (buildUpdate 0 cur u).1 rest) i := by
  rw [snapsOfAux_cons, stateAt_succ]
  cases i with
  | zero =>
    rw [List.getD_cons_zero, stateAt_zero]
  | succ j => rw [List.getD_cons_succ, stateAt_succ]

theorem stateAt_snapsOfAux :
    ∀ (l : List (List (Option Int))) (cur : List Int) (n : Nat),
      (∀ u ∈ l, u.length = cur.length) → n ≤ l.length →
      stateAt cur (snapsOfAux cur l) n = stateAfter cur (l.take n) := by
  intro l
  induction l with
  | nil =>
    intro cur n _ hn
    have hz : n = 0 := by simpa using hn
    subst hz
    rw [stateAt_zero]
    rfl
  | cons u rest ih =>
    intro cur n hl hn
    cases n with
    | zero =>
      rw [stateAt_zero]
      rfl
    | succ m =>
      have hu : u.length = cur.length := hl u (List.mem_cons_self _ _)
      have hv1 : (buildUpdate 0 cur u).1.length = cur.length := buildUpdate_length cur u 0
      rw [stateAt_cons_snapsOfAux]
      rw [ih (buildUpdate 0 cur u).1 m
        (fun x hx => (hl x (List.mem_cons_of_mem _ hx)).trans hv1.symm)
        (by simp only [List.length_cons] at hn; omega)]
      rw [buildUpdate_fst_spec cur u 0 hu]
      rw [List.take_succ_cons]
      rfl

theorem maskOk_snapsOfAux :
    ∀ (l : List (List (Option Int))) (cur : List Int),
      (∀ u ∈ l, u.length = cur.length) →
      MaskOk cur (snapsOfAux cur l) := by
  intro l
  induction l with
  | nil =>
    intro cur _ i hi
    simp [snapsOfAux] at hi
  | cons u rest ih =>
    intro cur hl i hi c hc
    have hu : u.length = cur.length := hl u (List.mem_cons_self _ _)
    have hv1 : (buildUpdate 0 cur u).1.length = cur.length := buildUpdate_length cur u 0
    cases i with
    | zero =>
      rw [stateAt_zero, snapsOfAux_cons, List.getD_cons_zero]
      have := buildUpdate_mask_bit cur u 0 c (by omega)
      simpa using this
    | succ i' =>
      have h1 : (snapsOfAux cur (u :: rest)).getD (i' + 1) (0, []) =
          (snapsOfAux (buildUpdate 0 cur u).1 rest).getD i' (0, []) := by
        rw [snapsOfAux_cons, List.getD_cons_succ]
      rw [h1, stateAt_cons_snapsOfAux]
      refine ih (buildUpdate 0 cur u).1
        (fun x hx => (hl x (List.mem_cons_of_mem _ hx)).trans hv1.symm) i' ?_ c
        (hc.trans_eq hv1.symm)
      rw [snapsOfAux_length] at hi ⊢
      simp only [List.length_cons] at hi
      omega

/-! ## C1: reading the invariant state back through the engine -/

theorem readCell_of_dir (t : Table) (s : Storage) (rid : Int) (c : Nat) (pageNo slot : Nat)
    (isB : Bool)
    (hdir : dirLookup t rid = some ((List.range t.total_cols).map
      (fun i => some (tablePid t.name i pageNo isB, slot))))
    (hc : c < t.total_cols) :
    readCell t s rid c = (s.getPage (tablePid t.name c pageNo isB)).read slot := by
  unfold readCell
  rw [hdir]
  dsimp only
  rw [get?_map_range, if_pos hc]

theorem readUserVals_of_cells (t : Table) (s : Storage) (rid : Int) (vals : List Int)
    (hlen : vals.length = t.num_columns)
    (h : ∀ c, c < t.num_columns → readCell t s rid (META_COLUMNS + c) = some (vals.getD c 0)) :
    readUserVals t s rid = some vals := by
  unfold readUserVals
  rw [optMapList_forall (fun i => readCell t s rid (META_COLUMNS + i))
    (fun c => vals.getD c 0) _ (fun c hc => h c (List.mem_range.mp hc))]
  rw [← hlen, map_range_getD]

theorem SInv_stateAt_length (base : List Int) (snaps : List (Nat × List Int)) (t : Table)
    (s : Storage) (hinv : SInv base snaps t s) (n : Nat) (hn : n ≤ snaps.length) :
    (stateAt base snaps n).length = t.num_columns := by
  obtain ⟨-, -, h3, h4, -⟩ := hinv
  cases n with
  | zero => rw [stateAt_zero]; exact h3
  | succ m =>
    rw [stateAt_succ]
    exact h4 _ (getD_mem snaps m (0, []) (by omega))

theorem SInv_readUserVals_base (base : List Int) (snaps : List (Nat × List Int)) (t : Table)
    (s : Storage) (hinv : SInv base snaps t s) : readUserVals t s 0 = some base := by
  obtain ⟨-, -, h3, -, -, -, -, -, -, -, -, -, -, -, h15, -⟩ := hinv
  exact readUserVals_of_cells t s 0 base h3 h15

theorem SInv_readUserVals_tail (base : List Int) (snaps : List (Nat × List Int)) (t : Table)
    (s : Storage) (hinv : SInv base snaps t s) (i : Nat) (hi : i < snaps.length) :
    readUserVals t s (tailRid i) = some ((snaps.getD i (0, [])).2) := by
  obtain ⟨-, -, -, h4, -, -, -, -, -, -, -, -, -, -, -, -, -, h18⟩ := hinv
  exact readUserVals_of_cells t s (tailRid i) _
    (h4 _ (getD_mem snaps i (0, []) hi)) (fun c hc => h18 i hi c hc)

theorem SInv_readUserVals_latest (base : List Int) (snaps : List (Nat × List Int)) (t : Table)
    (s : Storage) (hinv : SInv base snaps t s) (v : Int)
    (hv : readCell t s 0 INDIRECTION_COLUMN = some v) :
    readUserVals t s (if v = 0 then 0 else v) =
      some (stateAt base snaps snaps.length) := by
  have h14 : readCell t s 0 INDIRECTION_COLUMN =
      some (if snaps.length = 0 then (0 : Int) else tailRid (snaps.length - 1)) := by
    obtain ⟨-, -, -, -, -, -, -, -, -, -, -, -, -, h14, -⟩ := hinv
    exact h14
  rw [hv] at h14
  injection h14 with h14
  cases hl : snaps.length with
  | zero =>
    rw [hl] at h14
    norm_num at h14
    subst h14
    rw [if_pos rfl, stateAt_zero]
    exact SInv_readUserVals_base base snaps t s hinv
  | succ m =>
    rw [hl] at h14
    norm_num at h14
    subst h14
    rw [if_neg (tailRid_ne_zero m), stateAt_succ]
    exact SInv_readUserVals_tail base snaps t s hinv m (by omega)

theorem SInv_materialize (base : List Int) (snaps : List (Nat × List Int)) (t : Table)
    (s : Storage) (hinv : SInv base snaps t s) :
    materialize_latest t s 0 = some (stateAt base snaps snaps.length) := by
  have h14 : readCell t s 0 INDIRECTION_COLUMN =
      some (if snaps.length = 0 then (0 : Int) else tailRid (snaps.length - 1)) := by
    obtain ⟨-, -, -, -, -, -, -, -, -, -, -, -, -, h14, -⟩ := hinv
    exact h14
  unfold materialize_latest
  rw [h14]
  exact SInv_readUserVals_latest base snaps t s hinv _ h14

theorem SInv_pkToRid (base : List Int) (snaps : List (Nat × List Int)) (t : Table)
    (s : Storage) (hinv : SInv base snaps t s) :
    pkToRid t s (base.getD t.key 0) = some 0 := by
  obtain ⟨-, h2, -, -, -, -, h7, h8, -⟩ := hinv
  unfold pkToRid
  rw [h8, get?_map_range, if_pos h2, if_pos rfl]
  dsimp only
  rw [show alookup [(base.getD t.key 0, [(0 : Int)])] (base.getD t.key 0) =
    some [(0 : Int)] from by simp [alookup]]
  dsimp only
  rw [h7]
  simp

theorem SInv_tail_stripe (base : List Int) (snaps : List (Nat × List Int)) (t : Table)
    (s : Storage) (hinv : SInv base snaps t s) :
    ∀ c, c < t.total_cols →
      (s.getPage (tablePid t.name c (t.tail_record_count / MAX_RECORDS_PER_PAGE)
        false)).num_records = t.tail_record_count % MAX_RECORDS_PER_PAGE ∧
      (s.getPage (tablePid t.name c (t.tail_record_count / MAX_RECORDS_PER_PAGE)
        false)).data.length = t.tail_record_count % MAX_RECORDS_PER_PAGE := by
  obtain ⟨-, -, -, -, -, h6, -, -, -, -, -, -, h13, -⟩ := hinv
  intro c hc
  rw [h6]
  unfold MAX_RECORDS_PER_PAGE at h13 ⊢
  by_cases hlt : 512 * (snaps.length / 512) < snaps.length
  · obtain ⟨pg, hpg, hn, hd⟩ := (h13 c hc (snaps.length / 512)).1 hlt
    unfold Storage.getPage
    rw [hpg]
    refine ⟨?_, ?_⟩
    · show pg.num_records = _
      omega
    · show pg.data.length = _
      omega
  · have hle : snaps.length ≤ 512 * (snaps.length / 512) := by omega
    have hnone := (h13 c hc (snaps.length / 512)).2 hle
    unfold Storage.getPage
    rw [hnone]
    have hz : snaps.length % 512 = 0 := by omega
    rw [hz]
    exact ⟨rfl, rfl⟩

theorem chainWalk_zero (t : Table) (s : Storage) (fuel : Nat) (acc : List Int) :
    chainWalk t s fuel 0 acc = some acc := by
  cases fuel <;> simp [chainWalk]

theorem chainWalk_desc (base : List Int) (snaps : List (Nat × List Int)) (t : Table)
    (s : Storage) (hinv : SInv base snaps t s) :
    ∀ (i fuel : Nat) (acc : List Int), i < snaps.length → i + 1 ≤ fuel →
      chainWalk t s fuel (tailRid i) acc =
        some (acc ++ (List.range (i + 1)).reverse.map (fun m => tailRid m)) := by
  have h16 : ∀ i, i < snaps.length → readCell t s (tailRid i) INDIRECTION_COLUMN =
      some (if i = 0 then 0 else tailRid (i - 1)) := by
    obtain ⟨-, -, -, -, -, -, -, -, -, -, -, -, -, -, -, h16, -⟩ := hinv
    exact h16
  intro i
  induction i with
  | zero =>
    intro fuel acc h0 hf
    cases fuel with
    | zero => omega
    | succ f =>
      rw [chainWalk, if_neg (tailRid_ne_zero 0), h16 0 h0]
      rw [show (if (0 : Nat) = 0 then (0 : Int) else tailRid (0 - 1)) = (0 : Int) from by simp]
      dsimp only
      rw [if_neg (show ¬ (0 : Int) = tailRid 0 from fun h => tailRid_ne_zero 0 h.symm)]
      rw [chainWalk_zero]
      rw [show (List.range 1).reverse.map (fun m => tailRid m) = [tailRid 0] from rfl]
  | succ m ih =>
    intro fuel acc hm hf
    cases fuel with
    | zero => omega
    | succ f =>
      rw [chainWalk, if_neg (tailRid_ne_zero (m + 1)), h16 (m + 1) hm]
      rw [show (if m + 1 = 0 then (0 : Int) else tailRid (m + 1 - 1)) = tailRid m from by simp]
      dsimp only
      rw [if_neg (show ¬ tailRid m = tailRid (m + 1) from
        fun h => by have := tailRid_inj _ _ h; omega)]
      rw [show (List.range (m + 1 + 1)).reverse.map (fun k => tailRid k) =
        tailRid (m + 1) :: (List.range (m + 1)).reverse.map (fun k => tailRid k) from
        range_reverse_map_succ _ _]
      rw [ih f (acc ++ [tailRid (m + 1)]) (by omega) (by omega)]
      rw [List.append_assoc]
      rfl

theorem collectTailChain_SInv (base : List Int) (snaps : List (Nat × List Int)) (t : Table)
    (s : Storage) (hinv : SInv base snaps t s) :
    collectTailChain t s 0 =
      some ((List.range snaps.length).reverse.map (fun m => tailRid m)) := by
  have h14 : readCell t s 0 INDIRECTION_COLUMN =
      some (if snaps.length = 0 then (0 : Int) else tailRid (snaps.length - 1)) := by
    obtain ⟨-, -, -, -, -, -, -, -, -, -, -, -, -, h14, -⟩ := hinv
    exact h14
  have h6 : t.tail_record_count = snaps.length := by
    obtain ⟨-, -, -, -, -, h6, -⟩ := hinv
    exact h6
  unfold collectTailChain
  rw [h14, h6]
  cases hl : snaps.length with
  | zero =>
    dsimp only
    rw [show (if (0 : Nat) = 0 then (0 : Int) else tailRid (0 - 1)) = (0 : Int) from by simp]
    simp only [Option.getD_some]
    rw [chainWalk_zero]
    rfl
  | succ m =>
    dsimp only
    rw [show (if m + 1 = 0 then (0 : Int) else tailRid (m + 1 - 1)) = tailRid m from by simp]
    simp only [Option.getD_some]
    rw [chainWalk_desc base snaps t s hinv m (m + 1 + 1) [] (by omega) (by omega)]
    rfl

/-! ## C1: a fresh insert establishes the single-row invariant -/

theorem insertIndexLoop_skip (rid : Int) (columns : List Int) :
    ∀ (cs : List Nat) (t : Table),
      (∀ c ∈ cs, t.indices.get? c = some none ∨ t.indices.get? c = none) →
      insertIndexLoop rid columns cs t = t := by
  intro cs
  induction cs with
  | nil => intro t _; rfl
  | cons c0 rest ih =>
    intro t h
    rw [insertIndexLoop]
    rcases h c0 (List.mem_cons_self _ _) with h0 | h0 <;> rw [h0] <;>
      exact ih t (fun c hc => h c (List.mem_cons_of_mem _ hc))

theorem insertIndexLoop_fresh (rid : Int) (columns : List Int) (key : Nat) (pkv : Int)
    (d : List (Int × List Int)) :
    ∀ (cs : List Nat) (t : Table),
      t.key = key → key < t.num_columns →
      columns.get? key = some pkv →
      t.indices.get? key = some (some d) →
      (∀ c, c ≠ key → t.indices.get? c = some none ∨ t.indices.get? c = none) →
      cs.Nodup →
      insertIndexLoop rid columns cs t =
        if key ∈ cs then { t with indices := t.indices.set key (some (aupsert d pkv [rid])) }
        else t := by
  intro cs
  induction cs with
  | nil =>
    intro t _ _ _ _ _ _
    rw [if_neg (List.not_mem_nil key)]
    rfl
  | cons c0 rest ih =>
    intro t htk hklt hcol hidxk hskip hnd
    rw [insertIndexLoop]
    by_cases hc0 : c0 = key
    · rw [hc0, hidxk, hcol]
      have hins : insert_entry t rid key pkv =
          { t with indices := t.indices.set key (some (aupsert d pkv [rid])) } := by
        unfold insert_entry
        rw [if_pos hklt, hidxk]
        dsimp only
        rw [if_pos htk.symm]
        simp only [Option.getD_some]
      have hkrest : key ∉ rest := by
        rw [← hc0]
        exact (List.nodup_cons.mp hnd).1
      show insertIndexLoop rid columns rest (insert_entry t rid key pkv) =
        if key ∈ key :: rest then
          { t with indices := t.indices.set key (some (aupsert d pkv [rid])) }
        else t
      rw [hins]
      rw [insertIndexLoop_skip rid columns rest _ (fun c hc => by
        have hck : c ≠ key := fun h => hkrest (h ▸ hc)
        have hget : ({ t with indices := t.indices.set key (some (aupsert d pkv [rid])) } :
            Table).indices.get? c = t.indices.get? c := by
          dsimp only
          exact get?_set_ne _ _ _ _ (fun h => hck h.symm)
        rw [hget]
        exact hskip c hck)]
      rw [if_pos (List.mem_cons_self key rest)]
    · rcases hskip c0 hc0 with h0 | h0
      all_goals
        rw [h0]
        show insertIndexLoop rid columns rest t =
          if key ∈ c0 :: rest then
            { t with indices := t.indices.set key (some (aupsert d pkv [rid])) }
          else t
        rw [ih t htk hklt hcol hidxk hskip (List.nodup_cons.mp hnd).2]
        by_cases hmem : key ∈ rest
        · rw [if_pos hmem, if_pos (List.mem_cons_of_mem _ hmem)]
        · rw [if_neg hmem, if_neg (fun hm => by
            rcases List.mem_cons.mp hm with h | h
            · exact hc0 h.symm
            · exact hmem h)]

theorem insert_fresh_SInv (name : Chars) (U key : Nat) (base : List Int) (ts : Int)
    (hU : 0 < U) (hk : key < U) (hlen : base.length = U) :
    (insert_row (Table.init name U key) { pages := [] } ts base).1 = true ∧
    (insert_row (Table.init name U key) { pages := [] } ts base).2.1.key = key ∧
    SInv base [] (insert_row (Table.init name U key) { pages := [] } ts base).2.1
      (insert_row (Table.init name U key) { pages := [] } ts base).2.2 := by
  have hkb : key < base.length := by omega
  set t0 := Table.init name U key with ht0
  set s0 : Storage := { pages := [] } with hs0
  have ht0num : t0.num_columns = U := rfl
  have ht0key : t0.key = key := rfl
  have ht0name : t0.name = name := rfl
  have ht0tot : t0.total_cols = 4 + U := rfl
  have hidx0 : t0.indices = (List.range U).map (fun c => if c = key then some [] else none) :=
    rfl
  have habs : dirLookup t0 0 = none := rfl
  have hpages0 : ∀ c, c < t0.total_cols →
      (s0.getPage (tablePid t0.name c (t0.base_record_count / MAX_RECORDS_PER_PAGE)
        true)).num_records = t0.base_record_count % MAX_RECORDS_PER_PAGE ∧
      (s0.getPage (tablePid t0.name c (t0.base_record_count / MAX_RECORDS_PER_PAGE)
        true)).data.length = t0.base_record_count % MAX_RECORDS_PER_PAGE :=
    fun _ _ => ⟨rfl, rfl⟩
  obtain ⟨t2, s2, heqw, hname, hkey, hnum, hbase, htail, hdel, hidx, hother, hrow0, hpother,
    hpwritten⟩ := write_to_base_pages_spec t0 s0 0 ([0, 0, ts, 0] ++ base)
      (by rw [List.length_append, hlen, ht0tot]; rfl) habs hpages0
  have hb0 : t0.base_record_count = 0 := rfl
  have hq0 : t0.base_record_count / MAX_RECORDS_PER_PAGE = 0 := by
    rw [hb0]
    exact Nat.zero_div _
  have hr0 : t0.base_record_count % MAX_RECORDS_PER_PAGE = 0 := by
    rw [hb0]
    exact Nat.zero_mod _
  rw [hq0, hr0] at hrow0 hpwritten
  rw [hq0] at hpother
  rw [hb0] at hbase
  have hins : insert_row t0 s0 ts base =
      (true, insertIndexLoop 0 base (List.range t2.num_columns) t2, s2) := by
    unfold insert_row
    rw [if_neg (by rw [hlen, ht0num]; exact fun h => h rfl)]
    rw [ht0key, get?_eq_getD_of_lt base key 0 hkb, hidx0, get?_map_range, if_pos hk,
      if_pos rfl]
    dsimp only
    rw [show alookup ([] : List (Int × List Int)) (base.getD key 0) = none from rfl]
    rw [Option.isSome_none]
    dsimp only
    rw [show (t0.base_record_count : Int) = (0 : Int) from rfl]
    rw [heqw]
  have hpk : base.get? key = some (base.getD key 0) := get?_eq_getD_of_lt base key 0 hkb
  have hloop : insertIndexLoop 0 base (List.range t2.num_columns) t2 =
      { t2 with indices := t2.indices.set key (some [(base.getD key 0, [(0 : Int)])]) } := by
    rw [insertIndexLoop_fresh 0 base key (base.getD key 0) [] (List.range t2.num_columns) t2
      (hkey.trans ht0key) (by rw [hnum, ht0num]; exact hk) hpk
      (by rw [hidx, hidx0, get?_map_range, if_pos hk, if_pos rfl])
      (fun c hc => by
        rw [hidx, hidx0, get?_map_range]
        by_cases hcU : c < U
        · left
          rw [if_pos hcU, if_neg hc]
        · right
          rw [if_neg hcU])
      (List.nodup_range _)]
    rw [if_pos (by rw [hnum, ht0num]; exact List.mem_range.mpr hk)]
    rfl
  set t3 : Table :=
    { t2 with indices := t2.indices.set key (some [(base.getD key 0, [(0 : Int)])]) } with ht3
  have hnum3 : t3.num_columns = U := by
    show t2.num_columns = U
    rw [hnum, ht0num]
  have hkey3 : t3.key = key := by
    show t2.key = key
    rw [hkey, ht0key]
  have hname3 : t3.name = name := by
    show t2.name = name
    rw [hname, ht0name]
  have htot3 : t3.total_cols = 4 + U := by
    show META_COLUMNS + t3.num_columns = 4 + U
    rw [hnum3]
    rfl
  have hdir9 : dirLookup t3 0 = some ((List.range t3.total_cols).map
      (fun c => some (tablePid t3.name c 0 true, 0))) := by
    rw [show dirLookup t3 0 = dirLookup t2 0 from rfl, hrow0, htot3, hname3]
    rfl
  have hgc : ∀ c, s2.getPage (tablePid t0.name c 0 true) =
      (alookup s2.pages (tablePid t0.name c 0 true)).getD Page.empty :=
    fun _ => rfl
  have hSInv : SInv base [] t3 s2 := by
    unfold SInv
    refine ⟨by rw [hnum3]; exact hU, by rw [hkey3, hnum3]; exact hk,
      by rw [hnum3]; exact hlen,
      fun sn hsn => absurd hsn (List.not_mem_nil _),
      by rw [show t3.base_record_count = t2.base_record_count from rfl, hbase],
      by rw [show t3.tail_record_count = t2.tail_record_count from rfl, htail]; rfl,
      by rw [show t3.deleted = t2.deleted from rfl, hdel]; rfl,
      ?_, hdir9, ?_, ?_, ?_, ?_, ?_, ?_, ?_, ?_, ?_⟩
    · -- indices
      rw [hnum3, hkey3]
      rw [show t3.indices =
        t2.indices.set key (some [(base.getD key 0, [(0 : Int)])]) from rfl]
      rw [hidx, hidx0, map_range_set _ U key _ hk]
      apply map_range_congr
      intro c hcU
      dsimp only
      by_cases hck : c = key
      · rw [if_pos hck, if_pos hck]
      · rw [if_neg hck, if_neg hck, if_neg hck]
    · -- tail directory entries (vacuous)
      intro i hi
      simp at hi
    · -- all other rids absent
      intro rid hr0 _
      rw [show dirLookup t3 rid = dirLookup t2 rid from rfl, hother rid hr0]
      rfl
    · -- base pages exist with one record
      intro c hc
      have hcU : c < 4 + U := by rw [← htot3]; exact hc
      have h := hpwritten c (by rw [ht0tot]; exact hcU)
      rw [hname3]
      exact ⟨_, h, rfl, rfl⟩
    · -- no tail pages
      intro c hc p
      refine ⟨fun h => absurd h (by simp), fun _ => ?_⟩
      rw [hname3]
      rw [hpother (tablePid name c p false) (fun c' hc' heq => by
        have := tablePid_inj t0.name c p false c' 0 true heq
        simp at this)]
      rfl
    · -- base INDIRECTION cell
      rw [readCell_of_dir t3 s2 0 INDIRECTION_COLUMN 0 0 true hdir9
        (by rw [htot3, show INDIRECTION_COLUMN = 0 from rfl]; omega)]
      rw [show tablePid t3.name INDIRECTION_COLUMN 0 true =
        tablePid t0.name 0 0 true from by rw [hname3]; rfl]
      rw [show s2.getPage (tablePid t0.name 0 0 true) =
        { num_records := 0 + 1,
          data := (s0.getPage (tablePid t0.name 0 0 true)).data ++
            [([0, 0, ts, 0] ++ base).getD 0 0] } from by
          unfold Storage.getPage
          rw [hpwritten 0 (by rw [ht0tot]; omega)]
          rfl]
      rw [show (s0.getPage (tablePid t0.name 0 0 true)).data = [] from rfl]
      simp [Page.read]
    · -- base user cells
      intro c hc
      have hcU : c < U := by rw [← hnum3]; exact hc
      rw [readCell_of_dir t3 s2 0 (META_COLUMNS + c) 0 0 true hdir9
        (by rw [htot3, show META_COLUMNS = 4 from rfl]; omega)]
      rw [show tablePid t3.name (META_COLUMNS + c) 0 true =
        tablePid t0.name (4 + c) 0 true from by rw [hname3]; rfl]
      rw [show s2.getPage (tablePid t0.name (4 + c) 0 true) =
        { num_records := 0 + 1,
          data := (s0.getPage (tablePid t0.name (4 + c) 0 true)).data ++
            [([0, 0, ts, 0] ++ base).getD (4 + c) 0] } from by
          unfold Storage.getPage
          rw [hpwritten (4 + c) (by rw [ht0tot]; omega)]
          rfl]
      rw [show (s0.getPage (tablePid t0.name (4 + c) 0 true)).data = [] from rfl]
      rw [show ([] : List Int) ++ [([0, 0, ts, 0] ++ base).getD (4 + c) 0] =
        [([0, 0, ts, 0] ++ base).getD (4 + c) 0] from rfl]
      rw [getD_append_four]
      simp [Page.read]
    · -- tail INDIRECTION cells (vacuous)
      intro i hi
      simp at hi
    · -- tail SCHEMA cells (vacuous)
      intro i hi
      simp at hi
    · -- tail user cells (vacuous)
      intro i hi
      simp at hi
  refine ⟨by rw [hins], ?_, ?_⟩
  · rw [hins]
    show (insertIndexLoop 0 base (List.range t2.num_columns) t2).key = key
    rw [hloop]
    exact hkey3
  · rw [hins]
    show SInv base [] (insertIndexLoop 0 base (List.range t2.num_columns) t2) s2
    rw [hloop]
    exact hSInv

/-! ## C1: one value-changing update extends the invariant by one snapshot -/

theorem update_row_SInv (base : List Int) (snaps : List (Nat × List Int)) (t : Table)
    (s : Storage) (ts : Int) (cols : List (Option Int))
    (hinv : SInv base snaps t s)
    (hlen : cols.length = t.num_columns)
    (hchg : (buildUpdate 0 (stateAt base snaps snaps.length) cols).2 ≠ 0) :
    (update_row t s ts 0 ((List.zipWith (fun c v => Option.getD v c)
        (stateAt base snaps snaps.length) cols).map some)).1 = true ∧
    (update_row t s ts 0 ((List.zipWith (fun c v => Option.getD v c)
        (stateAt base snaps snaps.length) cols).map some)).2.1.key = t.key ∧
    SInv base (snaps ++ [((buildUpdate 0 (stateAt base snaps snaps.length) cols).2,
        (buildUpdate 0 (stateAt base snaps snaps.length) cols).1)])
      (update_row t s ts 0 ((List.zipWith (fun c v => Option.getD v c)
        (stateAt base snaps snaps.length) cols).map some)).2.1
      (update_row t s ts 0 ((List.zipWith (fun c v => Option.getD v c)
        (stateAt base snaps snaps.length) cols).map some)).2.2 := by
  have hinv2 := hinv
  obtain ⟨h1, h2, h3, h4, h5, h6, h7, h8, h9, h10, h11, h12, h13, h14, h15, h16, h17, h18⟩ :=
    hinv2
  set cur := stateAt base snaps snaps.length with hcur
  set ind0 := (if snaps.length = 0 then (0 : Int) else tailRid (snaps.length - 1)) with hind0
  have hcurlen : cur.length = t.num_columns := by
    rw [hcur]
    exact SInv_stateAt_length base snaps t s hinv _ (le_refl _)
  have hnvlen : (buildUpdate 0 cur cols).1.length = t.num_columns := by
    rw [buildUpdate_length]
    exact hcurlen
  have hlatest : readUserVals t s (if ind0 = 0 then 0 else ind0) = some cur := by
    rw [hcur]
    exact SInv_readUserVals_latest base snaps t s hinv ind0 h14
  have hstep : buildUpdate 0 cur ((List.zipWith (fun c v => Option.getD v c) cur cols).map some)
      = buildUpdate 0 cur cols :=
    buildUpdate_filled cur cols 0 (hlen.trans hcurlen.symm)
  have hstripe0 := SInv_tail_stripe base snaps t s hinv
  have hind4 : INDIRECTION_COLUMN < t.total_cols := by
    show INDIRECTION_COLUMN < META_COLUMNS + t.num_columns
    unfold INDIRECTION_COLUMN META_COLUMNS
    omega
  have hsch4 : SCHEMA_ENCODING_COLUMN < t.total_cols := by
    show SCHEMA_ENCODING_COLUMN < META_COLUMNS + t.num_columns
    unfold SCHEMA_ENCODING_COLUMN META_COLUMNS
    omega
  have hmeta : ∀ c, c < t.num_columns → META_COLUMNS + c < t.total_cols := by
    intro c hc
    show META_COLUMNS + c < META_COLUMNS + t.num_columns
    omega
  obtain ⟨t2, s2, heqw, hname, hkey, hnum, hbase, htail, hdel, hidx, hother, hrowN, hpother,
    hpwritten⟩ := write_to_tail_pages_spec t s (tailRid snaps.length)
      ([ind0, tailRid snaps.length, ts, ((buildUpdate 0 cur cols).2 : Int)] ++
        (buildUpdate 0 cur cols).1)
      (by
        rw [List.length_append, hnvlen]
        show 4 + t.num_columns = t.total_cols
        rfl)
      (h11 (tailRid snaps.length) (tailRid_ne_zero _)
        (fun i hi heq => by have := tailRid_inj _ _ heq; omega))
      hstripe0
  have hstripe := hstripe0
  rw [h6] at hstripe hrowN hpother hpwritten htail
  set full := [ind0, tailRid snaps.length, ts, ((buildUpdate 0 cur cols).2 : Int)] ++
    (buildUpdate 0 cur cols).1 with hfull
  obtain ⟨pg0, hpg0, hn0, hd0⟩ := h12 INDIRECTION_COLUMN hind4
  have hbase_ne_tail : ∀ (c q c' : Nat),
      tablePid t.name c 0 true ≠ tablePid t.name c' q false := by
    intro c q c' heq
    have := (tablePid_inj t.name c 0 true c' q false heq).2.2
    simp at this
  have hsgI : s2.getPage (tablePid t.name INDIRECTION_COLUMN 0 true) =
      s.getPage (tablePid t.name INDIRECTION_COLUMN 0 true) := by
    unfold Storage.getPage
    rw [hpother _ (fun c' _ => hbase_ne_tail INDIRECTION_COLUMN _ c')]
  have hwa : (s2.getPage (tablePid t.name INDIRECTION_COLUMN 0 true)).write_at 0
      (tailRid snaps.length) =
      some { pg0 with data := pg0.data.set 0 (tailRid snaps.length) } := by
    rw [hsgI]
    rw [show s.getPage (tablePid t.name INDIRECTION_COLUMN 0 true) = pg0 from by
      unfold Storage.getPage
      rw [hpg0]
      rfl]
    unfold Page.write_at
    rw [if_pos (by omega), if_pos (by omega)]
  have hupd : update_row t s ts 0 ((List.zipWith (fun c v => Option.getD v c) cur cols).map some)
      = (true, t2, s2.putPage (tablePid t.name INDIRECTION_COLUMN 0 true)
          { pg0 with data := pg0.data.set 0 (tailRid snaps.length) }) := by
    unfold update_row
    rw [if_neg (by
      rw [List.length_map, List.length_zipWith, hcurlen, hlen]
      simp)]
    rw [if_neg (by rw [h9]; simp)]
    rw [h14]
    dsimp only
    rw [hlatest]
    dsimp only
    rw [hstep]
    rw [if_neg hchg]
    rw [h6]
    rw [show TAIL_RID_START + ((snaps.length : Nat) : Int) = tailRid snaps.length from rfl]
    rw [show (if (if ind0 = 0 then (0 : Int) else ind0) ≠ 0
        then (if ind0 = 0 then (0 : Int) else ind0) else 0) = ind0 from by
      by_cases h : ind0 = 0 <;> simp [h]]
    rw [← hfull, heqw]
    dsimp only
    rw [show dirLookup t2 0 = dirLookup t 0 from hother 0 (fun h => tailRid_ne_zero _ h.symm)]
    rw [h9]
    dsimp only
    rw [get?_map_range, if_pos hind4]
    dsimp only
    rw [hwa]
  rw [hupd]
  refine ⟨rfl, hkey, ?_⟩
  show SInv base (snaps ++ [((buildUpdate 0 cur cols).2, (buildUpdate 0 cur cols).1)]) t2
    (s2.putPage (tablePid t.name INDIRECTION_COLUMN 0 true)
      { pg0 with data := pg0.data.set 0 (tailRid snaps.length) })
  set s3 := s2.putPage (tablePid t.name INDIRECTION_COLUMN 0 true)
    { pg0 with data := pg0.data.set 0 (tailRid snaps.length) } with hs3
  have hlen1 : (snaps ++ [((buildUpdate 0 cur cols).2, (buildUpdate 0 cur cols).1)]).length =
      snaps.length + 1 := by
    rw [List.length_append]
    rfl
  have hs3other : ∀ pid, pid ≠ tablePid t.name INDIRECTION_COLUMN 0 true →
      alookup s3.pages pid = alookup s2.pages pid := by
    intro pid hpid
    show alookup (aupsert s2.pages _ _) pid = _
    rw [alookup_aupsert, if_neg hpid]
  have hs3I : alookup s3.pages (tablePid t.name INDIRECTION_COLUMN 0 true) =
      some { pg0 with data := pg0.data.set 0 (tailRid snaps.length) } := by
    show alookup (aupsert s2.pages _ _) _ = _
    rw [alookup_aupsert, if_pos rfl]
  have htail_ne_I : ∀ (c q : Nat),
      tablePid t.name c q false ≠ tablePid t.name INDIRECTION_COLUMN 0 true := by
    intro c q heq
    have := (tablePid_inj t.name c q false INDIRECTION_COLUMN 0 true heq).2.2
    simp at this
  have hpage_tail_old : ∀ c, c < t.total_cols →
      ∀ p : Nat, p ≠ snaps.length / MAX_RECORDS_PER_PAGE →
      alookup s3.pages (tablePid t.name c p false) =
        alookup s.pages (tablePid t.name c p false) := by
    intro c hc p hp
    rw [hs3other _ (htail_ne_I c p)]
    exact hpother _ (fun c' hc' heq => hp (tablePid_inj t.name c p false c'
      (snaps.length / MAX_RECORDS_PER_PAGE) false heq).2.1)
  have hpage_tail_q : ∀ c, c < t.total_cols →
      alookup s3.pages (tablePid t.name c (snaps.length / MAX_RECORDS_PER_PAGE) false) =
        some { num_records := snaps.length % MAX_RECORDS_PER_PAGE + 1,
               data := (s.getPage (tablePid t.name c (snaps.length / MAX_RECORDS_PER_PAGE)
                 false)).data ++ [full.getD c 0] } := by
    intro c hc
    rw [hs3other _ (htail_ne_I c _)]
    exact hpwritten c hc
  have hpage_base : ∀ c, c < t.total_cols → c ≠ INDIRECTION_COLUMN →
      alookup s3.pages (tablePid t.name c 0 true) = alookup s.pages (tablePid t.name c 0 true) := by
    intro c hc hcne
    rw [hs3other _ (fun heq =>
      hcne (tablePid_inj t.name c 0 true INDIRECTION_COLUMN 0 true heq).1)]
    exact hpother _ (fun c' hc' => hbase_ne_tail c _ c')
  have hread_tail_new : ∀ c, c < t.total_cols →
      (s3.getPage (tablePid t.name c (snaps.length / MAX_RECORDS_PER_PAGE) false)).read
        (snaps.length % MAX_RECORDS_PER_PAGE) = some (full.getD c 0) := by
    intro c hc
    have hg : s3.getPage (tablePid t.name c (snaps.length / MAX_RECORDS_PER_PAGE) false) =
        { num_records := snaps.length % MAX_RECORDS_PER_PAGE + 1,
          data := (s.getPage (tablePid t.name c (snaps.length / MAX_RECORDS_PER_PAGE)
            false)).data ++ [full.getD c 0] } := by
      unfold Storage.getPage
      rw [hpage_tail_q c hc]
      rfl
    rw [hg, ← (hstripe c hc).1]
    exact Page_read_append_new _ _ ((hstripe c hc).2.trans (hstripe c hc).1.symm)
  have hread_tail_old : ∀ c, c < t.total_cols → ∀ i, i < snaps.length →
      (s3.getPage (tablePid t.name c (i / MAX_RECORDS_PER_PAGE) false)).read
        (i % MAX_RECORDS_PER_PAGE) =
      (s.getPage (tablePid t.name c (i / MAX_RECORDS_PER_PAGE) false)).read
        (i % MAX_RECORDS_PER_PAGE) := by
    intro c hc i hi
    by_cases hq : i / MAX_RECORDS_PER_PAGE = snaps.length / MAX_RECORDS_PER_PAGE
    · rw [hq]
      have hg : s3.getPage (tablePid t.name c (snaps.length / MAX_RECORDS_PER_PAGE) false) =
          { num_records := snaps.length % MAX_RECORDS_PER_PAGE + 1,
            data := (s.getPage (tablePid t.name c (snaps.length / MAX_RECORDS_PER_PAGE)
              false)).data ++ [full.getD c 0] } := by
        unfold Storage.getPage
        rw [hpage_tail_q c hc]
        rfl
      rw [hg, ← (hstripe c hc).1]
      apply Page_read_append
      · rw [(hstripe c hc).1]
        unfold MAX_RECORDS_PER_PAGE at hq ⊢
        omega
      · exact (hstripe c hc).2.trans (hstripe c hc).1.symm
    · have hg : s3.getPage (tablePid t.name c (i / MAX_RECORDS_PER_PAGE) false) =
          s.getPage (tablePid t.name c (i / MAX_RECORDS_PER_PAGE) false) := by
        unfold Storage.getPage
        rw [hpage_tail_old c hc _ hq]
      rw [hg]
  have hread_base_old : ∀ c, c < t.total_cols → c ≠ INDIRECTION_COLUMN →
      (s3.getPage (tablePid t.name c 0 true)).read 0 =
        (s.getPage (tablePid t.name c 0 true)).read 0 := by
    intro c hc hcne
    have hg : s3.getPage (tablePid t.name c 0 true) = s.getPage (tablePid t.name c 0 true) := by
      unfold Storage.getPage
      rw [hpage_base c hc hcne]
    rw [hg]
  have hread_baseI : (s3.getPage (tablePid t.name INDIRECTION_COLUMN 0 true)).read 0 =
      some (tailRid snaps.length) := by
    have hg : s3.getPage (tablePid t.name INDIRECTION_COLUMN 0 true) =
        { pg0 with data := pg0.data.set 0 (tailRid snaps.length) } := by
      unfold Storage.getPage
      rw [hs3I]
      rfl
    rw [hg]
    unfold Page.read
    rw [if_pos (show (0 : Nat) <
      ({ pg0 with data := pg0.data.set 0 (tailRid snaps.length) } : Page).num_records from by
        show (0 : Nat) < pg0.num_records
        omega)]
    exact get?_set_same _ _ _ (by omega)
  have htot2 : t2.total_cols = t.total_cols := by
    unfold Table.total_cols
    rw [hnum]
  have hdir2_0 : dirLookup t2 0 = some ((List.range t2.total_cols).map
      (fun c => some (tablePid t2.name c 0 true, 0))) := by
    rw [hother 0 (fun h => tailRid_ne_zero _ h.symm), htot2, hname]
    exact h9
  have hdir2_old : ∀ i, i < snaps.length →
      dirLookup t2 (tailRid i) = some ((List.range t2.total_cols).map
        (fun c => some (tablePid t2.name c (i / MAX_RECORDS_PER_PAGE) false,
          i % MAX_RECORDS_PER_PAGE))) := by
    intro i hi
    rw [hother _ (fun h => by have := tailRid_inj _ _ h; omega), htot2, hname]
    exact h10 i hi
  have hdir2_new : dirLookup t2 (tailRid snaps.length) =
      some ((List.range t2.total_cols).map
        (fun c => some (tablePid t2.name c (snaps.length / MAX_RECORDS_PER_PAGE) false,
          snaps.length % MAX_RECORDS_PER_PAGE))) := by
    rw [htot2, hname]
    exact hrowN
  unfold SInv
  refine ⟨by rw [hnum]; exact h1, by rw [hkey, hnum]; exact h2, by rw [hnum]; exact h3,
    ?_, by rw [hbase]; exact h5, by rw [htail, hlen1], by rw [hdel]; exact h7,
    by rw [hidx, hkey, hnum]; exact h8, hdir2_0, ?_, ?_, ?_, ?_, ?_, ?_, ?_, ?_, ?_⟩
  · -- snapshot widths
    intro sn' hsn'
    rw [hnum]
    rcases List.mem_append.mp hsn' with h | h
    · exact h4 sn' h
    · have := List.mem_singleton.mp h
      subst this
      exact hnvlen
  · -- tail directory rows
    intro i hi
    rw [hlen1] at hi
    by_cases hil : i < snaps.length
    · exact hdir2_old i hil
    · have hieq : i = snaps.length := by omega
      subst hieq
      exact hdir2_new
  · -- all other rids absent
    intro rid hr hnt
    rw [hother rid (fun h => hnt snaps.length (by rw [hlen1]; omega) h)]
    exact h11 rid hr (fun i hi => hnt i (by rw [hlen1]; omega))
  · -- base pages
    intro c hc
    rw [htot2] at hc
    rw [hname]
    by_cases hcI : c = INDIRECTION_COLUMN
    · subst hcI
      refine ⟨_, hs3I, ?_, ?_⟩
      · show pg0.num_records = 1
        exact hn0
      · show (pg0.data.set 0 (tailRid snaps.length)).length = 1
        rw [List.length_set]
        exact hd0
    · obtain ⟨pg, hpg, hn, hd⟩ := h12 c hc
      exact ⟨pg, by rw [hpage_base c hc hcI]; exact hpg, hn, hd⟩
  · -- tail pages
    intro c hc p
    rw [htot2] at hc
    rw [hname, hlen1]
    constructor
    · intro hplt
      by_cases hpq : p = snaps.length / MAX_RECORDS_PER_PAGE
      · subst hpq
        refine ⟨_, hpage_tail_q c hc, ?_, ?_⟩
        · show snaps.length % MAX_RECORDS_PER_PAGE + 1 = _
          unfold MAX_RECORDS_PER_PAGE
          omega
        · show ((s.getPage _).data ++ [full.getD c 0]).length = _
          rw [List.length_append, (hstripe c hc).2]
          rfl
      · have hplt' : MAX_RECORDS_PER_PAGE * p < snaps.length := by
          unfold MAX_RECORDS_PER_PAGE at hplt hpq ⊢
          omega
        obtain ⟨pg, hpg, hn, hd⟩ := (h13 c hc p).1 hplt'
        refine ⟨pg, by rw [hpage_tail_old c hc p hpq]; exact hpg, ?_, hd⟩
        rw [hn]
        unfold MAX_RECORDS_PER_PAGE at hpq hplt' ⊢
        omega
    · intro hple
      by_cases hpq : p = snaps.length / MAX_RECORDS_PER_PAGE
      · exfalso
        subst hpq
        unfold MAX_RECORDS_PER_PAGE at hple
        omega
      · rw [hpage_tail_old c hc p hpq]
        refine (h13 c hc p).2 ?_
        unfold MAX_RECORDS_PER_PAGE at hple hpq ⊢
        omega
  · -- base INDIRECTION cell
    rw [readCell_of_dir t2 s3 0 INDIRECTION_COLUMN 0 0 true hdir2_0 (by rw [htot2]; exact hind4)]
    rw [hname, hread_baseI, hlen1]
    rw [if_neg (Nat.succ_ne_zero _), Nat.add_sub_cancel]
  · -- base user cells
    intro c hc
    rw [hnum] at hc
    rw [readCell_of_dir t2 s3 0 (META_COLUMNS + c) 0 0 true hdir2_0
      (by rw [htot2]; exact hmeta c hc)]
    rw [hname]
    rw [hread_base_old (META_COLUMNS + c) (hmeta c hc)
      (by unfold META_COLUMNS INDIRECTION_COLUMN; omega)]
    have h15c := h15 c hc
    rw [readCell_of_dir t s 0 (META_COLUMNS + c) 0 0 true h9 (hmeta c hc)] at h15c
    exact h15c
  · -- tail INDIRECTION cells
    intro i hi
    rw [hlen1] at hi
    by_cases hil : i < snaps.length
    · rw [readCell_of_dir t2 s3 (tailRid i) INDIRECTION_COLUMN (i / MAX_RECORDS_PER_PAGE)
        (i % MAX_RECORDS_PER_PAGE) false (hdir2_old i hil) (by rw [htot2]; exact hind4)]
      rw [hname, hread_tail_old INDIRECTION_COLUMN hind4 i hil]
      have h16c := h16 i hil
      rw [readCell_of_dir t s (tailRid i) INDIRECTION_COLUMN (i / MAX_RECORDS_PER_PAGE)
        (i % MAX_RECORDS_PER_PAGE) false (h10 i hil) hind4] at h16c
      exact h16c
    · have hieq : i = snaps.length := by omega
      subst hieq
      rw [readCell_of_dir t2 s3 (tailRid snaps.length) INDIRECTION_COLUMN
        (snaps.length / MAX_RECORDS_PER_PAGE) (snaps.length % MAX_RECORDS_PER_PAGE) false
        hdir2_new (by rw [htot2]; exact hind4)]
      rw [hname, hread_tail_new INDIRECTION_COLUMN hind4]
      rw [show full.getD INDIRECTION_COLUMN 0 = ind0 from by
        rw [hfull, getD_append_lt _ _ _ _ (by simp [INDIRECTION_COLUMN])]
        rfl]
  · -- tail SCHEMA cells
    intro i hi
    rw [hlen1] at hi
    by_cases hil : i < snaps.length
    · rw [readCell_of_dir t2 s3 (tailRid i) SCHEMA_ENCODING_COLUMN (i / MAX_RECORDS_PER_PAGE)
        (i % MAX_RECORDS_PER_PAGE) false (hdir2_old i hil) (by rw [htot2]; exact hsch4)]
      rw [hname, hread_tail_old SCHEMA_ENCODING_COLUMN hsch4 i hil]
      rw [getD_append_lt _ _ _ _ hil]
      have h17c := h17 i hil
      rw [readCell_of_dir t s (tailRid i) SCHEMA_ENCODING_COLUMN (i / MAX_RECORDS_PER_PAGE)
        (i % MAX_RECORDS_PER_PAGE) false (h10 i hil) hsch4] at h17c
      exact h17c
    · have hieq : i = snaps.length := by omega
      subst hieq
      rw [readCell_of_dir t2 s3 (tailRid snaps.length) SCHEMA_ENCODING_COLUMN
        (snaps.length / MAX_RECORDS_PER_PAGE) (snaps.length % MAX_RECORDS_PER_PAGE) false
        hdir2_new (by rw [htot2]; exact hsch4)]
      rw [hname, hread_tail_new SCHEMA_ENCODING_COLUMN hsch4]
      rw [show (snaps ++ [((buildUpdate 0 cur cols).2, (buildUpdate 0 cur cols).1)]).getD
        snaps.length (0, []) = ((buildUpdate 0 cur cols).2, (buildUpdate 0 cur cols).1) from
        getD_append_len _ _ _]
      rw [show full.getD SCHEMA_ENCODING_COLUMN 0 = ((buildUpdate 0 cur cols).2 : Int) from by
        rw [hfull, getD_append_lt _ _ _ _ (by simp [SCHEMA_ENCODING_COLUMN])]
        rfl]
  · -- tail user cells
    intro i hi c hc
    rw [hlen1] at hi
    rw [hnum] at hc
    by_cases hil : i < snaps.length
    · rw [readCell_of_dir t2 s3 (tailRid i) (META_COLUMNS + c) (i / MAX_RECORDS_PER_PAGE)
        (i % MAX_RECORDS_PER_PAGE) false (hdir2_old i hil) (by rw [htot2]; exact hmeta c hc)]
      rw [hname, hread_tail_old (META_COLUMNS + c) (hmeta c hc) i hil]
      rw [getD_append_lt _ _ _ _ hil]
      have h18c := h18 i hil c hc
      rw [readCell_of_dir t s (tailRid i) (META_COLUMNS + c) (i / MAX_RECORDS_PER_PAGE)
        (i % MAX_RECORDS_PER_PAGE) false (h10 i hil) (hmeta c hc)] at h18c
      exact h18c
    · have hieq : i = snaps.length := by omega
      subst hieq
      rw [readCell_of_dir t2 s3 (tailRid snaps.length) (META_COLUMNS + c)
        (snaps.length / MAX_RECORDS_PER_PAGE) (snaps.length % MAX_RECORDS_PER_PAGE) false
        hdir2_new (by rw [htot2]; exact hmeta c hc)]
      rw [hname, hread_tail_new (META_COLUMNS + c) (hmeta c hc)]
      rw [show (snaps ++ [((buildUpdate 0 cur cols).2, (buildUpdate 0 cur cols).1)]).getD
        snaps.length (0, []) = ((buildUpdate 0 cur cols).2, (buildUpdate 0 cur cols).1) from
        getD_append_len _ _ _]
      rw [show full.getD (META_COLUMNS + c) 0 = (buildUpdate 0 cur cols).1.getD c 0 from by
        rw [hfull]
        show ([ind0, tailRid snaps.length, ts, ((buildUpdate 0 cur cols).2 : Int)] ++
          (buildUpdate 0 cur cols).1).getD (4 + c) 0 = _
        rw [getD_append_four]]

theorem stateAt_last_append (base : List Int) (snaps : List (Nat × List Int))
    (sn : Nat × List Int) :
    stateAt base (snaps ++ [sn]) (snaps.length + 1) = sn.2 := by
  rw [stateAt_succ, getD_append_len]

theorem query_update_SInv (base : List Int) (snaps : List (Nat × List Int)) (t : Table)
    (s : Storage) (ts : Int) (cols : List (Option Int))
    (hinv : SInv base snaps t s)
    (hlen : cols.length = t.num_columns)
    (hchg : (buildUpdate 0 (stateAt base snaps snaps.length) cols).2 ≠ 0) :
    (query_update t s ts (base.getD t.key 0) cols).1 = true ∧
    (query_update t s ts (base.getD t.key 0) cols).2.1.key = t.key ∧
    SInv base (snaps ++ [((buildUpdate 0 (stateAt base snaps snaps.length) cols).2,
        (buildUpdate 0 (stateAt base snaps snaps.length) cols).1)])
      (query_update t s ts (base.getD t.key 0) cols).2.1
      (query_update t s ts (base.getD t.key 0) cols).2.2 := by
  have h7 : t.deleted = [] := by
    obtain ⟨-, -, -, -, -, -, h7, -⟩ := hinv
    exact h7
  have hq : query_update t s ts (base.getD t.key 0) cols =
      update_row t s ts 0 ((List.zipWith (fun c v => Option.getD v c)
        (stateAt base snaps snaps.length) cols).map some) := by
    unfold query_update
    rw [if_neg (by rw [hlen]; exact fun h => h rfl)]
    rw [SInv_pkToRid base snaps t s hinv]
    dsimp only
    rw [if_neg (by rw [h7]; exact List.not_mem_nil 0)]
    rw [SInv_materialize base snaps t s hinv]
  rw [hq]
  exact update_row_SInv base snaps t s ts cols hinv hlen hchg

theorem runUpdates_SInv :
    ∀ (ups : List (Int × List (Option Int))) (base : List Int)
      (snaps : List (Nat × List Int)) (t : Table) (s : Storage) (pk : Int),
      SInv base snaps t s →
      pk = base.getD t.key 0 →
      (∀ u ∈ ups, u.2.length = base.length) →
      ChangingFrom (stateAt base snaps snaps.length) (ups.map Prod.snd) →
      runUpdatesOk pk ups (t, s) = true ∧
      (runUpdates pk ups (t, s)).1.key = t.key ∧
      SInv base (snaps ++ snapsOfAux (stateAt base snaps snaps.length) (ups.map Prod.snd))
        (runUpdates pk ups (t, s)).1 (runUpdates pk ups (t, s)).2 := by
  intro ups
  induction ups with
  | nil =>
    intro base snaps t s pk hinv _ _ _
    refine ⟨rfl, rfl, ?_⟩
    show SInv base (snaps ++ []) t s
    rw [List.append_nil]
    exact hinv
  | cons u rest ih =>
    intro base snaps t s pk hinv hpk hul hchg
    obtain ⟨ts0, cols⟩ := u
    have h3 : base.length = t.num_columns := by
      obtain ⟨-, -, h3, -⟩ := hinv
      exact h3
    have hlen : cols.length = t.num_columns := by
      rw [← h3]
      exact hul (ts0, cols) (List.mem_cons_self _ _)
    have hchg1 : (buildUpdate 0 (stateAt base snaps snaps.length) cols).2 ≠ 0 := hchg.1
    obtain ⟨hok1, hkey1, hinv1⟩ := query_update_SInv base snaps t s ts0 cols hinv hlen hchg1
    rw [← hpk] at hok1 hkey1 hinv1
    set st1 := query_update t s ts0 pk cols with hst1
    have hnext := ih base
      (snaps ++ [((buildUpdate 0 (stateAt base snaps snaps.length) cols).2,
        (buildUpdate 0 (stateAt base snaps snaps.length) cols).1)])
      st1.2.1 st1.2.2 pk hinv1 (by rw [hkey1]; exact hpk)
      (fun x hx => hul x (List.mem_cons_of_mem _ hx)) ?_
    · refine ⟨?_, ?_, ?_⟩
      · show ((query_update t s ts0 pk cols).1 &&
          runUpdatesOk pk rest ((query_update t s ts0 pk cols).2.1,
            (query_update t s ts0 pk cols).2.2)) = true
        rw [← hst1, hok1, Bool.true_and]
        exact hnext.1
      · show (runUpdates pk rest (st1.2.1, st1.2.2)).1.key = t.key
        rw [hnext.2.1, hkey1]
      · show SInv base (snaps ++ snapsOfAux (stateAt base snaps snaps.length)
          (cols :: rest.map Prod.snd))
          (runUpdates pk rest (st1.2.1, st1.2.2)).1 (runUpdates pk rest (st1.2.1, st1.2.2)).2
        rw [snapsOfAux_cons]
        have hassoc : snaps ++
            (((buildUpdate 0 (stateAt base snaps snaps.length) cols).2,
              (buildUpdate 0 (stateAt base snaps snaps.length) cols).1) ::
              snapsOfAux (buildUpdate 0 (stateAt base snaps snaps.length) cols).1
                (rest.map Prod.snd)) =
            (snaps ++ [((buildUpdate 0 (stateAt base snaps snaps.length) cols).2,
              (buildUpdate 0 (stateAt base snaps snaps.length) cols).1)]) ++
              snapsOfAux (buildUpdate 0 (stateAt base snaps snaps.length) cols).1
                (rest.map Prod.snd) := by
          rw [List.append_assoc]
          rfl
        rw [hassoc]
        have hstate : stateAt base
            (snaps ++ [((buildUpdate 0 (stateAt base snaps snaps.length) cols).2,
              (buildUpdate 0 (stateAt base snaps snaps.length) cols).1)])
            (snaps ++ [((buildUpdate 0 (stateAt base snaps snaps.length) cols).2,
              (buildUpdate 0 (stateAt base snaps snaps.length) cols).1)]).length =
            (buildUpdate 0 (stateAt base snaps snaps.length) cols).1 := by
          rw [List.length_append, List.length_singleton, stateAt_last_append]
        have hfin := hnext.2.2
        rw [hstate] at hfin
        exact hfin
    · -- the remaining updates still change values from the new state
      have hstate : stateAt base
          (snaps ++ [((buildUpdate 0 (stateAt base snaps snaps.length) cols).2,
            (buildUpdate 0 (stateAt base snaps snaps.length) cols).1)])
          (snaps ++ [((buildUpdate 0 (stateAt base snaps snaps.length) cols).2,
            (buildUpdate 0 (stateAt base snaps snaps.length) cols).1)]).length =
          (buildUpdate 0 (stateAt base snaps snaps.length) cols).1 := by
        rw [List.length_append, List.length_singleton, stateAt_last_append]
      rw [hstate]
      exact hchg.2

/-! ## C1: composing a versioned row from the invariant state -/

theorem overlayStep_spec (bm : Nat) :
    ∀ (row : List Int) (filled : List Bool) (tvals : List Int) (c : Nat),
      filled.length = row.length → tvals.length = row.length →
      (overlayStep bm c row filled tvals).1.length = row.length ∧
      (overlayStep bm c row filled tvals).2.length = row.length ∧
      (∀ i, i < row.length →
        ((bm.testBit (c + i) ∧ filled.getD i false = false) →
          (overlayStep bm c row filled tvals).1.getD i 0 = tvals.getD i 0 ∧
          (overlayStep bm c row filled tvals).2.getD i false = true) ∧
        (¬ (bm.testBit (c + i) ∧ filled.getD i false = false) →
          (overlayStep bm c row filled tvals).1.getD i 0 = row.getD i 0 ∧
          (overlayStep bm c row filled tvals).2.getD i false = filled.getD i false)) := by
  intro row
  induction row with
  | nil =>
    intro filled tvals c _ _
    refine ⟨?_, ?_, ?_⟩
    · cases filled <;> cases tvals <;> rfl
    · cases filled <;> cases tvals <;> rfl
    · intro i hi
      simp at hi
  | cons r rs ih =>
    intro filled tvals c h1 h2
    cases filled with
    | nil => simp at h1
    | cons f fs =>
      cases tvals with
      | nil => simp at h2
      | cons tv tvs =>
        obtain ⟨ih1, ih2, ihp⟩ := ih fs tvs (c + 1) (by simpa using h1) (by simpa using h2)
        rw [overlayStep]
        by_cases hcond : bm.testBit c ∧ f = false
        · rw [if_pos hcond]
          refine ⟨by simp [ih1], by simp [ih2], ?_⟩
          intro i hi
          cases i with
          | zero => simp [hcond]
          | succ jj =>
            simp only [List.getD_cons_succ]
            rw [show c + (jj + 1) = c + 1 + jj from by omega]
            exact ihp jj (by simpa using hi)
        · rw [if_neg hcond]
          refine ⟨by simp [ih1], by simp [ih2], ?_⟩
          intro i hi
          cases i with
          | zero => simp [hcond]
          | succ jj =>
            simp only [List.getD_cons_succ]
            rw [show c + (jj + 1) = c + 1 + jj from by omega]
            exact ihp jj (by simpa using hi)

theorem composeOverlay_spec (base : List Int) (snaps : List (Nat × List Int)) (t : Table)
    (s : Storage) (hinv : SInv base snaps t s) (hmask : MaskOk base snaps) (m0 : Nat)
    (hm0 : m0 < snaps.length) :
    ∀ (m : Nat) (row : List Int) (filled : List Bool),
      m ≤ m0 →
      row.length = t.num_columns → filled.length = t.num_columns →
      (∀ c, c < t.num_columns →
        (filled.getD c false = true →
          row.getD c 0 = (stateAt base snaps (m0 + 1)).getD c 0) ∧
        (filled.getD c false = false →
          row.getD c 0 = base.getD c 0 ∧
          (stateAt base snaps (m + 1)).getD c 0 = (stateAt base snaps (m0 + 1)).getD c 0)) →
      composeOverlay t s ((List.range (m + 1)).reverse.map (fun i => tailRid i)) row filled =
        some (stateAt base snaps (m0 + 1)) := by
  have h3 : base.length = t.num_columns := by
    obtain ⟨-, -, h3, -⟩ := hinv
    exact h3
  have h4 : ∀ sn ∈ snaps, sn.2.length = t.num_columns := by
    obtain ⟨-, -, -, h4, -⟩ := hinv
    exact h4
  have h17 : ∀ i, i < snaps.length → readCell t s (tailRid i) SCHEMA_ENCODING_COLUMN =
      some (((snaps.getD i (0, [])).1 : Int)) := by
    obtain ⟨-, -, -, -, -, -, -, -, -, -, -, -, -, -, -, -, h17, -⟩ := hinv
    exact h17
  have htglen : (stateAt base snaps (m0 + 1)).length = t.num_columns :=
    SInv_stateAt_length base snaps t s hinv _ (by omega)
  intro m
  induction m with
  | zero =>
    intro row filled hm hrl hfl hrec
    rw [show (List.range (0 + 1)).reverse.map (fun i => tailRid i) = [tailRid 0] from rfl]
    rw [composeOverlay]
    rw [h17 0 (by omega)]
    dsimp only
    rw [SInv_readUserVals_tail base snaps t s hinv 0 (by omega)]
    dsimp only
    simp only [Int.toNat_natCast]
    obtain ⟨hsl1, hsl2, hsp⟩ := overlayStep_spec (snaps.getD 0 (0, [])).1 row filled
      (snaps.getD 0 (0, [])).2 0 (hfl.trans hrl.symm)
      ((h4 _ (getD_mem snaps 0 (0, []) (by omega))).trans hrl.symm)
    set ov := overlayStep (snaps.getD 0 (0, [])).1 0 row filled (snaps.getD 0 (0, [])).2
      with hov
    have hfin : ov.1 = stateAt base snaps (m0 + 1) := by
      apply list_ext_getD 0
      · rw [hsl1, hrl, htglen]
      · intro i hi
        rw [hsl1, hrl] at hi
        have hsp' := hsp i (by rw [hrl]; exact hi)
        by_cases hcond : (snaps.getD 0 (0, [])).1.testBit (0 + i) ∧
            filled.getD i false = false
        · rw [(hsp'.1 hcond).1]
          have hst : (snaps.getD 0 (0, [])).2.getD i 0 =
              (stateAt base snaps (0 + 1)).getD i 0 := by
            rw [stateAt_succ]
          rw [hst]
          exact ((hrec i hi).2 hcond.2).2
        · obtain ⟨hkeep1, hkeep2⟩ := hsp'.2 hcond
          rw [hkeep1]
          by_cases hf : filled.getD i false = true
          · exact (hrec i hi).1 hf
          · have hf' : filled.getD i false = false := by
              cases hfc : filled.getD i false
              · rfl
              · exact absurd hfc hf
            have hbit : ¬ ((snaps.getD 0 (0, [])).1.testBit (0 + i) = true) := by
              intro hb
              exact hcond ⟨hb, hf'⟩
            rw [Nat.zero_add] at hbit
            have hmk := hmask 0 (by omega) i (by rw [h3]; exact hi)
            rw [stateAt_zero] at hmk
            rw [hmk] at hbit
            simp only [decide_eq_true_eq, not_not] at hbit
            rw [((hrec i hi).2 hf').1]
            have hb2 : base.getD i 0 = (stateAt base snaps (0 + 1)).getD i 0 := by
              rw [stateAt_succ]
              exact hbit.symm
            rw [hb2]
            exact ((hrec i hi).2 hf').2
    by_cases hall : (ov.2.all id) = true
    · rw [if_pos hall, hfin]
    · rw [if_neg hall]
      rw [composeOverlay]
      rw [hfin]
  | succ j ih =>
    intro row filled hm hrl hfl hrec
    rw [range_reverse_map_succ]
    rw [composeOverlay]
    rw [h17 (j + 1) (by omega)]
    dsimp only
    rw [SInv_readUserVals_tail base snaps t s hinv (j + 1) (by omega)]
    dsimp only
    simp only [Int.toNat_natCast]
    obtain ⟨hsl1, hsl2, hsp⟩ := overlayStep_spec (snaps.getD (j + 1) (0, [])).1 row filled
      (snaps.getD (j + 1) (0, [])).2 0 (hfl.trans hrl.symm)
      ((h4 _ (getD_mem snaps (j + 1) (0, []) (by omega))).trans hrl.symm)
    set ov := overlayStep (snaps.getD (j + 1) (0, [])).1 0 row filled
      (snaps.getD (j + 1) (0, [])).2 with hov
    have hstepinv : ∀ c, c < t.num_columns →
        (ov.2.getD c false = true →
          ov.1.getD c 0 = (stateAt base snaps (m0 + 1)).getD c 0) ∧
        (ov.2.getD c false = false →
          ov.1.getD c 0 = base.getD c 0 ∧
          (stateAt base snaps (j + 1)).getD c 0 = (stateAt base snaps (m0 + 1)).getD c 0) := by
      intro i hi
      have hsp' := hsp i (by rw [hrl]; exact hi)
      by_cases hcond : (snaps.getD (j + 1) (0, [])).1.testBit (0 + i) ∧
          filled.getD i false = false
      · obtain ⟨hnew1, hnew2⟩ := hsp'.1 hcond
        constructor
        · intro _
          rw [hnew1]
          have hst : (snaps.getD (j + 1) (0, [])).2.getD i 0 =
              (stateAt base snaps (j + 1 + 1)).getD i 0 := by
            rw [stateAt_succ]
          rw [hst]
          exact ((hrec i hi).2 hcond.2).2
        · intro hfalse
          rw [hnew2] at hfalse
          exact absurd hfalse (by simp)
      · obtain ⟨hkeep1, hkeep2⟩ := hsp'.2 hcond
        constructor
        · intro htrue
          rw [hkeep2] at htrue
          rw [hkeep1]
          exact (hrec i hi).1 htrue
        · intro hfalse
          rw [hkeep2] at hfalse
          rw [hkeep1]
          refine ⟨((hrec i hi).2 hfalse).1, ?_⟩
          have hbit : ¬ ((snaps.getD (j + 1) (0, [])).1.testBit (0 + i) = true) := by
            intro hb
            exact hcond ⟨hb, hfalse⟩
          rw [Nat.zero_add] at hbit
          have hmk := hmask (j + 1) (by omega) i (by rw [h3]; exact hi)
          rw [hmk] at hbit
          simp only [decide_eq_true_eq, not_not] at hbit
          have hst : (stateAt base snaps (j + 1)).getD i 0 =
              (stateAt base snaps (j + 1 + 1)).getD i 0 := by
            rw [show (stateAt base snaps (j + 1 + 1)).getD i 0 =
              (snaps.getD (j + 1) (0, [])).2.getD i 0 from by rw [stateAt_succ]]
            exact hbit.symm
          rw [hst]
          exact ((hrec i hi).2 hfalse).2
    by_cases hall : (ov.2.all id) = true
    · rw [if_pos hall]
      congr 1
      apply list_ext_getD 0
      · rw [hsl1, hrl, htglen]
      · intro i hi
        rw [hsl1, hrl] at hi
        exact (hstepinv i hi).1 (all_id_getD _ hall i (by rw [hsl2, hrl]; exact hi))
    · rw [if_neg hall]
      exact ih ov.1 ov.2 (by omega) (hsl1.trans hrl) (hsl2.trans hrl) hstepinv

theorem composeRowAtVersion_SInv (base : List Int) (snaps : List (Nat × List Int)) (t : Table)
    (s : Storage) (hinv : SInv base snaps t s) (hmask : MaskOk base snaps) (j : Nat) :
    composeRowAtVersion t s 0 j = some (stateAt base snaps (snaps.length - j)) := by
  have h3 : base.length = t.num_columns := by
    obtain ⟨-, -, h3, -⟩ := hinv
    exact h3
  unfold composeRowAtVersion
  rw [SInv_readUserVals_base base snaps t s hinv]
  dsimp only
  rw [collectTailChain_SInv base snaps t s hinv]
  dsimp only
  by_cases h0 : snaps.length = 0
  · rw [if_pos (by rw [h0]; rfl)]
    rw [h0, Nat.zero_sub, stateAt_zero]
  · rw [if_neg (fun h => h0 (by simpa using congrArg List.length h))]
    by_cases hlej : snaps.length ≤ j
    · rw [if_pos (by simpa using hlej)]
      rw [show snaps.length - j = 0 from by omega, stateAt_zero]
    · rw [if_neg (by simpa using hlej)]
      rw [show ((List.range snaps.length).reverse.map (fun i => tailRid i)).drop j =
        (List.range (snaps.length - j)).reverse.map (fun i => tailRid i) from by
        rw [← List.map_drop, range_reverse_drop]]
      rw [show snaps.length - j = (snaps.length - j - 1) + 1 from by omega]
      refine composeOverlay_spec base snaps t s hinv hmask (snaps.length - j - 1) (by omega)
        (snaps.length - j - 1) base (List.replicate t.num_columns false) (le_refl _) h3
        (List.length_replicate _ _) ?_
      intro c hc
      rw [getD_replicate false false t.num_columns c hc]
      exact ⟨fun h => absurd h (by simp), fun _ => ⟨rfl, rfl⟩⟩

theorem select_version_SInv (base : List Int) (snaps : List (Nat × List Int)) (t : Table)
    (s : Storage) (hinv : SInv base snaps t s) (hmask : MaskOk base snaps) (rv : Int)
    (hrv : rv ≤ 0) :
    select_version t s (base.getD t.key 0) (t.key : Int) (List.replicate t.num_columns 1) rv =
      [(stateAt base snaps (snaps.length - (-rv).toNat)).map some] := by
  have h7 : t.deleted = [] := by
    obtain ⟨-, -, -, -, -, -, h7, -⟩ := hinv
    exact h7
  have htlen : (stateAt base snaps (snaps.length - (-rv).toNat)).length = t.num_columns :=
    SInv_stateAt_length base snaps t s hinv _ (by omega)
  unfold select_version
  rw [if_neg (by simp)]
  dsimp only
  rw [SInv_pkToRid base snaps t s hinv]
  dsimp only
  rw [if_neg (by rw [h7]; exact List.not_mem_nil 0)]
  rw [show (if 0 ≤ rv then (0 : Nat) else (-rv).toNat) = (-rv).toNat from by
    by_cases h : 0 ≤ rv
    · rw [if_pos h]
      omega
    · rw [if_neg h]]
  rw [composeRowAtVersion_SInv base snaps t s hinv hmask]
  dsimp only
  rw [show projNorm t (List.replicate t.num_columns 1) = List.replicate t.num_columns 1 from by
    unfold projNorm
    rw [if_pos (List.length_replicate _ _)]]
  rw [show makeRecord t (stateAt base snaps (snaps.length - (-rv).toNat))
      (List.replicate t.num_columns 1) =
      (stateAt base snaps (snaps.length - (-rv).toNat)).map some from by
    unfold makeRecord
    rw [show (List.range t.num_columns).map
        (fun i => if (List.replicate t.num_columns (1 : Int)).getD i 0 ≠ 0
          then some ((stateAt base snaps (snaps.length - (-rv).toNat)).getD i 0) else none) =
        (List.range t.num_columns).map
          (fun i => some ((stateAt base snaps (snaps.length - (-rv).toNat)).getD i 0)) from by
      apply map_range_congr
      intro c hc
      rw [getD_replicate 1 0 t.num_columns c hc]
      simp]
    rw [← htlen, map_range_some_getD]]

/-- C1: for any single-threaded run that inserts one row with primary key
`p = base[key]` into a fresh table and then applies a sequence of successful
value-changing updates through `Query.update` (every update supplies
`num_columns` values and changes at least one column, so its bitmask is
non-zero), the insert and all updates report success, and
`select_version(p, key, full_projection, rv)` with `rv = -j ≤ 0` returns
exactly one record whose user columns equal the row state immediately after
the `(k - j)`-th update, where the 0-th state is the inserted base row and
`k` is the number of updates; for `j ≥ k` the natural subtraction clamps to
the base row. -/
theorem claim_c1 (name : Chars) (U key : Nat) (base : List Int)
    (ups : List (Int × List (Option Int))) (ts0 rv : Int)
    (hU : 0 < U) (hk : key < U) (hlen : base.length = U)
    (hups : ∀ u ∈ ups, u.2.length = U)
    (hchg : ChangingFrom base (ups.map Prod.snd))
    (hrv : rv ≤ 0) :
    (insert_row (Table.init name U key) { pages := [] } ts0 base).1 = true ∧
    runUpdatesOk (base.getD key 0) ups
      ((insert_row (Table.init name U key) { pages := [] } ts0 base).2.1,
       (insert_row (Table.init name U key) { pages := [] } ts0 base).2.2) = true ∧
    select_version
      (runUpdates (base.getD key 0) ups
        ((insert_row (Table.init name U key) { pages := [] } ts0 base).2.1,
         (insert_row (Table.init name U key) { pages := [] } ts0 base).2.2)).1
      (runUpdates (base.getD key 0) ups
        ((insert_row (Table.init name U key) { pages := [] } ts0 base).2.1,
         (insert_row (Table.init name U key) { pages := [] } ts0 base).2.2)).2
      (base.getD key 0) (key : Int) (List.replicate U 1) rv =
      [(stateAfter base ((ups.map Prod.snd).take (ups.length - (-rv).toNat))).map some] := by
  obtain ⟨hok, hkey1, hinv1⟩ := insert_fresh_SInv name U key base ts0 hU hk hlen
  set t1 := (insert_row (Table.init name U key) { pages := [] } ts0 base).2.1 with ht1
  set s1 := (insert_row (Table.init name U key) { pages := [] } ts0 base).2.2 with hs1
  obtain ⟨hoks, hkf, hinvf⟩ := runUpdates_SInv ups base [] t1 s1 (base.getD key 0) hinv1
    (by rw [hkey1]) (fun u hu => (hups u hu).trans hlen.symm) hchg
  rw [List.nil_append] at hinvf
  rw [show stateAt base ([] : List (Nat × List Int))
    (List.length ([] : List (Nat × List Int))) = base from rfl] at hinvf
  have hmask : MaskOk base (snapsOfAux base (ups.map Prod.snd)) :=
    maskOk_snapsOfAux (ups.map Prod.snd) base (fun u hu => by
      rcases List.mem_map.mp hu with ⟨x, hx, rfl⟩
      exact (hups x hx).trans hlen.symm)
  have hkeyf : (runUpdates (base.getD key 0) ups (t1, s1)).1.key = key := hkf.trans hkey1
  have hnumf : (runUpdates (base.getD key 0) ups (t1, s1)).1.num_columns = U := by
    obtain ⟨-, -, h3, -⟩ := hinvf
    rw [← h3]
    exact hlen
  have hsel := select_version_SInv base (snapsOfAux base (ups.map Prod.snd))
    (runUpdates (base.getD key 0) ups (t1, s1)).1
    (runUpdates (base.getD key 0) ups (t1, s1)).2 hinvf hmask rv hrv
  rw [hkeyf, hnumf] at hsel
  rw [show (snapsOfAux base (ups.map Prod.snd)).length = ups.length from by
    rw [snapsOfAux_length, List.length_map]] at hsel
  rw [stateAt_snapsOfAux (ups.map Prod.snd) base (ups.length - (-rv).toNat)
    (fun u hu => by
      rcases List.mem_map.mp hu with ⟨x, hx, rfl⟩
      exact (hups x hx).trans hlen.symm)
    (by rw [List.length_map]; omega)] at hsel
  exact ⟨hok, hoks, hsel⟩

theorem claim_c1_witness :
    select_version
      (runUpdates 1 [(5, [none, some 101, none])]
        ((insert_row (Table.init ['t'] 3 0) { pages := [] } 1 [1, 100, 200]).2.1,
         (insert_row (Table.init ['t'] 3 0) { pages := [] } 1 [1, 100, 200]).2.2)).1
      (runUpdates 1 [(5, [none, some 101, none])]
        ((insert_row (Table.init ['t'] 3 0) { pages := [] } 1 [1, 100, 200]).2.1,
         (insert_row (Table.init ['t'] 3 0) { pages := [] } 1 [1, 100, 200]).2.2)).2
      1 ((0 : Nat) : Int) (List.replicate 3 1) (-1) = [[some 1, some 100, some 200]] := by
  have h := claim_c1 ['t'] 3 0 [1, 100, 200] [(5, [none, some 101, none])] 1 (-1)
    (by decide) (by decide) (by decide) (by decide) ⟨by decide, trivial⟩ (by decide)
  exact h.2.2.trans (by decide)

/-! ## C8: flush / recover round-trip -/

/-- C8 (counterexample): insert primary key 1, then delete it.  The live
table's PK index no longer lists key 1, but after flushing every page and
recovering a fresh table the key is resurrected: the `deleted` set is not
persisted, `recover` rebuilds the directory from the still-present base
record and re-indexes it, so the set of PK index entries is not
reproduced. -/
theorem claim_c8_counterexample :
    (insert_row (Table.init ['w'] 2 0) { pages := [] } 0 [1, 10]).1 = true ∧
    (query_delete (insert_row (Table.init ['w'] 2 0) { pages := [] } 0 [1, 10]).2.1
      (insert_row (Table.init ['w'] 2 0) { pages := [] } 0 [1, 10]).2.2 1).1 = true ∧
    (query_delete (insert_row (Table.init ['w'] 2 0) { pages := [] } 0 [1, 10]).2.1
      (insert_row (Table.init ['w'] 2 0) { pages := [] } 0 [1, 10]).2.2 1).2.1.indices =
      [some [], none] ∧
    (recover ['w'] 2 0 (flushStorage
      (query_delete (insert_row (Table.init ['w'] 2 0) { pages := [] } 0 [1, 10]).2.1
        (insert_row (Table.init ['w'] 2 0) { pages := [] } 0 [1, 10]).2.2 1).2.2)).map
      Table.indices = some [some [(1, [0])], none] := by
  decide

theorem alookup_mem {α β : Type} [DecidableEq α] :
    ∀ (l : List (α × β)) (k : α) (v : β), alookup l k = some v → (k, v) ∈ l := by
  intro l
  induction l with
  | nil => intro k v h; simp [alookup] at h
  | cons kv rest ih =>
    intro k v h
    obtain ⟨k0, v0⟩ := kv
    by_cases hk : k = k0
    · subst hk
      rw [show alookup ((k, v0) :: rest) k = some v0 from by simp [alookup]] at h
      injection h with h
      subst h
      exact List.mem_cons_self _ _
    · rw [show alookup ((k0, v0) :: rest) k = alookup rest k from by simp [alookup, hk]] at h
      exact List.mem_cons_of_mem _ (ih k v h)

theorem alookup_none_of_forall {α β : Type} [DecidableEq α] :
    ∀ (l : List (α × β)) (k : α), (∀ e ∈ l, e.1 ≠ k) → alookup l k = none := by
  intro l
  induction l with
  | nil => intro k _; rfl
  | cons kv rest ih =>
    intro k h
    obtain ⟨k0, v0⟩ := kv
    have hk : k ≠ k0 := fun hh => h (k0, v0) (List.mem_cons_self _ _) hh.symm
    simp only [alookup, if_neg hk]
    exact ih k (fun e he => h e (List.mem_cons_of_mem _ he))

theorem aupsert_of_fresh {α β : Type} [DecidableEq α] :
    ∀ (l : List (α × β)) (k : α) (v : β), (∀ e ∈ l, e.1 ≠ k) → aupsert l k v = l ++ [(k, v)] := by
  intro l
  induction l with
  | nil => intro k v _; rfl
  | cons kv rest ih =>
    intro k v h
    obtain ⟨k0, v0⟩ := kv
    have hk : k ≠ k0 := fun hh => h (k0, v0) (List.mem_cons_self _ _) hh.symm
    simp only [aupsert, if_neg hk, List.cons_append, List.cons.injEq, true_and]
    exact ih k v (fun e he => h e (List.mem_cons_of_mem _ he))

theorem mem_keys_aupsert {α β : Type} [DecidableEq α] :
    ∀ (l : List (α × β)) (k : α) (v : β) (a : α),
      a ∈ (aupsert l k v).map Prod.fst → a ∈ l.map Prod.fst ∨ a = k := by
  intro l
  induction l with
  | nil =>
    intro k v a h
    simp [aupsert] at h
    exact Or.inr h
  | cons kv rest ih =>
    intro k v a h
    obtain ⟨k0, v0⟩ := kv
    by_cases hk : k = k0
    · subst hk
      simp only [aupsert, if_pos rfl, List.map_cons] at h
      rcases List.mem_cons.mp h with h | h
      · exact Or.inr h
      · exact Or.inl (List.mem_cons_of_mem _ h)
    · simp only [aupsert, if_neg hk, List.map_cons] at h
      rcases List.mem_cons.mp h with h | h
      · exact Or.inl (h ▸ List.mem_cons_self _ _)
      · rcases ih k v a h with h | h
        · exact Or.inl (List.mem_cons_of_mem _ h)
        · exact Or.inr h

theorem aupsert_keys_nodup {α β : Type} [DecidableEq α] :
    ∀ (l : List (α × β)) (k : α) (v : β),
      (l.map Prod.fst).Nodup → ((aupsert l k v).map Prod.fst).Nodup := by
  intro l
  induction l with
  | nil => intro k v _; simp [aupsert]
  | cons kv rest ih =>
    intro k v hnd
    obtain ⟨k0, v0⟩ := kv
    simp only [List.map_cons, List.nodup_cons] at hnd
    by_cases hk : k = k0
    · subst hk
      have he : aupsert ((k, v0) :: rest) k v = (k, v) :: rest := by
        simp [aupsert]
      rw [he, List.map_cons, List.nodup_cons]
      exact hnd
    · have he : aupsert ((k0, v0) :: rest) k v = (k0, v0) :: aupsert rest k v := by
        simp [aupsert, hk]
      rw [he, List.map_cons, List.nodup_cons]
      refine ⟨fun hmem => ?_, ih k v hnd.2⟩
      rcases mem_keys_aupsert rest k v k0 hmem with h | h
      · exact hnd.1 h
      · exact hk h.symm

theorem writeColumns_nodup (rid : Int) (pageNo : Nat) (isBase : Bool) (full : List Int) :
    ∀ (cols : List Nat) (t : Table) (s : Storage),
      (s.pages.map Prod.fst).Nodup →
      (((writeColumns rid pageNo isBase full cols t s).2.1).pages.map Prod.fst).Nodup := by
  intro cols
  induction cols with
  | nil => intro t s h; exact h
  | cons c0 rest ih =>
    intro t s h
    rw [writeColumns]
    cases hfg : full.get? c0 with
    | none => exact h
    | some v =>
      dsimp only
      cases hw : (s.getPage (tablePid t.name c0 pageNo isBase)).write v with
      | none => exact h
      | some pr =>
        obtain ⟨pg, slot⟩ := pr
        dsimp only
        exact ih _ _ (aupsert_keys_nodup _ _ _ h)

theorem write_to_base_pages_nodup (t : Table) (s : Storage) (rid : Int) (full : List Int)
    (h : (s.pages.map Prod.fst).Nodup) :
    (((write_to_base_pages t s rid full).2.1).pages.map Prod.fst).Nodup := by
  unfold write_to_base_pages
  have hw := writeColumns_nodup rid (t.base_record_count / MAX_RECORDS_PER_PAGE) true full
    (List.range t.total_cols) (t.ensure_dir_entry rid) s h
  cases heq : writeColumns rid (t.base_record_count / MAX_RECORDS_PER_PAGE) true full
      (List.range t.total_cols) (t.ensure_dir_entry rid) s with
  | mk t2 pr =>
    obtain ⟨s2, flag⟩ := pr
    rw [heq] at hw
    cases flag
    · exact hw
    · exact hw

theorem charsToInt_natChars (n : Nat) : charsToInt (natChars n) = some ((n : Nat) : Int) := by
  have h : intChars ((n : Nat) : Int) = natChars n := by
    unfold intChars
    rw [if_neg (by omega : ¬ ((n : Int) < 0))]
    congr 1
  rw [← h]
  exact charsToInt_intChars _

theorem Page_read_concat (old : List Int) (v : Int) (n j : Nat)
    (hlen : old.length = n) (hj : j ≤ n) :
    Page.read { num_records := n + 1, data := old ++ [v] } j =
      if j < n then old.get? j else some v := by
  unfold Page.read
  rw [if_pos (by omega : j < n + 1)]
  by_cases h : j < n
  · rw [if_pos h]
    exact List.get?_append (by omega)
  · rw [if_neg h]
    have hjn : j = n := by omega
    subst hjn
    rw [← hlen]
    exact List.get?_concat_length old v

theorem Page_read_get? (pg : Page) (j : Nat) (v : Int) (h : pg.read j = some v) :
    pg.data.get? j = some v := by
  unfold Page.read at h
  by_cases hj : j < pg.num_records
  · rw [if_pos hj] at h
    exact h
  · rw [if_neg hj] at h
    exact absurd h (by simp)

theorem mem_aupsert {α β : Type} [DecidableEq α] :
    ∀ (l : List (α × β)) (k : α) (v : β) (e : α × β),
      e ∈ aupsert l k v → e ∈ l ∨ e = (k, v) := by
  intro l
  induction l with
  | nil =>
    intro k v e h
    simp [aupsert] at h
    exact Or.inr h
  | cons kv rest ih =>
    intro k v e h
    obtain ⟨k0, v0⟩ := kv
    by_cases hk : k = k0
    · subst hk
      have he : aupsert ((k, v0) :: rest) k v = (k, v) :: rest := by
        simp [aupsert]
      rw [he] at h
      rcases List.mem_cons.mp h with h | h
      · exact Or.inr h
      · exact Or.inl (List.mem_cons_of_mem _ h)
    · have he : aupsert ((k0, v0) :: rest) k v = (k0, v0) :: aupsert rest k v := by
        simp [aupsert, hk]
      rw [he] at h
      rcases List.mem_cons.mp h with h | h
      · exact Or.inl (by rw [h]; exact List.mem_cons_self _ _)
      · rcases ih k v e h with h | h
        · exact Or.inl (List.mem_cons_of_mem _ h)
        · exact Or.inr h

theorem nodup_getD_ne (l : List Int) (hnd : l.Nodup) (r r' : Nat)
    (hr : r < l.length) (hr' : r' < l.length) (hne : r ≠ r') :
    l.getD r 0 ≠ l.getD r' 0 := by
  rw [getD_eq_get?_getD, getD_eq_get?_getD, List.get?_eq_get hr, List.get?_eq_get hr']
  intro h
  simp only [Option.getD_some] at h
  have h2 := (List.Nodup.get_inj_iff hnd).mp h
  exact hne (congrArg Fin.val h2)

theorem locate_of_indices (t : Table) (key : Nat) (d : List (Int × List Int))
    (hkey : key < t.num_columns) (hidx : t.indices.get? key = some (some d)) :
    ∀ v, locate t key v = (alookup d v).getD [] := by
  intro v
  unfold locate
  rw [if_pos hkey, hidx]

theorem lastIdx_lt :
    ∀ (tl : List Nat) (r k : Nat), lastIdx tl r = some k → k < tl.length ∧ tl.getD k 0 = r := by
  intro tl
  induction tl with
  | nil =>
    intro r k h
    simp [lastIdx] at h
  | cons a rest ih =>
    intro r k h
    rw [lastIdx] at h
    cases hrec : lastIdx rest r with
    | some k0 =>
      rw [hrec] at h
      injection h with h
      subst h
      obtain ⟨h1, h2⟩ := ih r k0 hrec
      exact ⟨by simp only [List.length_cons]; omega, h2⟩
    | none =>
      rw [hrec] at h
      by_cases ha : a = r
      · rw [if_pos ha] at h
        injection h with h
        subst h
        exact ⟨by simp, ha⟩
      · rw [if_neg ha] at h
        exact absurd h (by simp)

theorem lastIdx_append_self :
    ∀ (tl : List Nat) (r : Nat), lastIdx (tl ++ [r]) r = some tl.length := by
  intro tl
  induction tl with
  | nil =>
    intro r
    show lastIdx [r] r = some 0
    rw [lastIdx]
    rw [show lastIdx [] r = none from rfl]
    rw [if_pos rfl]
  | cons a rest ih =>
    intro r
    show lastIdx (a :: (rest ++ [r])) r = some (rest.length + 1)
    rw [lastIdx, ih r]

theorem lastIdx_append_ne :
    ∀ (tl : List Nat) (r r' : Nat), r' ≠ r → lastIdx (tl ++ [r]) r' = lastIdx tl r' := by
  intro tl
  induction tl with
  | nil =>
    intro r r' hne
    show lastIdx [r] r' = none
    rw [lastIdx]
    rw [show lastIdx [] r' = none from rfl]
    rw [if_neg (fun h => hne h.symm)]
  | cons a rest ih =>
    intro r r' hne
    show lastIdx (a :: (rest ++ [r])) r' = lastIdx (a :: rest) r'
    rw [lastIdx, ih r r' hne, lastIdx]

theorem indVal_fresh (tl : List Nat) (B : Nat)
    (h : ∀ k, k < tl.length → tl.getD k 0 < B) : indVal tl B = 0 := by
  unfold indVal
  cases hl : lastIdx tl B with
  | none => rfl
  | some k =>
    obtain ⟨h1, h2⟩ := lastIdx_lt tl B k hl
    exact absurd h2 (by have := h k h1; omega)

theorem indVal_append_self (tl : List Nat) (r : Nat) :
    indVal (tl ++ [r]) r = TAIL_RID_START + (tl.length : Int) := by
  unfold indVal
  rw [lastIdx_append_self]

theorem indVal_append_ne (tl : List Nat) (r r' : Nat) (h : r' ≠ r) :
    indVal (tl ++ [r]) r' = indVal tl r' := by
  unfold indVal
  rw [lastIdx_append_ne tl r r' h]

theorem write_to_tail_pages_nodup (t : Table) (s : Storage) (rid : Int) (full : List Int)
    (h : (s.pages.map Prod.fst).Nodup) :
    (((write_to_tail_pages t s rid full).2.1).pages.map Prod.fst).Nodup := by
  unfold write_to_tail_pages
  have hw := writeColumns_nodup rid (t.tail_record_count / MAX_RECORDS_PER_PAGE) false full
    (List.range t.total_cols) (t.ensure_dir_entry rid) s h
  cases heq : writeColumns rid (t.tail_record_count / MAX_RECORDS_PER_PAGE) false full
      (List.range t.total_cols) (t.ensure_dir_entry rid) s with
  | mk t2 pr =>
    obtain ⟨s2, flag⟩ := pr
    rw [heq] at hw
    cases flag
    · exact hw
    · exact hw

theorem get?_zipWith {α β γ : Type} (f : α → β → γ) :
    ∀ (as : List α) (bs : List β) (i : Nat),
      (List.zipWith f as bs).get? i =
        match as.get? i, bs.get? i with
        | some a, some b => some (f a b)
        | _, _ => none := by
  intro as
  induction as with
  | nil =>
    intro bs i
    cases bs <;> cases i <;> rfl
  | cons a as ih =>
    intro bs i
    cases bs with
    | nil =>
      cases i with
      | zero => rfl
      | succ j =>
        have h1 : (List.zipWith f (a :: as) ([] : List β)).get? (j + 1) = none := rfl
        rw [h1]
        cases hg : (a :: as).get? (j + 1) <;> rfl
    | cons b bs =>
      cases i with
      | zero => rfl
      | succ j => exact ih bs j

theorem C8Inv_init (name : Chars) (U key : Nat) (hU : 0 < U) (hk : key < U) :
    C8Inv name U key [] [] (Table.init name U key) { pages := [] } := by
  unfold C8Inv
  refine ⟨rfl, rfl, rfl, rfl, rfl, rfl, ?_, ?_, ?_, ?_, ?_, ?_, ?_, ?_, ?_⟩
  · intro k hk2
    simp at hk2
  · show (List.range U).map (fun c => if c = key then some [] else none) = _
    apply map_range_congr
    intro c _
    by_cases hc : c = key
    · rw [if_pos hc, if_pos hc]
      rfl
    · rw [if_neg hc, if_neg hc]
  · intro r hr
    simp at hr
  · intro k hk2
    simp at hk2
  · intro rid _ _
    rfl
  · intro c hc p
    refine ⟨fun h => ?_, fun _ => rfl⟩
    simp at h
  · intro c hc q
    refine ⟨fun h => ?_, fun _ => rfl⟩
    simp at h
  · intro pid _ _
    rfl
  · simp

theorem C8_reads (name : Chars) (U key : Nat) (pks : List Int) (tl : List Nat)
    (t : Table) (s : Storage)
    (hk : key < U) (hnumc : t.num_columns = U)
    (howner : ∀ k, k < tl.length → tl.getD k 0 < pks.length)
    (hdirB : ∀ r : Nat, r < pks.length →
      dirLookup t (r : Nat) = some (C8Row name (META_COLUMNS + U) r))
    (hdirT : ∀ k : Nat, k < tl.length →
      dirLookup t (TAIL_RID_START + (k : Int)) = some (C8RowT name (META_COLUMNS + U) k))
    (hpgB : ∀ c, c < META_COLUMNS + U → ∀ p : Nat,
      (MAX_RECORDS_PER_PAGE * p < pks.length →
        ∃ pg, alookup s.pages (tablePid name c p true) = some pg ∧
          pg.num_records = min MAX_RECORDS_PER_PAGE (pks.length - MAX_RECORDS_PER_PAGE * p) ∧
          pg.data.length = pg.num_records ∧
          (c = RID_COLUMN → ∀ j, j < pg.num_records →
            pg.read j = some ((MAX_RECORDS_PER_PAGE * p + j : Nat) : Int)) ∧
          (c = INDIRECTION_COLUMN → ∀ j, j < pg.num_records →
            pg.read j = some (indVal tl (MAX_RECORDS_PER_PAGE * p + j))) ∧
          (c = META_COLUMNS + key → ∀ j, j < pg.num_records →
            pg.read j = some (pks.getD (MAX_RECORDS_PER_PAGE * p + j) 0))) ∧
      (pks.length ≤ MAX_RECORDS_PER_PAGE * p →
        alookup s.pages (tablePid name c p true) = none))
    (hpgT : ∀ c, c < META_COLUMNS + U → ∀ q : Nat,
      (MAX_RECORDS_PER_PAGE * q < tl.length →
        ∃ pg, alookup s.pages (tablePid name c q false) = some pg ∧
          pg.num_records = min MAX_RECORDS_PER_PAGE (tl.length - MAX_RECORDS_PER_PAGE * q) ∧
          pg.data.length = pg.num_records ∧
          (c = RID_COLUMN → ∀ j, j < pg.num_records →
            pg.read j = some (TAIL_RID_START + ((MAX_RECORDS_PER_PAGE * q + j : Nat) : Int))) ∧
          (c = META_COLUMNS + key → ∀ j, j < pg.num_records →
            pg.read j = some (pks.getD (tl.getD (MAX_RECORDS_PER_PAGE * q + j) 0) 0))) ∧
      (tl.length ≤ MAX_RECORDS_PER_PAGE * q →
        alookup s.pages (tablePid name c q false) = none))
    (r : Nat) (hr : r < pks.length) :
    readCell t s (r : Int) INDIRECTION_COLUMN = some (indVal tl r) ∧
    ∃ vals, readUserVals t s (if indVal tl r = 0 then ((r : Nat) : Int) else indVal tl r) =
        some vals ∧
      vals.get? key = some (pks.getD r 0) ∧ vals.length = U := by
  have hM : MAX_RECORDS_PER_PAGE = 512 := rfl
  have hTr : TAIL_RID_START = 1000000000 := rfl
  have hplB : MAX_RECORDS_PER_PAGE * (r / MAX_RECORDS_PER_PAGE) < pks.length := by
    rw [hM]
    omega
  have hrowB := hdirB r hr
  obtain ⟨pg0, h01, h02, h03, _, h0I, _⟩ := (hpgB INDIRECTION_COLUMN
    (by unfold INDIRECTION_COLUMN META_COLUMNS; omega) (r / MAX_RECORDS_PER_PAGE)).1 hplB
  have hslot0 : r % MAX_RECORDS_PER_PAGE < pg0.num_records := by
    rw [h02, hM]
    omega
  have hix : MAX_RECORDS_PER_PAGE * (r / MAX_RECORDS_PER_PAGE) +
      r % MAX_RECORDS_PER_PAGE = r := by
    rw [hM]
    omega
  have hcell0 : readCell t s (r : Int) INDIRECTION_COLUMN = some (indVal tl r) := by
    unfold readCell
    rw [hrowB]
    dsimp only
    have hg : (C8Row name (META_COLUMNS + U) r).get? INDIRECTION_COLUMN =
        some (some (tablePid name INDIRECTION_COLUMN (r / MAX_RECORDS_PER_PAGE) true,
          r % MAX_RECORDS_PER_PAGE)) := by
      unfold C8Row
      rw [get?_map_range, if_pos (by unfold INDIRECTION_COLUMN META_COLUMNS; omega)]
    rw [hg]
    dsimp only
    have hgp : s.getPage (tablePid name INDIRECTION_COLUMN
        (r / MAX_RECORDS_PER_PAGE) true) = pg0 := by
      unfold Storage.getPage
      rw [h01]
      rfl
    rw [hgp]
    have h := h0I rfl (r % MAX_RECORDS_PER_PAGE) hslot0
    rw [h, hix]
  refine ⟨hcell0, ?_⟩
  cases hl : lastIdx tl r with
  | none =>
    have hiv : indVal tl r = 0 := by
      unfold indVal
      rw [hl]
    rw [hiv, if_pos rfl]
    refine ⟨(List.range U).map (fun i => ((s.getPage (tablePid name (META_COLUMNS + i)
        (r / MAX_RECORDS_PER_PAGE) true)).data).getD (r % MAX_RECORDS_PER_PAGE) 0),
      ?_, ?_, by simp⟩
    · unfold readUserVals
      rw [hnumc]
      apply optMapList_forall
      intro i hi
      have hiU : i < U := List.mem_range.mp hi
      show readCell t s (r : Int) (META_COLUMNS + i) =
        some (((s.getPage (tablePid name (META_COLUMNS + i)
          (r / MAX_RECORDS_PER_PAGE) true)).data).getD (r % MAX_RECORDS_PER_PAGE) 0)
      obtain ⟨pgi, hi1, hi2, hi3, _, _, _⟩ := (hpgB (META_COLUMNS + i)
        (by omega) (r / MAX_RECORDS_PER_PAGE)).1 hplB
      have hgp : s.getPage (tablePid name (META_COLUMNS + i)
          (r / MAX_RECORDS_PER_PAGE) true) = pgi := by
        unfold Storage.getPage
        rw [hi1]
        rfl
      unfold readCell
      rw [hrowB]
      dsimp only
      have hg : (C8Row name (META_COLUMNS + U) r).get? (META_COLUMNS + i) =
          some (some (tablePid name (META_COLUMNS + i) (r / MAX_RECORDS_PER_PAGE) true,
            r % MAX_RECORDS_PER_PAGE)) := by
        unfold C8Row
        rw [get?_map_range, if_pos (by omega)]
      rw [hg]
      dsimp only
      rw [hgp]
      unfold Page.read
      rw [if_pos (by rw [hi2, hM]; omega)]
      exact get?_eq_getD_of_lt pgi.data (r % MAX_RECORDS_PER_PAGE) 0
        (by rw [hi3, hi2, hM]; omega)
    · rw [get?_map_range, if_pos hk]
      show some (((s.getPage (tablePid name (META_COLUMNS + key)
          (r / MAX_RECORDS_PER_PAGE) true)).data).getD (r % MAX_RECORDS_PER_PAGE) 0) =
        some (pks.getD r 0)
      obtain ⟨pgk, hk1, hk2, hk3, _, _, hkK⟩ := (hpgB (META_COLUMNS + key)
        (by omega) (r / MAX_RECORDS_PER_PAGE)).1 hplB
      have hgp : s.getPage (tablePid name (META_COLUMNS + key)
          (r / MAX_RECORDS_PER_PAGE) true) = pgk := by
        unfold Storage.getPage
        rw [hk1]
        rfl
      have hslotk : r % MAX_RECORDS_PER_PAGE < pgk.num_records := by
        rw [hk2, hM]
        omega
      have hget := Page_read_get? pgk (r % MAX_RECORDS_PER_PAGE) _ (hkK rfl _ hslotk)
      rw [hgp, getD_eq_get?_getD, hget, hix]
      rfl
  | some k =>
    obtain ⟨hkT, hkown⟩ := lastIdx_lt tl r k hl
    have hiv : indVal tl r = TAIL_RID_START + (k : Int) := by
      unfold indVal
      rw [hl]
    rw [hiv, if_neg (by rw [hTr]; omega)]
    have hplT : MAX_RECORDS_PER_PAGE * (k / MAX_RECORDS_PER_PAGE) < tl.length := by
      rw [hM]
      omega
    have hixk : MAX_RECORDS_PER_PAGE * (k / MAX_RECORDS_PER_PAGE) +
        k % MAX_RECORDS_PER_PAGE = k := by
      rw [hM]
      omega
    have hrowT := hdirT k hkT
    refine ⟨(List.range U).map (fun i => ((s.getPage (tablePid name (META_COLUMNS + i)
        (k / MAX_RECORDS_PER_PAGE) false)).data).getD (k % MAX_RECORDS_PER_PAGE) 0),
      ?_, ?_, by simp⟩
    · unfold readUserVals
      rw [hnumc]
      apply optMapList_forall
      intro i hi
      have hiU : i < U := List.mem_range.mp hi
      show readCell t s (TAIL_RID_START + (k : Int)) (META_COLUMNS + i) =
        some (((s.getPage (tablePid name (META_COLUMNS + i)
          (k / MAX_RECORDS_PER_PAGE) false)).data).getD (k % MAX_RECORDS_PER_PAGE) 0)
      obtain ⟨pgi, hi1, hi2, hi3, _, _⟩ := (hpgT (META_COLUMNS + i)
        (by omega) (k / MAX_RECORDS_PER_PAGE)).1 hplT
      have hgp : s.getPage (tablePid name (META_COLUMNS + i)
          (k / MAX_RECORDS_PER_PAGE) false) = pgi := by
        unfold Storage.getPage
        rw [hi1]
        rfl
      unfold readCell
      rw [hrowT]
      dsimp only
      have hg : (C8RowT name (META_COLUMNS + U) k).get? (META_COLUMNS + i) =
          some (some (tablePid name (META_COLUMNS + i) (k / MAX_RECORDS_PER_PAGE) false,
            k % MAX_RECORDS_PER_PAGE)) := by
        unfold C8RowT
        rw [get?_map_range, if_pos (by omega)]
      rw [hg]
      dsimp only
      rw [hgp]
      unfold Page.read
      rw [if_pos (by rw [hi2, hM]; omega)]
      exact get?_eq_getD_of_lt pgi.data (k % MAX_RECORDS_PER_PAGE) 0
        (by rw [hi3, hi2, hM]; omega)
    · rw [get?_map_range, if_pos hk]
      show some (((s.getPage (tablePid name (META_COLUMNS + key)
          (k / MAX_RECORDS_PER_PAGE) false)).data).getD (k % MAX_RECORDS_PER_PAGE) 0) =
        some (pks.getD r 0)
      obtain ⟨pgk, hk1, hk2, hk3, _, hkK⟩ := (hpgT (META_COLUMNS + key)
        (by omega) (k / MAX_RECORDS_PER_PAGE)).1 hplT
      have hgp : s.getPage (tablePid name (META_COLUMNS + key)
          (k / MAX_RECORDS_PER_PAGE) false) = pgk := by
        unfold Storage.getPage
        rw [hk1]
        rfl
      have hslotk : k % MAX_RECORDS_PER_PAGE < pgk.num_records := by
        rw [hk2, hM]
        omega
      have hget := Page_read_get? pgk (k % MAX_RECORDS_PER_PAGE) _ (hkK rfl _ hslotk)
      rw [hgp, getD_eq_get?_getD, hget, hixk, hkown]
      rfl

theorem C8_materialize (name : Chars) (U key : Nat) (pks : List Int) (tl : List Nat)
    (t : Table) (s : Storage)
    (hk : key < U) (hnumc : t.num_columns = U)
    (howner : ∀ k, k < tl.length → tl.getD k 0 < pks.length)
    (hdirB : ∀ r : Nat, r < pks.length →
      dirLookup t (r : Nat) = some (C8Row name (META_COLUMNS + U) r))
    (hdirT : ∀ k : Nat, k < tl.length →
      dirLookup t (TAIL_RID_START + (k : Int)) = some (C8RowT name (META_COLUMNS + U) k))
    (hpgB : ∀ c, c < META_COLUMNS + U → ∀ p : Nat,
      (MAX_RECORDS_PER_PAGE * p < pks.length →
        ∃ pg, alookup s.pages (tablePid name c p true) = some pg ∧
          pg.num_records = min MAX_RECORDS_PER_PAGE (pks.length - MAX_RECORDS_PER_PAGE * p) ∧
          pg.data.length = pg.num_records ∧
          (c = RID_COLUMN → ∀ j, j < pg.num_records →
            pg.read j = some ((MAX_RECORDS_PER_PAGE * p + j : Nat) : Int)) ∧
          (c = INDIRECTION_COLUMN → ∀ j, j < pg.num_records →
            pg.read j = some (indVal tl (MAX_RECORDS_PER_PAGE * p + j))) ∧
          (c = META_COLUMNS + key → ∀ j, j < pg.num_records →
            pg.read j = some (pks.getD (MAX_RECORDS_PER_PAGE * p + j) 0))) ∧
      (pks.length ≤ MAX_RECORDS_PER_PAGE * p →
        alookup s.pages (tablePid name c p true) = none))
    (hpgT : ∀ c, c < META_COLUMNS + U → ∀ q : Nat,
      (MAX_RECORDS_PER_PAGE * q < tl.length →
        ∃ pg, alookup s.pages (tablePid name c q false) = some pg ∧
          pg.num_records = min MAX_RECORDS_PER_PAGE (tl.length - MAX_RECORDS_PER_PAGE * q) ∧
          pg.data.length = pg.num_records ∧
          (c = RID_COLUMN → ∀ j, j < pg.num_records →
            pg.read j = some (TAIL_RID_START + ((MAX_RECORDS_PER_PAGE * q + j : Nat) : Int))) ∧
          (c = META_COLUMNS + key → ∀ j, j < pg.num_records →
            pg.read j = some (pks.getD (tl.getD (MAX_RECORDS_PER_PAGE * q + j) 0) 0))) ∧
      (tl.length ≤ MAX_RECORDS_PER_PAGE * q →
        alookup s.pages (tablePid name c q false) = none))
    (r : Nat) (hr : r < pks.length) :
    ∃ vals, materialize_latest t s (r : Int) = some vals ∧
      vals.get? key = some (pks.getD r 0) ∧ vals.length = U := by
  obtain ⟨hind, vals, hv1, hv2, hv3⟩ :=
    C8_reads name U key pks tl t s hk hnumc howner hdirB hdirT hpgB hpgT r hr
  refine ⟨vals, ?_, hv2, hv3⟩
  unfold materialize_latest
  rw [hind]
  exact hv1

theorem insert_C8Inv (name : Chars) (U key : Nat) (pks : List Int) (tl : List Nat)
    (t : Table) (s : Storage) (ts : Int) (cols : List Int)
    (hU : 0 < U) (hk : key < U) (hlen : cols.length = U)
    (hfresh : ∀ r, r < pks.length → pks.getD r 0 ≠ cols.getD key 0)
    (hBTlt : (pks.length : Int) < TAIL_RID_START)
    (hinv : C8Inv name U key pks tl t s) :
    (insert_row t s ts cols).1 = true ∧
    C8Inv name U key (pks ++ [cols.getD key 0]) tl (insert_row t s ts cols).2.1
      (insert_row t s ts cols).2.2 := by
  obtain ⟨hname, hkey, hnum, hbase, htail, hdel, howner, hidx, hdir, hdirT, hdirn, hpgs,
    hpgT, hpidn, hnd⟩ := hinv
  have hM : MAX_RECORDS_PER_PAGE = 512 := rfl
  have hTr : TAIL_RID_START = 1000000000 := rfl
  have hkc : key < cols.length := by omega
  have htot : t.total_cols = META_COLUMNS + U := by
    unfold Table.total_cols
    rw [hnum]
  have hidxk : t.indices.get? key = some (some ((List.range pks.length).map
      (fun r => (pks.getD r 0, [(r : Int)])))) := by
    rw [hidx, get?_map_range, if_pos hk, if_pos rfl]
  have hlookA : alookup ((List.range pks.length).map
      (fun r => (pks.getD r 0, [(r : Int)]))) (cols.getD key 0) = none := by
    apply alookup_none_of_forall
    intro e he
    obtain ⟨r, hr, rfl⟩ := List.mem_map.mp he
    exact hfresh r (List.mem_range.mp hr)
  have habs : dirLookup t (t.base_record_count : Int) = none := by
    rw [hbase]
    apply hdirn
    · intro r hr h
      have := Nat.cast_inj.mp h
      omega
    · intro k hkk h
      omega
  have hpages : ∀ c, c < t.total_cols →
      (s.getPage (tablePid t.name c (t.base_record_count / MAX_RECORDS_PER_PAGE)
        true)).num_records = t.base_record_count % MAX_RECORDS_PER_PAGE ∧
      (s.getPage (tablePid t.name c (t.base_record_count / MAX_RECORDS_PER_PAGE)
        true)).data.length = t.base_record_count % MAX_RECORDS_PER_PAGE := by
    intro c hc
    rw [htot] at hc
    rw [hbase, hname]
    obtain ⟨hlt, hge⟩ := hpgs c hc (pks.length / MAX_RECORDS_PER_PAGE)
    by_cases hcase : MAX_RECORDS_PER_PAGE * (pks.length / MAX_RECORDS_PER_PAGE) < pks.length
    · obtain ⟨pg, hpg1, hpg2, hpg3, _, _, _⟩ := hlt hcase
      have hgp : s.getPage (tablePid name c (pks.length / MAX_RECORDS_PER_PAGE) true) = pg := by
        unfold Storage.getPage
        rw [hpg1]
        rfl
      have hnr : pg.num_records = pks.length % MAX_RECORDS_PER_PAGE := by
        rw [hpg2, hM]
        rw [hM] at hcase
        omega
      exact ⟨by rw [hgp, hnr], by rw [hgp, hpg3, hnr]⟩
    · have hge' : pks.length ≤ MAX_RECORDS_PER_PAGE * (pks.length / MAX_RECORDS_PER_PAGE) := by
        rw [hM]
        rw [hM] at hcase
        omega
      have hnone := hge hge'
      have hgp : s.getPage (tablePid name c (pks.length / MAX_RECORDS_PER_PAGE) true) =
          Page.empty := by
        unfold Storage.getPage
        rw [hnone]
        rfl
      have hmod : pks.length % MAX_RECORDS_PER_PAGE = 0 := by
        rw [hM]
        rw [hM] at hcase
        omega
      exact ⟨by rw [hgp, hmod]; rfl, by rw [hgp, hmod]; rfl⟩
  have hfull : ([0, (t.base_record_count : Int), ts, 0] ++ cols).length = t.total_cols := by
    rw [List.length_append, hlen, htot]
    rfl
  obtain ⟨t2, s2, heqw, hname2, hkey2, hnum2, hbase2, htail2, hdel2, hidx2, hother, hrow,
    hpother, hpwritten⟩ :=
    write_to_base_pages_spec t s (t.base_record_count : Int)
      ([0, (t.base_record_count : Int), ts, 0] ++ cols) hfull habs hpages
  rw [hbase] at hother hrow hpother hpwritten
  rw [hname] at hrow hpother hpwritten
  rw [htot] at hrow hpother hpwritten
  have hins : insert_row t s ts cols =
      (true, insertIndexLoop (t.base_record_count : Int) cols (List.range t2.num_columns) t2,
        s2) := by
    unfold insert_row
    rw [if_neg (by rw [hlen, hnum]; exact fun h => h rfl)]
    rw [hkey, get?_eq_getD_of_lt cols key 0 hkc, hidxk]
    dsimp only
    rw [hlookA, Option.isSome_none]
    dsimp only
    rw [heqw]
  have hpk : cols.get? key = some (cols.getD key 0) := get?_eq_getD_of_lt cols key 0 hkc
  have hloop : insertIndexLoop (t.base_record_count : Int) cols (List.range t2.num_columns) t2 =
      { t2 with indices := t2.indices.set key (some (aupsert
          ((List.range pks.length).map (fun r => (pks.getD r 0, [(r : Int)])))
          (cols.getD key 0) [(t.base_record_count : Int)])) } := by
    rw [insertIndexLoop_fresh (t.base_record_count : Int) cols key (cols.getD key 0)
      ((List.range pks.length).map (fun r => (pks.getD r 0, [(r : Int)])))
      (List.range t2.num_columns) t2
      (by rw [hkey2, hkey])
      (by rw [hnum2, hnum]; exact hk)
      hpk
      (by rw [hidx2]; exact hidxk)
      (fun c hc => by
        rw [hidx2, hidx, get?_map_range]
        by_cases hcU : c < U
        · left
          rw [if_pos hcU, if_neg hc]
        · right
          rw [if_neg hcU])
      (List.nodup_range _)]
    rw [if_pos (by rw [hnum2, hnum]; exact List.mem_range.mpr hk)]
  have hlen1 : (pks ++ [cols.getD key 0]).length = pks.length + 1 := by
    rw [List.length_append, List.length_singleton]
  have haup : aupsert ((List.range pks.length).map (fun r => (pks.getD r 0, [(r : Int)])))
      (cols.getD key 0) [(t.base_record_count : Int)] =
      (List.range (pks.length + 1)).map
        (fun r => ((pks ++ [cols.getD key 0]).getD r 0, [(r : Int)])) := by
    rw [aupsert_of_fresh _ _ _ (fun e he => by
      obtain ⟨r, hr, rfl⟩ := List.mem_map.mp he
      exact hfresh r (List.mem_range.mp hr))]
    rw [List.range_succ, List.map_append]
    congr 1
    · apply map_range_congr
      intro r hr
      show (pks.getD r 0, [(r : Int)]) = ((pks ++ [cols.getD key 0]).getD r 0, [(r : Int)])
      rw [getD_append_lt pks [cols.getD key 0] r 0 (by omega)]
    · simp only [List.map_cons, List.map_nil]
      rw [getD_append_len, hbase]
  rw [hins, hloop]
  refine ⟨rfl, ?_⟩
  unfold C8Inv
  refine ⟨by show t2.name = name; rw [hname2, hname],
    by show t2.key = key; rw [hkey2, hkey],
    by show t2.num_columns = U; rw [hnum2, hnum],
    by show t2.base_record_count = (pks ++ [cols.getD key 0]).length; rw [hbase2, hbase, hlen1],
    by show t2.tail_record_count = tl.length; rw [htail2, htail],
    by show t2.deleted = ([] : List Int); rw [hdel2, hdel],
    ?_, ?_, ?_, ?_, ?_, ?_, ?_, ?_, ?_⟩
  · intro k hkk
    have := howner k hkk
    rw [hlen1]
    omega
  · show t2.indices.set key (some (aupsert
        ((List.range pks.length).map (fun r => (pks.getD r 0, [(r : Int)])))
        (cols.getD key 0) [(t.base_record_count : Int)])) = _
    rw [hlen1, haup, hidx2, hidx, map_range_set _ U key _ hk]
    apply map_range_congr
    intro c hc
    dsimp only
    by_cases hck : c = key
    · rw [if_pos hck, if_pos hck]
    · rw [if_neg hck, if_neg hck, if_neg hck]
  · intro r hr
    rw [hlen1] at hr
    show dirLookup t2 (r : Int) = some (C8Row name (META_COLUMNS + U) r)
    rcases Nat.lt_succ_iff_lt_or_eq.mp hr with hlt | heq
    · have hne : ((r : Nat) : Int) ≠ (pks.length : Int) := by
        intro h
        have := Nat.cast_inj.mp h
        omega
      rw [hother (r : Int) hne]
      exact hdir r hlt
    · subst heq
      rw [hrow]
      rfl
  · intro k hkk
    show dirLookup t2 (TAIL_RID_START + (k : Int)) = some (C8RowT name (META_COLUMNS + U) k)
    rw [hother (TAIL_RID_START + (k : Int)) (by intro h; omega)]
    exact hdirT k hkk
  · intro rid hallB hallT
    show dirLookup t2 rid = none
    have hne : rid ≠ (pks.length : Int) :=
      hallB pks.length (by rw [hlen1]; omega)
    rw [hother rid hne]
    apply hdirn
    · intro r hr
      exact hallB r (by rw [hlen1]; omega)
    · intro k hkk
      exact hallT k hkk
  · intro c hc p
    constructor
    · intro hpl
      rw [hlen1] at hpl
      by_cases hpq : p = pks.length / MAX_RECORDS_PER_PAGE
      · subst hpq
        have hold := hpages c (by rw [htot]; exact hc)
        rw [hbase, hname] at hold
        have hw := hpwritten c hc
        refine ⟨_, hw, ?_, ?_, ?_, ?_, ?_⟩
        · dsimp only
          rw [hlen1, hM]
          omega
        · dsimp only
          rw [List.length_append, List.length_singleton, hold.2]
        · intro hcR j hj
          subst hcR
          have hj' : j < pks.length % MAX_RECORDS_PER_PAGE + 1 := hj
          rw [Page_read_concat _ _ _ j hold.2 (by omega)]
          by_cases hjl : j < pks.length % MAX_RECORDS_PER_PAGE
          · rw [if_pos hjl]
            have hql : MAX_RECORDS_PER_PAGE * (pks.length / MAX_RECORDS_PER_PAGE) <
                pks.length := by
              rw [hM]
              rw [hM] at hjl
              omega
            obtain ⟨pgo, ho1, ho2, ho3, hoR, hoI, hoK⟩ := (hpgs RID_COLUMN hc
              (pks.length / MAX_RECORDS_PER_PAGE)).1 hql
            have hgpo : s.getPage (tablePid name RID_COLUMN
                (pks.length / MAX_RECORDS_PER_PAGE) true) = pgo := by
              unfold Storage.getPage
              rw [ho1]
              rfl
            have hjn : j < pgo.num_records := by
              rw [ho2, hM]
              rw [hM] at hjl
              omega
            rw [hgpo, Page_read_get? pgo j _ (hoR rfl j hjn)]
          · rw [if_neg hjl]
            have hjeq : j = pks.length % MAX_RECORDS_PER_PAGE := by omega
            subst hjeq
            have hv : ([0, (pks.length : Int), ts, 0] ++ cols).getD RID_COLUMN 0 =
                (pks.length : Int) := rfl
            rw [hv]
            exact congrArg (fun n : Nat => (some ((n : Int)) : Option Int))
              (by rw [hM]; omega)
        · intro hcI j hj
          subst hcI
          have hj' : j < pks.length % MAX_RECORDS_PER_PAGE + 1 := hj
          rw [Page_read_concat _ _ _ j hold.2 (by omega)]
          by_cases hjl : j < pks.length % MAX_RECORDS_PER_PAGE
          · rw [if_pos hjl]
            have hql : MAX_RECORDS_PER_PAGE * (pks.length / MAX_RECORDS_PER_PAGE) <
                pks.length := by
              rw [hM]
              rw [hM] at hjl
              omega
            obtain ⟨pgo, ho1, ho2, ho3, hoR, hoI, hoK⟩ := (hpgs INDIRECTION_COLUMN hc
              (pks.length / MAX_RECORDS_PER_PAGE)).1 hql
            have hgpo : s.getPage (tablePid name INDIRECTION_COLUMN
                (pks.length / MAX_RECORDS_PER_PAGE) true) = pgo := by
              unfold Storage.getPage
              rw [ho1]
              rfl
            have hjn : j < pgo.num_records := by
              rw [ho2, hM]
              rw [hM] at hjl
              omega
            rw [hgpo, Page_read_get? pgo j _ (hoI rfl j hjn)]
          · rw [if_neg hjl]
            have hjeq : j = pks.length % MAX_RECORDS_PER_PAGE := by omega
            subst hjeq
            have hv : ([0, (pks.length : Int), ts, 0] ++ cols).getD INDIRECTION_COLUMN 0 =
                (0 : Int) := rfl
            have hixf : MAX_RECORDS_PER_PAGE * (pks.length / MAX_RECORDS_PER_PAGE) +
                pks.length % MAX_RECORDS_PER_PAGE = pks.length := by
              rw [hM]
              omega
            rw [hv, hixf, indVal_fresh tl pks.length howner]
        · intro hcK j hj
          subst hcK
          have hj' : j < pks.length % MAX_RECORDS_PER_PAGE + 1 := hj
          rw [Page_read_concat _ _ _ j hold.2 (by omega)]
          by_cases hjl : j < pks.length % MAX_RECORDS_PER_PAGE
          · rw [if_pos hjl]
            have hql : MAX_RECORDS_PER_PAGE * (pks.length / MAX_RECORDS_PER_PAGE) <
                pks.length := by
              rw [hM]
              rw [hM] at hjl
              omega
            obtain ⟨pgo, ho1, ho2, ho3, hoR, hoI, hoK⟩ := (hpgs (META_COLUMNS + key) hc
              (pks.length / MAX_RECORDS_PER_PAGE)).1 hql
            have hgpo : s.getPage (tablePid name (META_COLUMNS + key)
                (pks.length / MAX_RECORDS_PER_PAGE) true) = pgo := by
              unfold Storage.getPage
              rw [ho1]
              rfl
            have hjn : j < pgo.num_records := by
              rw [ho2, hM]
              rw [hM] at hjl
              omega
            have hb : MAX_RECORDS_PER_PAGE * (pks.length / MAX_RECORDS_PER_PAGE) + j <
                pks.length := by
              rw [hM]
              rw [hM] at hjl
              omega
            rw [hgpo, Page_read_get? pgo j _ (hoK rfl j hjn),
              getD_append_lt pks [cols.getD key 0] _ 0 hb]
          · rw [if_neg hjl]
            have hjeq : j = pks.length % MAX_RECORDS_PER_PAGE := by omega
            subst hjeq
            have hvk : ([0, (pks.length : Int), ts, 0] ++ cols).getD (META_COLUMNS + key) 0 =
                cols.getD key 0 := getD_append_four 0 (pks.length : Int) ts 0 cols key
            have hix : MAX_RECORDS_PER_PAGE * (pks.length / MAX_RECORDS_PER_PAGE) +
                pks.length % MAX_RECORDS_PER_PAGE = pks.length := by
              rw [hM]
              omega
            rw [hvk, hix, getD_append_len]
      · have hfacts : MAX_RECORDS_PER_PAGE * p < pks.length ∧
            MAX_RECORDS_PER_PAGE ≤ pks.length - MAX_RECORDS_PER_PAGE * p := by
          have hq : p ≠ pks.length / MAX_RECORDS_PER_PAGE := hpq
          rw [hM] at hq hpl ⊢
          omega
        obtain ⟨pgo, ho1, ho2, ho3, hoR, hoI, hoK⟩ := (hpgs c hc p).1 hfacts.1
        have hframe : alookup s2.pages (tablePid name c p true) =
            alookup s.pages (tablePid name c p true) := by
          apply hpother
          intro c' hc' hcontra
          exact hpq (tablePid_inj name c p true c' (pks.length / MAX_RECORDS_PER_PAGE) true
            hcontra).2.1
        refine ⟨pgo, by rw [hframe]; exact ho1, ?_, ho3, hoR, hoI, ?_⟩
        · rw [ho2, hlen1, hM]
          have := hfacts.2
          rw [hM] at this
          omega
        · intro hcK j hj
          have hb : MAX_RECORDS_PER_PAGE * p + j < pks.length := by
            have h2 := hfacts.2
            have h3 : j < pgo.num_records := hj
            rw [ho2] at h3
            rw [hM] at h2 h3 ⊢
            omega
          rw [getD_append_lt pks [cols.getD key 0] _ 0 hb]
          exact hoK hcK j hj
    · intro hple
      rw [hlen1] at hple
      have hpq : p ≠ pks.length / MAX_RECORDS_PER_PAGE := by
        intro hcon
        rw [hcon, hM] at hple
        omega
      have hframe := hpother (tablePid name c p true)
        (fun c' hc' hcontra => hpq (tablePid_inj name c p true c'
          (pks.length / MAX_RECORDS_PER_PAGE) true hcontra).2.1)
      rw [hframe]
      apply (hpgs c hc p).2
      omega
  · intro c hc q
    have hframe : alookup s2.pages (tablePid name c q false) =
        alookup s.pages (tablePid name c q false) := by
      apply hpother
      intro c' hc' hcontra
      exact Bool.false_ne_true (tablePid_inj name c q false c'
        (pks.length / MAX_RECORDS_PER_PAGE) true hcontra).2.2
    constructor
    · intro hq
      obtain ⟨pg', hq1, hq2, hq3, hqR, hqK⟩ := (hpgT c hc q).1 hq
      refine ⟨pg', by rw [hframe]; exact hq1, hq2, hq3, hqR, ?_⟩
      intro hcK j hj
      have hjb : j < pg'.num_records := hj
      have hb : tl.getD (MAX_RECORDS_PER_PAGE * q + j) 0 < pks.length := by
        apply howner
        rw [hq2, hM] at hjb
        rw [hM]
        omega
      rw [getD_append_lt pks [cols.getD key 0] _ 0 hb]
      exact hqK hcK j hj
    · intro hq
      rw [hframe]
      exact (hpgT c hc q).2 hq
  · intro pid hnpB hnpT
    have hframe := hpother pid
      (fun c' hc' => hnpB c' (pks.length / MAX_RECORDS_PER_PAGE) hc')
    rw [hframe]
    exact hpidn pid hnpB hnpT
  · have hnd2 := write_to_base_pages_nodup t s (t.base_record_count : Int)
      ([0, (t.base_record_count : Int), ts, 0] ++ cols) hnd
    rw [heqw] at hnd2
    exact hnd2

theorem update_C8Inv (name : Chars) (U key : Nat) (pks : List Int) (tl : List Nat)
    (t : Table) (s : Storage) (ts : Int) (pk : Int) (cols : List (Option Int))
    (hU : 0 < U) (hk : key < U) (hlen : cols.length = U)
    (hkeynone : cols.get? key = some none)
    (hpkmem : pk ∈ pks)
    (hpknd : pks.Nodup)
    (hBT : (pks.length : Int) ≤ TAIL_RID_START)
    (hinv : C8Inv name U key pks tl t s) :
    (query_update t s ts pk cols).1 = true ∧
    ∃ tl', (tl' = tl ∨ ∃ r : Nat, r < pks.length ∧ pks.getD r 0 = pk ∧ tl' = tl ++ [r]) ∧
      C8Inv name U key pks tl' (query_update t s ts pk cols).2.1
        (query_update t s ts pk cols).2.2 := by
  have hinv' := hinv
  obtain ⟨hname, hkey, hnum, hbase, htail, hdel, howner, hidx, hdirB, hdirT, hdirn, hpgB,
    hpgT, hpidn, hnd⟩ := hinv'
  have hM : MAX_RECORDS_PER_PAGE = 512 := rfl
  have hTr : TAIL_RID_START = 1000000000 := rfl
  obtain ⟨⟨r, hrlen⟩, hget⟩ := List.mem_iff_get.mp hpkmem
  have hr : r < pks.length := hrlen
  have hpkr : pks.getD r 0 = pk := by
    rw [getD_eq_get?_getD, List.get?_eq_get hrlen, Option.getD_some]
    exact hget
  have hidxk : t.indices.get? key = some (some ((List.range pks.length).map
      (fun r => (pks.getD r 0, [(r : Int)])))) := by
    rw [hidx, get?_map_range, if_pos hk, if_pos rfl]
  have halook : alookup ((List.range pks.length).map
      (fun r => (pks.getD r 0, [(r : Int)]))) pk = some [(r : Int)] := by
    apply alookup_of_mem_nodup
    · exact List.mem_map.mpr ⟨r, List.mem_range.mpr hr, by rw [hpkr]⟩
    · have hkeys : (((List.range pks.length).map
          (fun r => (pks.getD r 0, [(r : Int)]))).map Prod.fst) = pks := by
        rw [List.map_map]
        exact map_range_getD pks 0
      rw [hkeys]
      exact hpknd
  have hpkrid : pkToRid t s pk = some ((r : Nat) : Int) := by
    unfold pkToRid
    rw [hkey, hidxk]
    dsimp only
    rw [halook]
    dsimp only
    rw [hdel]
    rw [if_neg (List.not_mem_nil _)]
  obtain ⟨hind, vals, hvread, hvkey, hvlen⟩ :=
    C8_reads name U key pks tl t s hk hnum howner hdirB hdirT hpgB hpgT r hr
  have hmat : materialize_latest t s ((r : Nat) : Int) = some vals := by
    unfold materialize_latest
    rw [hind]
    exact hvread
  rw [hpkr] at hvkey
  have hquq : query_update t s ts pk cols =
      update_row t s ts ((r : Nat) : Int)
        ((List.zipWith (fun c v => Option.getD v c) vals cols).map some) := by
    unfold query_update
    rw [if_neg (by rw [hlen, hnum]; exact fun h => h rfl)]
    rw [hpkrid]
    dsimp only
    rw [hdel, if_neg (List.not_mem_nil _), hmat]
  have hfl : (List.zipWith (fun c v => Option.getD v c) vals cols).length = U := by
    rw [List.length_zipWith, hvlen, hlen]
    exact Nat.min_self U
  have hfs : ((List.zipWith (fun c v => Option.getD v c) vals cols).map some).length = U := by
    rw [List.length_map]
    exact hfl
  have hfkey : (List.zipWith (fun c v => Option.getD v c) vals cols).get? key = some pk := by
    rw [get?_zipWith, hvkey, hkeynone]
    rfl
  have hfsk : ((List.zipWith (fun c v => Option.getD v c) vals cols).map some).get? key =
      some (some pk) := by
    rw [List.get?_map, hfkey]
    rfl
  have hdirB_r := hdirB r hr
  by_cases hmask : (buildUpdate 0 vals
      ((List.zipWith (fun c v => Option.getD v c) vals cols).map some)).2 = 0
  · have hupd : update_row t s ts ((r : Nat) : Int)
        ((List.zipWith (fun c v => Option.getD v c) vals cols).map some) = (true, t, s) := by
      unfold update_row
      rw [if_neg (by rw [hfs, hnum]; exact fun h => h rfl)]
      rw [hdirB_r, Option.isNone_some, if_neg Bool.false_ne_true]
      rw [hind]
      dsimp only
      rw [hvread]
      dsimp only
      rw [if_pos hmask]
    rw [hquq, hupd]
    exact ⟨rfl, tl, Or.inl rfl, hinv⟩
  · have hstep1key : (buildUpdate 0 vals
        ((List.zipWith (fun c v => Option.getD v c) vals cols).map some)).1.getD key 0 = pk := by
      rw [buildUpdate_fst_spec vals _ 0 (by rw [hfs, hvlen])]
      unfold specApply
      rw [getD_eq_get?_getD, get?_zipWith, hvkey, hfsk]
      rfl
    have htot : t.total_cols = META_COLUMNS + U := by
      unfold Table.total_cols
      rw [hnum]
    have habsT : dirLookup t (TAIL_RID_START + (t.tail_record_count : Int)) = none := by
      rw [htail]
      apply hdirn
      · intro r' hr' h
        omega
      · intro k hkk h
        have h2 : ((k : Nat) : Int) = ((tl.length : Nat) : Int) := by omega
        have := Nat.cast_inj.mp h2
        omega
    have hpagesT : ∀ c, c < t.total_cols →
        (s.getPage (tablePid t.name c (t.tail_record_count / MAX_RECORDS_PER_PAGE)
          false)).num_records = t.tail_record_count % MAX_RECORDS_PER_PAGE ∧
        (s.getPage (tablePid t.name c (t.tail_record_count / MAX_RECORDS_PER_PAGE)
          false)).data.length = t.tail_record_count % MAX_RECORDS_PER_PAGE := by
      intro c hc
      rw [htot] at hc
      rw [htail, hname]
      obtain ⟨hlt, hge⟩ := hpgT c hc (tl.length / MAX_RECORDS_PER_PAGE)
      by_cases hcase : MAX_RECORDS_PER_PAGE * (tl.length / MAX_RECORDS_PER_PAGE) < tl.length
      · obtain ⟨pg, hpg1, hpg2, hpg3, _, _⟩ := hlt hcase
        have hgp : s.getPage (tablePid name c (tl.length / MAX_RECORDS_PER_PAGE) false) =
            pg := by
          unfold Storage.getPage
          rw [hpg1]
          rfl
        have hnr : pg.num_records = tl.length % MAX_RECORDS_PER_PAGE := by
          rw [hpg2, hM]
          rw [hM] at hcase
          omega
        exact ⟨by rw [hgp, hnr], by rw [hgp, hpg3, hnr]⟩
      · have hge' : tl.length ≤
            MAX_RECORDS_PER_PAGE * (tl.length / MAX_RECORDS_PER_PAGE) := by
          rw [hM]
          rw [hM] at hcase
          omega
        have hnone := hge hge'
        have hgp : s.getPage (tablePid name c (tl.length / MAX_RECORDS_PER_PAGE) false) =
            Page.empty := by
          unfold Storage.getPage
          rw [hnone]
          rfl
        have hmod : tl.length % MAX_RECORDS_PER_PAGE = 0 := by
          rw [hM]
          rw [hM] at hcase
          omega
        exact ⟨by rw [hgp, hmod]; rfl, by rw [hgp, hmod]; rfl⟩
    have hfullT : ([if (if indVal tl r = 0 then ((r : Nat) : Int) else indVal tl r) ≠
          ((r : Nat) : Int) then (if indVal tl r = 0 then ((r : Nat) : Int) else indVal tl r)
          else 0,
        TAIL_RID_START + (t.tail_record_count : Int), ts,
        ((buildUpdate 0 vals
          ((List.zipWith (fun c v => Option.getD v c) vals cols).map some)).2 : Int)] ++
        (buildUpdate 0 vals
          ((List.zipWith (fun c v => Option.getD v c) vals cols).map some)).1).length =
        t.total_cols := by
      rw [List.length_append, buildUpdate_length, hvlen, htot]
      rfl
    obtain ⟨t2, s2, heqwT, hname2, hkey2, hnum2, hbase2, htail2, hdel2, hidx2, hother, hrowT,
      hpother, hpwritten⟩ :=
      write_to_tail_pages_spec t s (TAIL_RID_START + (t.tail_record_count : Int))
        ([if (if indVal tl r = 0 then ((r : Nat) : Int) else indVal tl r) ≠
            ((r : Nat) : Int) then (if indVal tl r = 0 then ((r : Nat) : Int) else indVal tl r)
            else 0,
          TAIL_RID_START + (t.tail_record_count : Int), ts,
          ((buildUpdate 0 vals
            ((List.zipWith (fun c v => Option.getD v c) vals cols).map some)).2 : Int)] ++
          (buildUpdate 0 vals
            ((List.zipWith (fun c v => Option.getD v c) vals cols).map some)).1)
        hfullT habsT hpagesT
    rw [htail] at hother hrowT hpother hpwritten
    rw [hname] at hrowT hpother hpwritten
    rw [htot] at hrowT hpother hpwritten
    have hrne : ((r : Nat) : Int) ≠ TAIL_RID_START + (tl.length : Int) := by
      omega
    have hrowB2 : dirLookup t2 ((r : Nat) : Int) =
        some (C8Row name (META_COLUMNS + U) r) := by
      rw [hother ((r : Nat) : Int) hrne]
      exact hdirB_r
    obtain ⟨pg0, h01, h02, h03, _, h0I, _⟩ := (hpgB INDIRECTION_COLUMN
      (by unfold INDIRECTION_COLUMN META_COLUMNS; omega) (r / MAX_RECORDS_PER_PAGE)).1
      (by rw [hM]; omega)
    have hfrm0 : alookup s2.pages (tablePid name INDIRECTION_COLUMN
        (r / MAX_RECORDS_PER_PAGE) true) =
        alookup s.pages (tablePid name INDIRECTION_COLUMN
          (r / MAX_RECORDS_PER_PAGE) true) := by
      apply hpother
      intro c' hc' hcontra
      exact Bool.noConfusion (tablePid_inj name INDIRECTION_COLUMN
        (r / MAX_RECORDS_PER_PAGE) true c' (tl.length / MAX_RECORDS_PER_PAGE) false
        hcontra).2.2
    have hgp02 : s2.getPage (tablePid name INDIRECTION_COLUMN
        (r / MAX_RECORDS_PER_PAGE) true) = pg0 := by
      unfold Storage.getPage
      rw [hfrm0, h01]
      rfl
    have hslot0n : r % MAX_RECORDS_PER_PAGE < pg0.num_records := by
      rw [h02, hM]
      omega
    have hslot0l : r % MAX_RECORDS_PER_PAGE < pg0.data.length := by
      rw [h03]
      exact hslot0n
    have hg0 : (C8Row name (META_COLUMNS + U) r).get? INDIRECTION_COLUMN =
        some (some (tablePid name INDIRECTION_COLUMN (r / MAX_RECORDS_PER_PAGE) true,
          r % MAX_RECORDS_PER_PAGE)) := by
      unfold C8Row
      rw [get?_map_range, if_pos (by unfold INDIRECTION_COLUMN META_COLUMNS; omega)]
    have hwat : pg0.write_at (r % MAX_RECORDS_PER_PAGE)
        (TAIL_RID_START + (tl.length : Int)) =
        some { pg0 with data := pg0.data.set (r % MAX_RECORDS_PER_PAGE) (TAIL_RID_START + (tl.length : Int)) } := by
      unfold Page.write_at
      rw [if_pos hslot0n, if_pos hslot0l]
    have hupd : update_row t s ts ((r : Nat) : Int)
        ((List.zipWith (fun c v => Option.getD v c) vals cols).map some) =
        (true, t2, s2.putPage (tablePid name INDIRECTION_COLUMN
          (r / MAX_RECORDS_PER_PAGE) true)
          { pg0 with data := pg0.data.set (r % MAX_RECORDS_PER_PAGE) (TAIL_RID_START + (tl.length : Int)) }) := by
      unfold update_row
      rw [if_neg (by rw [hfs, hnum]; exact fun h => h rfl)]
      rw [hdirB_r, Option.isNone_some, if_neg Bool.false_ne_true]
      rw [hind]
      dsimp only
      rw [hvread]
      dsimp only
      rw [if_neg hmask]
      rw [heqwT]
      dsimp only
      rw [hrowB2]
      dsimp only
      rw [hg0]
      dsimp only
      rw [htail, hgp02, hwat]
    rw [hquq, hupd]
    refine ⟨rfl, tl ++ [r], Or.inr ⟨r, hr, hpkr, rfl⟩, ?_⟩
    have hlent : (tl ++ [r]).length = tl.length + 1 := by
      rw [List.length_append, List.length_singleton]
    have hs3 : ∀ pid : Chars, alookup (s2.putPage (tablePid name INDIRECTION_COLUMN
        (r / MAX_RECORDS_PER_PAGE) true) { pg0 with data := pg0.data.set (r % MAX_RECORDS_PER_PAGE) (TAIL_RID_START + (tl.length : Int)) }).pages pid =
        (if pid = tablePid name INDIRECTION_COLUMN (r / MAX_RECORDS_PER_PAGE) true
        then some { pg0 with data := pg0.data.set (r % MAX_RECORDS_PER_PAGE) (TAIL_RID_START + (tl.length : Int)) }
        else alookup s2.pages pid) := by
      intro pid
      show alookup (aupsert s2.pages _ _) pid = _
      rw [alookup_aupsert]
    unfold C8Inv
    refine ⟨by show t2.name = name; rw [hname2, hname],
      by show t2.key = key; rw [hkey2, hkey],
      by show t2.num_columns = U; rw [hnum2, hnum],
      by show t2.base_record_count = pks.length; rw [hbase2, hbase],
      by show t2.tail_record_count = (tl ++ [r]).length; rw [htail2, htail, hlent],
      by show t2.deleted = ([] : List Int); rw [hdel2, hdel],
      ?_, by show t2.indices = _; rw [hidx2, hidx], ?_, ?_, ?_, ?_, ?_, ?_, ?_⟩
    · intro k hkk
      rw [hlent] at hkk
      rcases Nat.lt_succ_iff_lt_or_eq.mp hkk with hlt | heq
      · rw [getD_append_lt tl [r] k 0 hlt]
        exact howner k hlt
      · subst heq
        rw [getD_append_len]
        exact hr
    · intro r' hr'
      show dirLookup t2 (r' : Int) = some (C8Row name (META_COLUMNS + U) r')
      rw [hother (r' : Int) (by omega)]
      exact hdirB r' hr'
    · intro k hkk
      rw [hlent] at hkk
      show dirLookup t2 (TAIL_RID_START + (k : Int)) =
        some (C8RowT name (META_COLUMNS + U) k)
      rcases Nat.lt_succ_iff_lt_or_eq.mp hkk with hlt | heq
      · rw [hother (TAIL_RID_START + (k : Int)) (by
          intro h
          have h2 : ((k : Nat) : Int) = ((tl.length : Nat) : Int) := by omega
          have := Nat.cast_inj.mp h2
          omega)]
        exact hdirT k hlt
      · subst heq
        rw [hrowT]
        rfl
    · intro rid hallB hallT
      show dirLookup t2 rid = none
      have hne : rid ≠ TAIL_RID_START + (tl.length : Int) :=
        hallT tl.length (by rw [hlent]; omega)
      rw [hother rid hne]
      apply hdirn
      · intro r' hr'
        exact hallB r' hr'
      · intro k hkk
        exact hallT k (by rw [hlent]; omega)
    · intro c hc p
      constructor
      · intro hpl
        by_cases hpid : tablePid name c p true =
            tablePid name INDIRECTION_COLUMN (r / MAX_RECORDS_PER_PAGE) true
        · obtain ⟨hceq, hpeq, _⟩ := tablePid_inj name c p true INDIRECTION_COLUMN
            (r / MAX_RECORDS_PER_PAGE) true hpid
          subst hceq
          subst hpeq
          refine ⟨{ pg0 with data := pg0.data.set (r % MAX_RECORDS_PER_PAGE) (TAIL_RID_START + (tl.length : Int)) }, ?_, ?_, ?_, ?_, ?_, ?_⟩
          · rw [hs3 _, if_pos rfl]
          · show pg0.num_records = _
            rw [h02]
          · show (pg0.data.set _ _).length = pg0.num_records
            rw [List.length_set, h03]
          · intro hcR
            exact absurd hcR (by decide)
          · intro _ j hj
            have hjn : j < pg0.num_records := hj
            show Page.read _ j = _
            unfold Page.read
            rw [if_pos (show j < pg0.num_records from hjn)]
            by_cases hjs : j = r % MAX_RECORDS_PER_PAGE
            · subst hjs
              rw [get?_set_same _ _ _ hslot0l]
              have hix : MAX_RECORDS_PER_PAGE * (r / MAX_RECORDS_PER_PAGE) +
                  r % MAX_RECORDS_PER_PAGE = r := by
                rw [hM]
                omega
              rw [hix, indVal_append_self]
            · rw [get?_set_ne _ _ _ _ (fun h => hjs h.symm)]
              have holdg := Page_read_get? pg0 j _ (h0I rfl j hjn)
              rw [holdg]
              have hj512 : j < MAX_RECORDS_PER_PAGE := by
                rw [h02, hM] at hjn
                rw [hM]
                omega
              have hne2 : MAX_RECORDS_PER_PAGE * (r / MAX_RECORDS_PER_PAGE) + j ≠ r := by
                intro hcon
                apply hjs
                rw [hM] at hcon hj512 ⊢
                omega
              rw [indVal_append_ne tl r _ hne2]
          · intro hcK
            exact absurd hcK (by unfold INDIRECTION_COLUMN META_COLUMNS; omega)
        · obtain ⟨pg', hq1, hq2, hq3, hqR, hqI, hqK⟩ := (hpgB c hc p).1 hpl
          have hfr : alookup s2.pages (tablePid name c p true) =
              alookup s.pages (tablePid name c p true) := by
            apply hpother
            intro c' hc' hcontra
            exact Bool.noConfusion (tablePid_inj name c p true c'
              (tl.length / MAX_RECORDS_PER_PAGE) false hcontra).2.2
          refine ⟨pg', ?_, hq2, hq3, hqR, ?_, hqK⟩
          · rw [hs3 _, if_neg hpid, hfr]
            exact hq1
          · intro hcI j hj
            subst hcI
            have hpne : p ≠ r / MAX_RECORDS_PER_PAGE := by
              intro hcon
              exact hpid (by rw [hcon])
            have hj512 : j < MAX_RECORDS_PER_PAGE := by
              have h3 : j < pg'.num_records := hj
              rw [hq2] at h3
              rw [hM] at h3
              rw [hM]
              omega
            have hne2 : MAX_RECORDS_PER_PAGE * p + j ≠ r := by
              intro hcon
              apply hpne
              rw [hM] at hcon hj512 ⊢
              omega
            rw [indVal_append_ne tl r _ hne2]
            exact hqI rfl j hj
      · intro hple
        have hpid : tablePid name c p true ≠ tablePid name INDIRECTION_COLUMN
            (r / MAX_RECORDS_PER_PAGE) true := by
          intro hcon
          have hpeq := (tablePid_inj name c p true INDIRECTION_COLUMN
            (r / MAX_RECORDS_PER_PAGE) true hcon).2.1
          rw [hpeq, hM] at hple
          omega
        rw [hs3 _, if_neg hpid]
        have hfr := hpother (tablePid name c p true)
          (fun c' hc' hcontra => Bool.noConfusion (tablePid_inj name c p true c'
            (tl.length / MAX_RECORDS_PER_PAGE) false hcontra).2.2)
        rw [hfr]
        exact (hpgB c hc p).2 hple
    · intro c hc q
      have hpidb : tablePid name c q false ≠ tablePid name INDIRECTION_COLUMN
          (r / MAX_RECORDS_PER_PAGE) true := fun hcon =>
        Bool.noConfusion (tablePid_inj name c q false INDIRECTION_COLUMN
          (r / MAX_RECORDS_PER_PAGE) true hcon).2.2
      constructor
      · intro hql
        rw [hlent] at hql
        rw [hs3 _, if_neg hpidb]
        by_cases hqq : q = tl.length / MAX_RECORDS_PER_PAGE
        · subst hqq
          have holdT := hpagesT c (by rw [htot]; exact hc)
          rw [htail, hname] at holdT
          have hw := hpwritten c hc
          refine ⟨_, hw, ?_, ?_, ?_, ?_⟩
          · dsimp only
            rw [hlent, hM]
            omega
          · dsimp only
            rw [List.length_append, List.length_singleton, holdT.2]
          · intro hcR j hj
            subst hcR
            have hj' : j < tl.length % MAX_RECORDS_PER_PAGE + 1 := hj
            rw [Page_read_concat _ _ _ j holdT.2 (by omega)]
            by_cases hjl : j < tl.length % MAX_RECORDS_PER_PAGE
            · rw [if_pos hjl]
              have hqlT : MAX_RECORDS_PER_PAGE * (tl.length / MAX_RECORDS_PER_PAGE) <
                  tl.length := by
                rw [hM]
                rw [hM] at hjl
                omega
              obtain ⟨pgo, ho1, ho2, ho3, hoR, hoK⟩ := (hpgT RID_COLUMN hc
                (tl.length / MAX_RECORDS_PER_PAGE)).1 hqlT
              have hgpo : s.getPage (tablePid name RID_COLUMN
                  (tl.length / MAX_RECORDS_PER_PAGE) false) = pgo := by
                unfold Storage.getPage
                rw [ho1]
                rfl
              have hjn : j < pgo.num_records := by
                rw [ho2, hM]
                rw [hM] at hjl
                omega
              rw [hgpo, Page_read_get? pgo j _ (hoR rfl j hjn)]
            · rw [if_neg hjl]
              have hjeq : j = tl.length % MAX_RECORDS_PER_PAGE := by omega
              subst hjeq
              have hv : ([if (if indVal tl r = 0 then ((r : Nat) : Int) else indVal tl r) ≠
                    ((r : Nat) : Int) then (if indVal tl r = 0 then ((r : Nat) : Int)
                    else indVal tl r) else 0,
                  TAIL_RID_START + (tl.length : Int), ts,
                  ((buildUpdate 0 vals
                    ((List.zipWith (fun c v => Option.getD v c) vals cols).map some)).2 :
                      Int)] ++
                  (buildUpdate 0 vals
                    ((List.zipWith (fun c v => Option.getD v c) vals cols).map
                      some)).1).getD RID_COLUMN 0 =
                  TAIL_RID_START + (tl.length : Int) := rfl
              rw [hv]
              have hci : TAIL_RID_START + ((tl.length : Nat) : Int) =
                  TAIL_RID_START + ((MAX_RECORDS_PER_PAGE *
                    (tl.length / MAX_RECORDS_PER_PAGE) +
                    tl.length % MAX_RECORDS_PER_PAGE : Nat) : Int) := by
                rw [hM]
                omega
              rw [hci]
          · intro hcK j hj
            subst hcK
            have hj' : j < tl.length % MAX_RECORDS_PER_PAGE + 1 := hj
            rw [Page_read_concat _ _ _ j holdT.2 (by omega)]
            by_cases hjl : j < tl.length % MAX_RECORDS_PER_PAGE
            · rw [if_pos hjl]
              have hqlT : MAX_RECORDS_PER_PAGE * (tl.length / MAX_RECORDS_PER_PAGE) <
                  tl.length := by
                rw [hM]
                rw [hM] at hjl
                omega
              obtain ⟨pgo, ho1, ho2, ho3, hoR, hoK⟩ := (hpgT (META_COLUMNS + key) hc
                (tl.length / MAX_RECORDS_PER_PAGE)).1 hqlT
              have hgpo : s.getPage (tablePid name (META_COLUMNS + key)
                  (tl.length / MAX_RECORDS_PER_PAGE) false) = pgo := by
                unfold Storage.getPage
                rw [ho1]
                rfl
              have hjn : j < pgo.num_records := by
                rw [ho2, hM]
                rw [hM] at hjl
                omega
              have hidxlt : MAX_RECORDS_PER_PAGE * (tl.length / MAX_RECORDS_PER_PAGE) + j <
                  tl.length := by
                rw [hM]
                rw [hM] at hjl
                omega
              rw [hgpo, Page_read_get? pgo j _ (hoK rfl j hjn),
                getD_append_lt tl [r] _ 0 hidxlt]
            · rw [if_neg hjl]
              have hjeq : j = tl.length % MAX_RECORDS_PER_PAGE := by omega
              subst hjeq
              have hv : ([if (if indVal tl r = 0 then ((r : Nat) : Int) else indVal tl r) ≠
                    ((r : Nat) : Int) then (if indVal tl r = 0 then ((r : Nat) : Int)
                    else indVal tl r) else 0,
                  TAIL_RID_START + (tl.length : Int), ts,
                  ((buildUpdate 0 vals
                    ((List.zipWith (fun c v => Option.getD v c) vals cols).map some)).2 :
                      Int)] ++
                  (buildUpdate 0 vals
                    ((List.zipWith (fun c v => Option.getD v c) vals cols).map
                      some)).1).getD (META_COLUMNS + key) 0 =
                  (buildUpdate 0 vals
                    ((List.zipWith (fun c v => Option.getD v c) vals cols).map
                      some)).1.getD key 0 :=
                getD_append_four _ _ _ _ _ key
              have hidxe : MAX_RECORDS_PER_PAGE * (tl.length / MAX_RECORDS_PER_PAGE) +
                  tl.length % MAX_RECORDS_PER_PAGE = tl.length := by
                rw [hM]
                omega
              rw [hv, hstep1key, hidxe, getD_append_len, hpkr]
        · have hfacts : MAX_RECORDS_PER_PAGE * q < tl.length ∧
              MAX_RECORDS_PER_PAGE ≤ tl.length - MAX_RECORDS_PER_PAGE * q := by
            have hq2 : q ≠ tl.length / MAX_RECORDS_PER_PAGE := hqq
            rw [hM] at hq2 hql ⊢
            omega
          obtain ⟨pgo, ho1, ho2, ho3, hoR, hoK⟩ := (hpgT c hc q).1 hfacts.1
          have hfr : alookup s2.pages (tablePid name c q false) =
              alookup s.pages (tablePid name c q false) := by
            apply hpother
            intro c' hc' hcontra
            exact hqq (tablePid_inj name c q false c'
              (tl.length / MAX_RECORDS_PER_PAGE) false hcontra).2.1
          refine ⟨pgo, by rw [hfr]; exact ho1, ?_, ho3, hoR, ?_⟩
          · rw [ho2, hlent, hM]
            have := hfacts.2
            rw [hM] at this
            omega
          · intro hcK j hj
            have hb : MAX_RECORDS_PER_PAGE * q + j < tl.length := by
              have h2 := hfacts.2
              have h3 : j < pgo.num_records := hj
              rw [ho2] at h3
              rw [hM] at h2 h3 ⊢
              omega
            rw [getD_append_lt tl [r] _ 0 hb]
            exact hoK hcK j hj
      · intro hqle
        rw [hlent] at hqle
        have hqq : q ≠ tl.length / MAX_RECORDS_PER_PAGE := by
          intro hcon
          rw [hcon, hM] at hqle
          omega
        rw [hs3 _, if_neg hpidb]
        have hfr := hpother (tablePid name c q false)
          (fun c' hc' hcontra => hqq (tablePid_inj name c q false c'
            (tl.length / MAX_RECORDS_PER_PAGE) false hcontra).2.1)
        rw [hfr]
        apply (hpgT c hc q).2
        omega
    · intro pid hnpB hnpT
      rw [hs3 pid, if_neg (hnpB INDIRECTION_COLUMN (r / MAX_RECORDS_PER_PAGE)
        (by unfold INDIRECTION_COLUMN META_COLUMNS; omega))]
      have hfr := hpother pid
        (fun c' hc' => hnpT c' (tl.length / MAX_RECORDS_PER_PAGE) hc')
      rw [hfr]
      exact hpidn pid hnpB hnpT
    · show ((aupsert s2.pages (tablePid name INDIRECTION_COLUMN
        (r / MAX_RECORDS_PER_PAGE) true) { pg0 with data := pg0.data.set (r % MAX_RECORDS_PER_PAGE) (TAIL_RID_START + (tl.length : Int)) }).map
        Prod.fst).Nodup
      apply aupsert_keys_nodup
      have hnd2 := write_to_tail_pages_nodup t s
        (TAIL_RID_START + (t.tail_record_count : Int))
        ([if (if indVal tl r = 0 then ((r : Nat) : Int) else indVal tl r) ≠
            ((r : Nat) : Int) then (if indVal tl r = 0 then ((r : Nat) : Int)
            else indVal tl r) else 0,
          TAIL_RID_START + (t.tail_record_count : Int), ts,
          ((buildUpdate 0 vals
            ((List.zipWith (fun c v => Option.getD v c) vals cols).map some)).2 : Int)] ++
          (buildUpdate 0 vals
            ((List.zipWith (fun c v => Option.getD v c) vals cols).map some)).1) hnd
      rw [heqwT] at hnd2
      exact hnd2


theorem runOps_C8Inv (name : Chars) (U key : Nat) (hU : 0 < U) (hk : key < U) :
    ∀ (ops : List C8Op) (pks : List Int) (tl : List Nat) (t : Table) (s : Storage),
    pks.Nodup → c8wf U key ops pks = true →
    ((pks.length + (insPks key ops).length : Nat) : Int) ≤ TAIL_RID_START →
    C8Inv name U key pks tl t s →
    runOpsOk ops (t, s) = true ∧
    ∃ tl', C8Inv name U key (pks ++ insPks key ops) tl'
      (runOps ops (t, s)).1 (runOps ops (t, s)).2 := by
  intro ops
  induction ops with
  | nil =>
    intro pks tl t s hnd hwf hcap hinv
    refine ⟨rfl, tl, ?_⟩
    rw [show insPks key [] = [] from rfl, List.append_nil]
    exact hinv
  | cons op rest ih =>
    intro pks tl t s hnd hwf hcap hinv
    have hTr : TAIL_RID_START = 1000000000 := rfl
    cases op with
    | ins ts cols =>
      simp only [c8wf, Bool.and_eq_true, decide_eq_true_eq] at hwf
      obtain ⟨⟨hlen, hfresh⟩, hwf'⟩ := hwf
      have hcap1 : (pks.length : Int) < TAIL_RID_START := by
        have hc := hcap
        rw [show insPks key (C8Op.ins ts cols :: rest) =
          cols.getD key 0 :: insPks key rest from rfl, List.length_cons] at hc
        rw [hTr] at hc ⊢
        omega
      have hfresh' : ∀ r, r < pks.length → pks.getD r 0 ≠ cols.getD key 0 := by
        intro r hr hcon
        have hm : pks.getD r 0 ∈ pks := by
          rw [getD_eq_get?_getD, List.get?_eq_get hr, Option.getD_some]
          exact pks.get_mem r hr
        exact hfresh (pks.getD r 0) hm hcon.symm
      obtain ⟨hok1, hinv1⟩ :=
        insert_C8Inv name U key pks tl t s ts cols hU hk hlen hfresh' hcap1 hinv
      have hnd1 : (pks ++ [cols.getD key 0]).Nodup := by
        rw [List.nodup_append]
        refine ⟨hnd, List.nodup_singleton _, ?_⟩
        intro a ha hb
        rw [List.mem_singleton] at hb
        exact hfresh a ha hb.symm
      have hcap2 : (((pks ++ [cols.getD key 0]).length + (insPks key rest).length :
          Nat) : Int) ≤ TAIL_RID_START := by
        have hc := hcap
        rw [show insPks key (C8Op.ins ts cols :: rest) =
          cols.getD key 0 :: insPks key rest from rfl, List.length_cons] at hc
        rw [List.length_append, List.length_singleton, hTr]
        rw [hTr] at hc
        omega
      obtain ⟨hok2, tl', hinv2⟩ := ih (pks ++ [cols.getD key 0]) tl _ _ hnd1 hwf' hcap2 hinv1
      refine ⟨?_, tl', ?_⟩
      · show ((insert_row t s ts cols).1 &&
          runOpsOk rest ((insert_row t s ts cols).2.1, (insert_row t s ts cols).2.2)) = true
        rw [hok1, hok2]
        rfl
      · have hassoc : pks ++ insPks key (C8Op.ins ts cols :: rest) =
            (pks ++ [cols.getD key 0]) ++ insPks key rest := by
          rw [show insPks key (C8Op.ins ts cols :: rest) =
            cols.getD key 0 :: insPks key rest from rfl]
          exact (List.append_assoc pks [cols.getD key 0] (insPks key rest)).symm
        rw [hassoc]
        exact hinv2
    | upd ts pk cols =>
      simp only [c8wf, Bool.and_eq_true, decide_eq_true_eq] at hwf
      obtain ⟨⟨⟨hlen, hkeynone⟩, hpkmem⟩, hwf'⟩ := hwf
      have hBT : (pks.length : Int) ≤ TAIL_RID_START := by
        have hc := hcap
        rw [hTr] at hc ⊢
        omega
      obtain ⟨hok1, tl2, _, hinv1⟩ :=
        update_C8Inv name U key pks tl t s ts pk cols hU hk hlen hkeynone hpkmem hnd hBT hinv
      obtain ⟨hok2, tl', hinv2⟩ := ih pks tl2 _ _ hnd hwf' hcap hinv1
      refine ⟨?_, tl', hinv2⟩
      show ((query_update t s ts pk cols).1 &&
        runOpsOk rest ((query_update t s ts pk cols).2.1,
          (query_update t s ts pk cols).2.2)) = true
      rw [hok1, hok2]
      rfl

theorem recoverSlotsB_c8 (name : Chars) (Tot p B Tn : Nat) (pg : Page)
    (hBT : (B : Int) ≤ TAIL_RID_START)
    (hnum : pg.num_records ≤ MAX_RECORDS_PER_PAGE)
    (hread : ∀ j, j < pg.num_records →
      pg.read j = some ((MAX_RECORDS_PER_PAGE * p + j : Nat) : Int))
    (hnB : ∀ j, j < pg.num_records → MAX_RECORDS_PER_PAGE * p + j < B) :
    ∀ (sl : List Nat) (acc : RecoverAcc),
      (∀ j ∈ sl, j < pg.num_records) →
      (∀ e ∈ acc.dir, (∃ r : Nat, r < B ∧ e.1 = (r : Int) ∧ e.2 = C8Row name Tot r) ∨
        (∃ k : Nat, k < Tn ∧ e.1 = TAIL_RID_START + (k : Int) ∧ e.2 = C8RowT name Tot k)) →
      (acc.dir.map Prod.fst).Nodup →
      ∃ res, recoverSlots name Tot (p : Int) true pg sl acc = res ∧
        (∀ e ∈ res.dir, (∃ r : Nat, r < B ∧ e.1 = (r : Int) ∧ e.2 = C8Row name Tot r) ∨
          (∃ k : Nat, k < Tn ∧ e.1 = TAIL_RID_START + (k : Int) ∧
            e.2 = C8RowT name Tot k)) ∧
        (res.dir.map Prod.fst).Nodup ∧
        (∀ r : Nat, r < B → alookup acc.dir (r : Int) = some (C8Row name Tot r) →
          alookup res.dir (r : Int) = some (C8Row name Tot r)) ∧
        (∀ k : Nat, k < Tn →
          alookup acc.dir (TAIL_RID_START + (k : Int)) = some (C8RowT name Tot k) →
          alookup res.dir (TAIL_RID_START + (k : Int)) = some (C8RowT name Tot k)) ∧
        (∀ j ∈ sl, alookup res.dir ((MAX_RECORDS_PER_PAGE * p + j : Nat) : Int) =
          some (C8Row name Tot (MAX_RECORDS_PER_PAGE * p + j))) ∧
        acc.baseCount ≤ res.baseCount ∧
        res.baseCount ≤ max acc.baseCount B ∧
        (∀ j ∈ sl, MAX_RECORDS_PER_PAGE * p + j + 1 ≤ res.baseCount) ∧
        res.maxTailSeq = acc.maxTailSeq := by
  intro sl
  induction sl with
  | nil =>
    intro acc hsl ha hand
    exact ⟨acc, rfl, ha, hand, fun r _ h => h, fun k _ h => h,
      fun j hj => absurd hj (List.not_mem_nil _),
      Nat.le_refl _, Nat.le_max_left _ _, fun j hj => absurd hj (List.not_mem_nil _), rfl⟩
  | cons j0 rest ih =>
    intro acc hsl ha hand
    have hM : MAX_RECORDS_PER_PAGE = 512 := rfl
    have hTr : TAIL_RID_START = 1000000000 := rfl
    have hj0 : j0 < pg.num_records := hsl j0 (List.mem_cons_self _ _)
    have hrow : ((List.range Tot).map (fun (c : Nat) =>
        some (PageID.render { table_name := name, column_index := (c : Int), page_number := ((p : Nat) : Int), is_base_page := true }, j0))) =
        C8Row name Tot (MAX_RECORDS_PER_PAGE * p + j0) := by
      unfold C8Row
      apply map_range_congr
      intro c hc
      have hdiv2 : (MAX_RECORDS_PER_PAGE * p + j0) / MAX_RECORDS_PER_PAGE = p := by
        rw [hM]
        have h1 := hj0
        have h2 := hnum
        rw [hM] at h2
        omega
      have hmod2 : (MAX_RECORDS_PER_PAGE * p + j0) % MAX_RECORDS_PER_PAGE = j0 := by
        rw [hM]
        have h1 := hj0
        have h2 := hnum
        rw [hM] at h2
        omega
      rw [hdiv2, hmod2]
      rfl
    have htn : ((((MAX_RECORDS_PER_PAGE * p + j0 : Nat) : Int)) + 1).toNat =
        MAX_RECORDS_PER_PAGE * p + j0 + 1 := by
      omega
    have hstep : recoverSlots name Tot (p : Int) true pg (j0 :: rest) acc =
        recoverSlots name Tot (p : Int) true pg rest
          { dir := aupsert acc.dir ((MAX_RECORDS_PER_PAGE * p + j0 : Nat) : Int)
              (C8Row name Tot (MAX_RECORDS_PER_PAGE * p + j0)),
            baseCount := max acc.baseCount (MAX_RECORDS_PER_PAGE * p + j0 + 1),
            maxTailSeq := acc.maxTailSeq } := by
      rw [recoverSlots, hread j0 hj0]
      dsimp only
      rw [hrow, htn]
      simp
    have ha1 : ∀ e ∈ aupsert acc.dir ((MAX_RECORDS_PER_PAGE * p + j0 : Nat) : Int)
        (C8Row name Tot (MAX_RECORDS_PER_PAGE * p + j0)),
        (∃ r : Nat, r < B ∧ e.1 = (r : Int) ∧ e.2 = C8Row name Tot r) ∨
        (∃ k : Nat, k < Tn ∧ e.1 = TAIL_RID_START + (k : Int) ∧
          e.2 = C8RowT name Tot k) := by
      intro e he
      rcases mem_aupsert _ _ _ e he with h | h
      · exact ha e h
      · exact Or.inl ⟨MAX_RECORDS_PER_PAGE * p + j0, hnB j0 hj0, by rw [h], by rw [h]⟩
    have hand1 := aupsert_keys_nodup acc.dir ((MAX_RECORDS_PER_PAGE * p + j0 : Nat) : Int)
      (C8Row name Tot (MAX_RECORDS_PER_PAGE * p + j0)) hand
    obtain ⟨res, hres, hra, hrnd, hrsB, hrsT, hrcov, hrmono, hrub, hrlb, hrt⟩ :=
      ih { dir := aupsert acc.dir ((MAX_RECORDS_PER_PAGE * p + j0 : Nat) : Int)
              (C8Row name Tot (MAX_RECORDS_PER_PAGE * p + j0)),
           baseCount := max acc.baseCount (MAX_RECORDS_PER_PAGE * p + j0 + 1),
           maxTailSeq := acc.maxTailSeq }
        (fun j hj => hsl j (List.mem_cons_of_mem _ hj)) ha1 hand1
    dsimp only at hrmono hrub
    refine ⟨res, by rw [hstep]; exact hres, hra, hrnd, ?_, ?_, ?_, ?_, ?_, ?_, hrt⟩
    · intro r hrB hr
      apply hrsB r hrB
      show alookup (aupsert acc.dir ((MAX_RECORDS_PER_PAGE * p + j0 : Nat) : Int)
        (C8Row name Tot (MAX_RECORDS_PER_PAGE * p + j0))) (r : Int) =
        some (C8Row name Tot r)
      rw [alookup_aupsert]
      by_cases hreq : ((r : Nat) : Int) = ((MAX_RECORDS_PER_PAGE * p + j0 : Nat) : Int)
      · rw [if_pos hreq]
        have h2 : r = MAX_RECORDS_PER_PAGE * p + j0 := Nat.cast_inj.mp hreq
        rw [h2]
      · rw [if_neg hreq]
        exact hr
    · intro k hkT hk
      apply hrsT k hkT
      show alookup (aupsert acc.dir ((MAX_RECORDS_PER_PAGE * p + j0 : Nat) : Int)
        (C8Row name Tot (MAX_RECORDS_PER_PAGE * p + j0)))
        (TAIL_RID_START + (k : Int)) = some (C8RowT name Tot k)
      rw [alookup_aupsert, if_neg (by
        have h1 := hnB j0 hj0
        have h2 := hBT
        rw [hM] at h1 ⊢
        rw [hTr] at h2 ⊢
        omega)]
      exact hk
    · intro j hj
      rcases List.mem_cons.mp hj with h | h
      · subst h
        apply hrsB (MAX_RECORDS_PER_PAGE * p + j) (hnB j hj0)
        show alookup (aupsert acc.dir ((MAX_RECORDS_PER_PAGE * p + j : Nat) : Int)
          (C8Row name Tot (MAX_RECORDS_PER_PAGE * p + j)))
          ((MAX_RECORDS_PER_PAGE * p + j : Nat) : Int) =
          some (C8Row name Tot (MAX_RECORDS_PER_PAGE * p + j))
        rw [alookup_aupsert, if_pos rfl]
      · exact hrcov j h
    · exact le_trans (Nat.le_max_left _ _) hrmono
    · have h1 := hnB j0 hj0
      omega
    · intro j hj
      rcases List.mem_cons.mp hj with h | h
      · subst h
        exact le_trans (Nat.le_max_right _ _) hrmono
      · exact hrlb j h

theorem recoverSlotsT_c8 (name : Chars) (Tot q B Tn : Nat) (pg : Page)
    (hBT : (B : Int) ≤ TAIL_RID_START)
    (hnum : pg.num_records ≤ MAX_RECORDS_PER_PAGE)
    (hread : ∀ j, j < pg.num_records →
      pg.read j = some (TAIL_RID_START + ((MAX_RECORDS_PER_PAGE * q + j : Nat) : Int)))
    (hnT : ∀ j, j < pg.num_records → MAX_RECORDS_PER_PAGE * q + j < Tn) :
    ∀ (sl : List Nat) (acc : RecoverAcc),
      (∀ j ∈ sl, j < pg.num_records) →
      (∀ e ∈ acc.dir, (∃ r : Nat, r < B ∧ e.1 = (r : Int) ∧ e.2 = C8Row name Tot r) ∨
        (∃ k : Nat, k < Tn ∧ e.1 = TAIL_RID_START + (k : Int) ∧ e.2 = C8RowT name Tot k)) →
      (acc.dir.map Prod.fst).Nodup →
      ∃ res, recoverSlots name Tot (q : Int) false pg sl acc = res ∧
        (∀ e ∈ res.dir, (∃ r : Nat, r < B ∧ e.1 = (r : Int) ∧ e.2 = C8Row name Tot r) ∨
          (∃ k : Nat, k < Tn ∧ e.1 = TAIL_RID_START + (k : Int) ∧
            e.2 = C8RowT name Tot k)) ∧
        (res.dir.map Prod.fst).Nodup ∧
        (∀ r : Nat, r < B → alookup acc.dir (r : Int) = some (C8Row name Tot r) →
          alookup res.dir (r : Int) = some (C8Row name Tot r)) ∧
        (∀ k : Nat, k < Tn →
          alookup acc.dir (TAIL_RID_START + (k : Int)) = some (C8RowT name Tot k) →
          alookup res.dir (TAIL_RID_START + (k : Int)) = some (C8RowT name Tot k)) ∧
        (∀ j ∈ sl, alookup res.dir
            (TAIL_RID_START + ((MAX_RECORDS_PER_PAGE * q + j : Nat) : Int)) =
          some (C8RowT name Tot (MAX_RECORDS_PER_PAGE * q + j))) ∧
        res.baseCount = acc.baseCount ∧
        acc.maxTailSeq ≤ res.maxTailSeq ∧
        res.maxTailSeq ≤ max acc.maxTailSeq ((Tn : Int) - 1) ∧
        (∀ j ∈ sl, ((MAX_RECORDS_PER_PAGE * q + j : Nat) : Int) ≤ res.maxTailSeq) := by
  intro sl
  induction sl with
  | nil =>
    intro acc hsl ha hand
    exact ⟨acc, rfl, ha, hand, fun r _ h => h, fun k _ h => h,
      fun j hj => absurd hj (List.not_mem_nil _), rfl,
      le_refl _, le_max_left _ _, fun j hj => absurd hj (List.not_mem_nil _)⟩
  | cons j0 rest ih =>
    intro acc hsl ha hand
    have hM : MAX_RECORDS_PER_PAGE = 512 := rfl
    have hTr : TAIL_RID_START = 1000000000 := rfl
    have hj0 : j0 < pg.num_records := hsl j0 (List.mem_cons_self _ _)
    have hrowT : ((List.range Tot).map (fun (c : Nat) =>
        some (PageID.render { table_name := name, column_index := (c : Int), page_number := ((q : Nat) : Int), is_base_page := false }, j0))) =
        C8RowT name Tot (MAX_RECORDS_PER_PAGE * q + j0) := by
      unfold C8RowT
      apply map_range_congr
      intro c hc
      have hdiv2 : (MAX_RECORDS_PER_PAGE * q + j0) / MAX_RECORDS_PER_PAGE = q := by
        rw [hM]
        have h1 := hj0
        have h2 := hnum
        rw [hM] at h2
        omega
      have hmod2 : (MAX_RECORDS_PER_PAGE * q + j0) % MAX_RECORDS_PER_PAGE = j0 := by
        rw [hM]
        have h1 := hj0
        have h2 := hnum
        rw [hM] at h2
        omega
      rw [hdiv2, hmod2]
      rfl
    have hstep : recoverSlots name Tot (q : Int) false pg (j0 :: rest) acc =
        recoverSlots name Tot (q : Int) false pg rest
          { dir := aupsert acc.dir
              (TAIL_RID_START + ((MAX_RECORDS_PER_PAGE * q + j0 : Nat) : Int))
              (C8RowT name Tot (MAX_RECORDS_PER_PAGE * q + j0)),
            baseCount := acc.baseCount,
            maxTailSeq := max acc.maxTailSeq
              ((MAX_RECORDS_PER_PAGE * q + j0 : Nat) : Int) } := by
      rw [recoverSlots, hread j0 hj0]
      dsimp only
      rw [hrowT]
      rw [if_neg Bool.false_ne_true, if_neg Bool.false_ne_true]
      rw [if_pos (le_add_of_nonneg_right
        (Int.natCast_nonneg (MAX_RECORDS_PER_PAGE * q + j0)))]
      rw [add_sub_cancel_left]
    have ha1 : ∀ e ∈ aupsert acc.dir
        (TAIL_RID_START + ((MAX_RECORDS_PER_PAGE * q + j0 : Nat) : Int))
        (C8RowT name Tot (MAX_RECORDS_PER_PAGE * q + j0)),
        (∃ r : Nat, r < B ∧ e.1 = (r : Int) ∧ e.2 = C8Row name Tot r) ∨
        (∃ k : Nat, k < Tn ∧ e.1 = TAIL_RID_START + (k : Int) ∧
          e.2 = C8RowT name Tot k) := by
      intro e he
      rcases mem_aupsert _ _ _ e he with h | h
      · exact ha e h
      · exact Or.inr ⟨MAX_RECORDS_PER_PAGE * q + j0, hnT j0 hj0, by rw [h], by rw [h]⟩
    have hand1 := aupsert_keys_nodup acc.dir
      (TAIL_RID_START + ((MAX_RECORDS_PER_PAGE * q + j0 : Nat) : Int))
      (C8RowT name Tot (MAX_RECORDS_PER_PAGE * q + j0)) hand
    obtain ⟨res, hres, hra, hrnd, hrsB, hrsT, hrcov, hrbc, hrmono, hrub, hrlb⟩ :=
      ih { dir := aupsert acc.dir
              (TAIL_RID_START + ((MAX_RECORDS_PER_PAGE * q + j0 : Nat) : Int))
              (C8RowT name Tot (MAX_RECORDS_PER_PAGE * q + j0)),
           baseCount := acc.baseCount,
           maxTailSeq := max acc.maxTailSeq
             ((MAX_RECORDS_PER_PAGE * q + j0 : Nat) : Int) }
        (fun j hj => hsl j (List.mem_cons_of_mem _ hj)) ha1 hand1
    dsimp only at hrbc hrmono hrub
    refine ⟨res, by rw [hstep]; exact hres, hra, hrnd, ?_, ?_, ?_, hrbc, ?_, ?_, ?_⟩
    · intro r hrB hr
      apply hrsB r hrB
      show alookup (aupsert acc.dir
        (TAIL_RID_START + ((MAX_RECORDS_PER_PAGE * q + j0 : Nat) : Int))
        (C8RowT name Tot (MAX_RECORDS_PER_PAGE * q + j0))) (r : Int) =
        some (C8Row name Tot r)
      rw [alookup_aupsert, if_neg (by
        have h2 := hBT
        rw [hM]
        rw [hTr] at h2 ⊢
        omega)]
      exact hr
    · intro k hkT hk
      apply hrsT k hkT
      show alookup (aupsert acc.dir
        (TAIL_RID_START + ((MAX_RECORDS_PER_PAGE * q + j0 : Nat) : Int))
        (C8RowT name Tot (MAX_RECORDS_PER_PAGE * q + j0)))
        (TAIL_RID_START + (k : Int)) = some (C8RowT name Tot k)
      rw [alookup_aupsert]
      by_cases hreq : TAIL_RID_START + (k : Int) =
          TAIL_RID_START + ((MAX_RECORDS_PER_PAGE * q + j0 : Nat) : Int)
      · rw [if_pos hreq]
        have h2 : k = MAX_RECORDS_PER_PAGE * q + j0 := by
          have h3 : ((k : Nat) : Int) =
              ((MAX_RECORDS_PER_PAGE * q + j0 : Nat) : Int) := by omega
          exact Nat.cast_inj.mp h3
        rw [h2]
      · rw [if_neg hreq]
        exact hk
    · intro j hj
      rcases List.mem_cons.mp hj with h | h
      · subst h
        apply hrsT (MAX_RECORDS_PER_PAGE * q + j) (hnT j hj0)
        show alookup (aupsert acc.dir
          (TAIL_RID_START + ((MAX_RECORDS_PER_PAGE * q + j : Nat) : Int))
          (C8RowT name Tot (MAX_RECORDS_PER_PAGE * q + j)))
          (TAIL_RID_START + ((MAX_RECORDS_PER_PAGE * q + j : Nat) : Int)) =
          some (C8RowT name Tot (MAX_RECORDS_PER_PAGE * q + j))
        rw [alookup_aupsert, if_pos rfl]
      · exact hrcov j h
    · exact le_trans (le_max_left _ _) hrmono
    · have h1 := hnT j0 hj0
      have h2 : ((MAX_RECORDS_PER_PAGE * q + j0 : Nat) : Int) ≤ (Tn : Int) - 1 := by
        omega
      omega
    · intro j hj
      rcases List.mem_cons.mp hj with h | h
      · subst h
        exact le_trans (le_max_right _ _) hrmono
      · exact hrlb j h

theorem recoverFiles_c8 (name : Chars) (U B Tn : Nat) (hund : '_' ∉ name)
    (hBT : (B : Int) ≤ TAIL_RID_START) :
    ∀ (entries : List (Chars × Page)) (acc : RecoverAcc),
      (∀ e ∈ entries,
        (∃ c p : Nat, c < META_COLUMNS + U ∧ MAX_RECORDS_PER_PAGE * p < B ∧
          e.1 = tablePid name c p true ∧
          (c = RID_COLUMN →
            e.2.num_records = min MAX_RECORDS_PER_PAGE (B - MAX_RECORDS_PER_PAGE * p) ∧
            (∀ j, j < e.2.num_records →
              e.2.read j = some ((MAX_RECORDS_PER_PAGE * p + j : Nat) : Int)))) ∨
        (∃ c q : Nat, c < META_COLUMNS + U ∧ MAX_RECORDS_PER_PAGE * q < Tn ∧
          e.1 = tablePid name c q false ∧
          (c = RID_COLUMN →
            e.2.num_records = min MAX_RECORDS_PER_PAGE (Tn - MAX_RECORDS_PER_PAGE * q) ∧
            (∀ j, j < e.2.num_records →
              e.2.read j = some (TAIL_RID_START +
                ((MAX_RECORDS_PER_PAGE * q + j : Nat) : Int)))))) →
      (∀ e ∈ acc.dir, (∃ r : Nat, r < B ∧ e.1 = (r : Int) ∧
          e.2 = C8Row name (META_COLUMNS + U) r) ∨
        (∃ k : Nat, k < Tn ∧ e.1 = TAIL_RID_START + (k : Int) ∧
          e.2 = C8RowT name (META_COLUMNS + U) k)) →
      (acc.dir.map Prod.fst).Nodup →
      ∃ acc2, recoverFiles name (META_COLUMNS + U) entries acc = some acc2 ∧
        (∀ e ∈ acc2.dir, (∃ r : Nat, r < B ∧ e.1 = (r : Int) ∧
            e.2 = C8Row name (META_COLUMNS + U) r) ∨
          (∃ k : Nat, k < Tn ∧ e.1 = TAIL_RID_START + (k : Int) ∧
            e.2 = C8RowT name (META_COLUMNS + U) k)) ∧
        (acc2.dir.map Prod.fst).Nodup ∧
        (∀ r : Nat, r < B →
          alookup acc.dir (r : Int) = some (C8Row name (META_COLUMNS + U) r) →
          alookup acc2.dir (r : Int) = some (C8Row name (META_COLUMNS + U) r)) ∧
        (∀ k : Nat, k < Tn →
          alookup acc.dir (TAIL_RID_START + (k : Int)) =
            some (C8RowT name (META_COLUMNS + U) k) →
          alookup acc2.dir (TAIL_RID_START + (k : Int)) =
            some (C8RowT name (META_COLUMNS + U) k)) ∧
        (∀ r : Nat, r < B →
          (∃ pg, (tablePid name RID_COLUMN (r / MAX_RECORDS_PER_PAGE) true, pg) ∈ entries) →
          alookup acc2.dir (r : Int) = some (C8Row name (META_COLUMNS + U) r)) ∧
        (∀ k : Nat, k < Tn →
          (∃ pg, (tablePid name RID_COLUMN (k / MAX_RECORDS_PER_PAGE) false, pg) ∈ entries) →
          alookup acc2.dir (TAIL_RID_START + (k : Int)) =
            some (C8RowT name (META_COLUMNS + U) k)) ∧
        acc.baseCount ≤ acc2.baseCount ∧
        acc2.baseCount ≤ max acc.baseCount B ∧
        (∀ r : Nat, r < B →
          (∃ pg, (tablePid name RID_COLUMN (r / MAX_RECORDS_PER_PAGE) true, pg) ∈ entries) →
          r + 1 ≤ acc2.baseCount) ∧
        acc.maxTailSeq ≤ acc2.maxTailSeq ∧
        acc2.maxTailSeq ≤ max acc.maxTailSeq ((Tn : Int) - 1) ∧
        (∀ k : Nat, k < Tn →
          (∃ pg, (tablePid name RID_COLUMN (k / MAX_RECORDS_PER_PAGE) false, pg) ∈ entries) →
          (k : Int) ≤ acc2.maxTailSeq) := by
  intro entries
  induction entries with
  | nil =>
    intro acc hent ha hand
    refine ⟨acc, rfl, ha, hand, fun r _ h => h, fun k _ h => h, ?_, ?_,
      Nat.le_refl _, Nat.le_max_left _ _, ?_, le_refl _, le_max_left _ _, ?_⟩
    · intro r _ h
      obtain ⟨pg, hpg⟩ := h
      exact absurd hpg (List.not_mem_nil _)
    · intro k _ h
      obtain ⟨pg, hpg⟩ := h
      exact absurd hpg (List.not_mem_nil _)
    · intro r _ h
      obtain ⟨pg, hpg⟩ := h
      exact absurd hpg (List.not_mem_nil _)
    · intro k _ h
      obtain ⟨pg, hpg⟩ := h
      exact absurd hpg (List.not_mem_nil _)
  | cons e rest ih =>
    intro acc hent ha hand
    have hM : MAX_RECORDS_PER_PAGE = 512 := rfl
    obtain ⟨pid, pg⟩ := e
    rcases hent (pid, pg) (List.mem_cons_self _ _) with
      ⟨c, p, hc, hpB, hpid, hridarm⟩ | ⟨c, q, hc, hqT, hpid, hridarm⟩
    · have hpid' : pid = tablePid name c p true := hpid
      subst hpid'
      have hsplit : splitUnderscore (tablePid name c p true) =
          [name, natChars c, natChars p, ['1']] := by
        rw [tablePid_eq]
        have h1 : (if true then '1' else '0') = '1' := rfl
        rw [h1]
        exact splitUnderscore_four name (natChars c) (natChars p) ['1'] hund
          (natChars_no_underscore c) (natChars_no_underscore p)
          (by intro hmem; simp at hmem)
      by_cases hcR : c = RID_COLUMN
      · subst hcR
        obtain ⟨hnum, hread⟩ := hridarm rfl
        have heq : recoverFiles name (META_COLUMNS + U)
            ((tablePid name RID_COLUMN p true, pg) :: rest) acc =
            recoverFiles name (META_COLUMNS + U) rest
              (recoverSlots name (META_COLUMNS + U) ((p : Nat) : Int) true pg
                (List.range pg.num_records) acc) := by
          rw [recoverFiles, hsplit]
          dsimp only
          rw [if_neg (fun h => h rfl)]
          rw [charsToInt_natChars RID_COLUMN, charsToInt_natChars p,
            show charsToInt ['1'] = some 1 from rfl]
          dsimp only
          rw [if_neg (fun h => h rfl)]
          rfl
        obtain ⟨res, hres, hra1, hrnd1, hrsB1, hrsT1, hrcov1, hrmono1, hrub1, hrlb1, hrt1⟩ :=
          recoverSlotsB_c8 name (META_COLUMNS + U) p B Tn pg hBT
            (by rw [hnum]; exact Nat.min_le_left _ _) hread
            (fun j hj => by
              rw [hnum, hM] at hj
              rw [hM]
              omega)
            (List.range pg.num_records) acc
            (fun j hj => List.mem_range.mp hj) ha hand
        obtain ⟨acc2, hacc2, hra2, hrnd2, hsB2, hsT2, hcovB2, hcovT2, hbmono2, hbub2,
          hblb2, htmono2, htub2, htlb2⟩ :=
          ih (recoverSlots name (META_COLUMNS + U) ((p : Nat) : Int) true pg
                (List.range pg.num_records) acc)
            (fun e he => hent e (List.mem_cons_of_mem _ he))
            (by rw [hres]; exact hra1) (by rw [hres]; exact hrnd1)
        rw [hres] at hsB2 hsT2 hbmono2 hbub2 htmono2 htub2
        refine ⟨acc2, by rw [heq]; exact hacc2, hra2, hrnd2, ?_, ?_, ?_, ?_, ?_, ?_,
          ?_, ?_, ?_, ?_⟩
        · intro r hrB hr
          exact hsB2 r hrB (hrsB1 r hrB hr)
        · intro k hkT hk
          exact hsT2 k hkT (hrsT1 k hkT hk)
        · intro r hrB hex
          obtain ⟨pg2, hpg2⟩ := hex
          rcases List.mem_cons.mp hpg2 with hhd | htl
          · have hinj := tablePid_inj name RID_COLUMN (r / MAX_RECORDS_PER_PAGE) true
              RID_COLUMN p true (congrArg Prod.fst hhd)
            have hp : r / MAX_RECORDS_PER_PAGE = p := hinj.2.1
            have hmem : r % MAX_RECORDS_PER_PAGE ∈ List.range pg.num_records := by
              apply List.mem_range.mpr
              rw [hnum, hM]
              rw [hM] at hpB
              rw [← hp, hM]
              rw [← hp, hM] at hpB
              omega
            have hcv := hrcov1 (r % MAX_RECORDS_PER_PAGE) hmem
            have hreq : MAX_RECORDS_PER_PAGE * p + r % MAX_RECORDS_PER_PAGE = r := by
              rw [← hp, hM]
              omega
            rw [hreq] at hcv
            exact hsB2 r hrB hcv
          · exact hcovB2 r hrB ⟨pg2, htl⟩
        · intro k hkT hex
          obtain ⟨pg2, hpg2⟩ := hex
          rcases List.mem_cons.mp hpg2 with hhd | htl
          · exact absurd (tablePid_inj name RID_COLUMN (k / MAX_RECORDS_PER_PAGE) false
              RID_COLUMN p true (congrArg Prod.fst hhd)).2.2 Bool.false_ne_true
          · exact hcovT2 k hkT ⟨pg2, htl⟩
        · exact le_trans hrmono1 hbmono2
        · omega
        · intro r hrB hex
          obtain ⟨pg2, hpg2⟩ := hex
          rcases List.mem_cons.mp hpg2 with hhd | htl
          · have hinj := tablePid_inj name RID_COLUMN (r / MAX_RECORDS_PER_PAGE) true
              RID_COLUMN p true (congrArg Prod.fst hhd)
            have hp : r / MAX_RECORDS_PER_PAGE = p := hinj.2.1
            have hmem : r % MAX_RECORDS_PER_PAGE ∈ List.range pg.num_records := by
              apply List.mem_range.mpr
              rw [hnum, hM]
              rw [hM] at hpB
              rw [← hp, hM]
              rw [← hp, hM] at hpB
              omega
            have hlb := hrlb1 (r % MAX_RECORDS_PER_PAGE) hmem
            have hreq : MAX_RECORDS_PER_PAGE * p + r % MAX_RECORDS_PER_PAGE = r := by
              rw [← hp, hM]
              omega
            rw [hreq] at hlb
            exact le_trans hlb hbmono2
          · exact hblb2 r hrB ⟨pg2, htl⟩
        · rw [← hrt1]
          exact htmono2
        · rw [← hrt1]
          exact htub2
        · intro k hkT hex
          obtain ⟨pg2, hpg2⟩ := hex
          rcases List.mem_cons.mp hpg2 with hhd | htl
          · exact absurd (tablePid_inj name RID_COLUMN (k / MAX_RECORDS_PER_PAGE) false
              RID_COLUMN p true (congrArg Prod.fst hhd)).2.2 Bool.false_ne_true
          · exact htlb2 k hkT ⟨pg2, htl⟩
      · have heq : recoverFiles name (META_COLUMNS + U)
            ((tablePid name c p true, pg) :: rest) acc =
            recoverFiles name (META_COLUMNS + U) rest acc := by
          rw [recoverFiles, hsplit]
          dsimp only
          rw [if_neg (fun h => h rfl)]
          rw [charsToInt_natChars c, charsToInt_natChars p,
            show charsToInt ['1'] = some 1 from rfl]
          dsimp only
          rw [if_pos (fun h => hcR (Nat.cast_inj.mp h))]
        obtain ⟨acc2, hacc2, hra2, hrnd2, hsB2, hsT2, hcovB2, hcovT2, hbmono2, hbub2,
          hblb2, htmono2, htub2, htlb2⟩ :=
          ih acc (fun e he => hent e (List.mem_cons_of_mem _ he)) ha hand
        refine ⟨acc2, by rw [heq]; exact hacc2, hra2, hrnd2, hsB2, hsT2, ?_, ?_,
          hbmono2, hbub2, ?_, htmono2, htub2, ?_⟩
        · intro r hrB hex
          obtain ⟨pg2, hpg2⟩ := hex
          rcases List.mem_cons.mp hpg2 with hhd | htl
          · have hinj := tablePid_inj name RID_COLUMN (r / MAX_RECORDS_PER_PAGE) true
              c p true (congrArg Prod.fst hhd)
            exact absurd hinj.1.symm hcR
          · exact hcovB2 r hrB ⟨pg2, htl⟩
        · intro k hkT hex
          obtain ⟨pg2, hpg2⟩ := hex
          rcases List.mem_cons.mp hpg2 with hhd | htl
          · exact absurd (tablePid_inj name RID_COLUMN (k / MAX_RECORDS_PER_PAGE) false
              c p true (congrArg Prod.fst hhd)).2.2 Bool.false_ne_true
          · exact hcovT2 k hkT ⟨pg2, htl⟩
        · intro r hrB hex
          obtain ⟨pg2, hpg2⟩ := hex
          rcases List.mem_cons.mp hpg2 with hhd | htl
          · have hinj := tablePid_inj name RID_COLUMN (r / MAX_RECORDS_PER_PAGE) true
              c p true (congrArg Prod.fst hhd)
            exact absurd hinj.1.symm hcR
          · exact hblb2 r hrB ⟨pg2, htl⟩
        · intro k hkT hex
          obtain ⟨pg2, hpg2⟩ := hex
          rcases List.mem_cons.mp hpg2 with hhd | htl
          · exact absurd (tablePid_inj name RID_COLUMN (k / MAX_RECORDS_PER_PAGE) false
              c p true (congrArg Prod.fst hhd)).2.2 Bool.false_ne_true
          · exact htlb2 k hkT ⟨pg2, htl⟩
    · have hpid' : pid = tablePid name c q false := hpid
      subst hpid'
      have hsplit : splitUnderscore (tablePid name c q false) =
          [name, natChars c, natChars q, ['0']] := by
        rw [tablePid_eq]
        have h1 : (if false then '1' else '0') = '0' := rfl
        rw [h1]
        exact splitUnderscore_four name (natChars c) (natChars q) ['0'] hund
          (natChars_no_underscore c) (natChars_no_underscore q)
          (by intro hmem; simp at hmem)
      by_cases hcR : c = RID_COLUMN
      · subst hcR
        obtain ⟨hnum, hread⟩ := hridarm rfl
        have heq : recoverFiles name (META_COLUMNS + U)
            ((tablePid name RID_COLUMN q false, pg) :: rest) acc =
            recoverFiles name (META_COLUMNS + U) rest
              (recoverSlots name (META_COLUMNS + U) ((q : Nat) : Int) false pg
                (List.range pg.num_records) acc) := by
          rw [recoverFiles, hsplit]
          dsimp only
          rw [if_neg (fun h => h rfl)]
          rw [charsToInt_natChars RID_COLUMN, charsToInt_natChars q,
            show charsToInt ['0'] = some 0 from rfl]
          dsimp only
          rw [if_neg (fun h => h rfl)]
          rfl
        obtain ⟨res, hres, hra1, hrnd1, hrsB1, hrsT1, hrcov1, hrbc1, htmono1, htub1,
          htlb1⟩ :=
          recoverSlotsT_c8 name (META_COLUMNS + U) q B Tn pg hBT
            (by rw [hnum]; exact Nat.min_le_left _ _) hread
            (fun j hj => by
              rw [hnum, hM] at hj
              rw [hM]
              omega)
            (List.range pg.num_records) acc
            (fun j hj => List.mem_range.mp hj) ha hand
        obtain ⟨acc2, hacc2, hra2, hrnd2, hsB2, hsT2, hcovB2, hcovT2, hbmono2, hbub2,
          hblb2, htmono2, htub2, htlb2⟩ :=
          ih (recoverSlots name (META_COLUMNS + U) ((q : Nat) : Int) false pg
                (List.range pg.num_records) acc)
            (fun e he => hent e (List.mem_cons_of_mem _ he))
            (by rw [hres]; exact hra1) (by rw [hres]; exact hrnd1)
        rw [hres] at hsB2 hsT2 hbmono2 hbub2 htmono2 htub2
        refine ⟨acc2, by rw [heq]; exact hacc2, hra2, hrnd2, ?_, ?_, ?_, ?_, ?_, ?_,
          ?_, ?_, ?_, ?_⟩
        · intro r hrB hr
          exact hsB2 r hrB (hrsB1 r hrB hr)
        · intro k hkT hk
          exact hsT2 k hkT (hrsT1 k hkT hk)
        · intro r hrB hex
          obtain ⟨pg2, hpg2⟩ := hex
          rcases List.mem_cons.mp hpg2 with hhd | htl
          · exact absurd (tablePid_inj name RID_COLUMN (r / MAX_RECORDS_PER_PAGE) true
              RID_COLUMN q false (congrArg Prod.fst hhd)).2.2.symm Bool.false_ne_true
          · exact hcovB2 r hrB ⟨pg2, htl⟩
        · intro k hkT hex
          obtain ⟨pg2, hpg2⟩ := hex
          rcases List.mem_cons.mp hpg2 with hhd | htl
          · have hinj := tablePid_inj name RID_COLUMN (k / MAX_RECORDS_PER_PAGE) false
              RID_COLUMN q false (congrArg Prod.fst hhd)
            have hq : k / MAX_RECORDS_PER_PAGE = q := hinj.2.1
            have hmem : k % MAX_RECORDS_PER_PAGE ∈ List.range pg.num_records := by
              apply List.mem_range.mpr
              rw [hnum, hM]
              rw [hM] at hqT
              rw [← hq, hM]
              rw [← hq, hM] at hqT
              omega
            have hcv := hrcov1 (k % MAX_RECORDS_PER_PAGE) hmem
            have hreq : MAX_RECORDS_PER_PAGE * q + k % MAX_RECORDS_PER_PAGE = k := by
              rw [← hq, hM]
              omega
            rw [hreq] at hcv
            exact hsT2 k hkT hcv
          · exact hcovT2 k hkT ⟨pg2, htl⟩
        · rw [← hrbc1]
          exact hbmono2
        · rw [← hrbc1]
          exact hbub2
        · intro r hrB hex
          obtain ⟨pg2, hpg2⟩ := hex
          rcases List.mem_cons.mp hpg2 with hhd | htl
          · exact absurd (tablePid_inj name RID_COLUMN (r / MAX_RECORDS_PER_PAGE) true
              RID_COLUMN q false (congrArg Prod.fst hhd)).2.2.symm Bool.false_ne_true
          · exact hblb2 r hrB ⟨pg2, htl⟩
        · exact le_trans htmono1 htmono2
        · omega
        · intro k hkT hex
          obtain ⟨pg2, hpg2⟩ := hex
          rcases List.mem_cons.mp hpg2 with hhd | htl
          · have hinj := tablePid_inj name RID_COLUMN (k / MAX_RECORDS_PER_PAGE) false
              RID_COLUMN q false (congrArg Prod.fst hhd)
            have hq : k / MAX_RECORDS_PER_PAGE = q := hinj.2.1
            have hmem : k % MAX_RECORDS_PER_PAGE ∈ List.range pg.num_records := by
              apply List.mem_range.mpr
              rw [hnum, hM]
              rw [hM] at hqT
              rw [← hq, hM]
              rw [← hq, hM] at hqT
              omega
            have hlb := htlb1 (k % MAX_RECORDS_PER_PAGE) hmem
            have hreq : MAX_RECORDS_PER_PAGE * q + k % MAX_RECORDS_PER_PAGE = k := by
              rw [← hq, hM]
              omega
            rw [hreq] at hlb
            exact le_trans hlb htmono2
          · exact htlb2 k hkT ⟨pg2, htl⟩
      · have heq : recoverFiles name (META_COLUMNS + U)
            ((tablePid name c q false, pg) :: rest) acc =
            recoverFiles name (META_COLUMNS + U) rest acc := by
          rw [recoverFiles, hsplit]
          dsimp only
          rw [if_neg (fun h => h rfl)]
          rw [charsToInt_natChars c, charsToInt_natChars q,
            show charsToInt ['0'] = some 0 from rfl]
          dsimp only
          rw [if_pos (fun h => hcR (Nat.cast_inj.mp h))]
        obtain ⟨acc2, hacc2, hra2, hrnd2, hsB2, hsT2, hcovB2, hcovT2, hbmono2, hbub2,
          hblb2, htmono2, htub2, htlb2⟩ :=
          ih acc (fun e he => hent e (List.mem_cons_of_mem _ he)) ha hand
        refine ⟨acc2, by rw [heq]; exact hacc2, hra2, hrnd2, hsB2, hsT2, ?_, ?_,
          hbmono2, hbub2, ?_, htmono2, htub2, ?_⟩
        · intro r hrB hex
          obtain ⟨pg2, hpg2⟩ := hex
          rcases List.mem_cons.mp hpg2 with hhd | htl
          · exact absurd (tablePid_inj name RID_COLUMN (r / MAX_RECORDS_PER_PAGE) true
              c q false (congrArg Prod.fst hhd)).2.2.symm Bool.false_ne_true
          · exact hcovB2 r hrB ⟨pg2, htl⟩
        · intro k hkT hex
          obtain ⟨pg2, hpg2⟩ := hex
          rcases List.mem_cons.mp hpg2 with hhd | htl
          · have hinj := tablePid_inj name RID_COLUMN (k / MAX_RECORDS_PER_PAGE) false
              c q false (congrArg Prod.fst hhd)
            exact absurd hinj.1.symm hcR
          · exact hcovT2 k hkT ⟨pg2, htl⟩
        · intro r hrB hex
          obtain ⟨pg2, hpg2⟩ := hex
          rcases List.mem_cons.mp hpg2 with hhd | htl
          · exact absurd (tablePid_inj name RID_COLUMN (r / MAX_RECORDS_PER_PAGE) true
              c q false (congrArg Prod.fst hhd)).2.2.symm Bool.false_ne_true
          · exact hblb2 r hrB ⟨pg2, htl⟩
        · intro k hkT hex
          obtain ⟨pg2, hpg2⟩ := hex
          rcases List.mem_cons.mp hpg2 with hhd | htl
          · have hinj := tablePid_inj name RID_COLUMN (k / MAX_RECORDS_PER_PAGE) false
              c q false (congrArg Prod.fst hhd)
            exact absurd hinj.1.symm hcR
          · exact htlb2 k hkT ⟨pg2, htl⟩

theorem createIndexScan_c8 (name : Chars) (U key : Nat) (pks : List Int) (Tn : Nat)
    (t1 : Table) (s : Storage)
    (ht1k : t1.key = key)
    (hpknd : pks.Nodup)
    (hBT : (pks.length : Int) ≤ TAIL_RID_START)
    (hmat : ∀ r : Nat, r < pks.length → ∃ vals,
      materialize_latest t1 s (r : Int) = some vals ∧
      vals.get? key = some (pks.getD r 0)) :
    ∀ (l : List (Int × List (Option Loc))) (d : List (Int × List Int)),
      (∀ e ∈ l, (∃ r : Nat, r < pks.length ∧ e.1 = (r : Int) ∧
          e.2 = C8Row name (META_COLUMNS + U) r) ∨
        (∃ k : Nat, k < Tn ∧ e.1 = TAIL_RID_START + (k : Int) ∧
          e.2 = C8RowT name (META_COLUMNS + U) k)) →
      ((l.map Prod.fst).Nodup) →
      (∀ e ∈ l, ∀ r : Nat, r < pks.length → e.1 = (r : Int) →
        alookup d (pks.getD r 0) = none) →
      ∃ dres, createIndexScan t1 s key l d = some dres ∧
        (∀ v : Int, (∀ e ∈ l, ∀ r : Nat, r < pks.length → e.1 = (r : Int) →
            v ≠ pks.getD r 0) →
          alookup dres v = alookup d v) ∧
        (∀ e ∈ l, ∀ r : Nat, r < pks.length → e.1 = (r : Int) →
          alookup dres (pks.getD r 0) = some [(r : Int)]) := by
  have hTr : TAIL_RID_START = 1000000000 := rfl
  intro l
  induction l with
  | nil =>
    intro d _ _ _
    exact ⟨d, rfl, fun v _ => rfl, fun e he => absurd he (List.not_mem_nil _)⟩
  | cons e l' ih =>
    intro d hl hlnd hfreshd
    obtain ⟨e1, e2⟩ := e
    rcases hl (e1, e2) (List.mem_cons_self _ _) with
      ⟨r0, hr0B, he1, he2⟩ | ⟨k0, hk0T, he1, he2⟩
    · have he1' : e1 = ((r0 : Nat) : Int) := he1
      subst he1'
      simp only [List.map_cons, List.nodup_cons] at hlnd
      have hlt : ((r0 : Nat) : Int) < TAIL_RID_START := by
        have h1 := hBT
        omega
      obtain ⟨vals, hv1, hv2⟩ := hmat r0 hr0B
      have heqs : createIndexScan t1 s key (((((r0 : Nat) : Int)), e2) :: l') d =
          createIndexScan t1 s key l' (aupsert d (pks.getD r0 0) [((r0 : Nat) : Int)]) := by
        rw [createIndexScan, if_pos hlt, hv1]
        dsimp only
        rw [hv2]
        dsimp only
        rw [if_pos ht1k.symm]
      have hne_tail : ∀ e' ∈ l', ∀ r' : Nat, r' < pks.length →
          e'.1 = ((r' : Nat) : Int) → pks.getD r' 0 ≠ pks.getD r0 0 := by
        intro e' he' r' hr'B her'
        rcases hl e' (List.mem_cons_of_mem _ he') with
          ⟨r'', hr''B, he''1, _⟩ | ⟨k, hkT, he''1, _⟩
        · have hrr : r' = r'' := by
            have h2 : ((r' : Nat) : Int) = ((r'' : Nat) : Int) := her'.symm.trans he''1
            exact Nat.cast_inj.mp h2
          subst hrr
          have hr0ne : r' ≠ r0 := by
            intro hcon
            apply hlnd.1
            exact List.mem_map.mpr ⟨e', he', by rw [her', hcon]⟩
          exact nodup_getD_ne pks hpknd r' r0 hr''B hr0B hr0ne
        · exfalso
          have h1 : ((r' : Nat) : Int) = TAIL_RID_START + (k : Int) :=
            her'.symm.trans he''1
          have h2 := hBT
          rw [hTr] at h1 h2
          omega
      obtain ⟨dres, heq, hF, hC⟩ := ih (aupsert d (pks.getD r0 0) [((r0 : Nat) : Int)])
        (fun e' he' => hl e' (List.mem_cons_of_mem _ he')) hlnd.2
        (fun e' he' r' hr' her' => by
          rw [alookup_aupsert, if_neg (hne_tail e' he' r' hr' her')]
          exact hfreshd e' (List.mem_cons_of_mem _ he') r' hr' her')
      refine ⟨dres, by rw [heqs]; exact heq, ?_, ?_⟩
      · intro v hv
        have h1 := hF v (fun e' he' r' hr' her' =>
          hv e' (List.mem_cons_of_mem _ he') r' hr' her')
        rw [h1, alookup_aupsert,
          if_neg (hv (((r0 : Nat) : Int), e2) (List.mem_cons_self _ _) r0 hr0B rfl)]
      · intro e' he' r' hr' her'
        rcases List.mem_cons.mp he' with hhd | htl
        · have he'1 : e'.1 = ((r0 : Nat) : Int) := by rw [hhd]
          have hrr : r' = r0 := Nat.cast_inj.mp (her'.symm.trans he'1)
          subst hrr
          have h1 := hF (pks.getD r' 0) (fun e'' he'' r'' hr'' her'' =>
            (hne_tail e'' he'' r'' hr'' her'').symm)
          rw [h1, alookup_aupsert, if_pos rfl]
        · exact hC e' htl r' hr' her'
    · have he1' : e1 = TAIL_RID_START + (k0 : Int) := he1
      subst he1'
      simp only [List.map_cons, List.nodup_cons] at hlnd
      have hnlt : ¬(TAIL_RID_START + (k0 : Int) < TAIL_RID_START) := by
        rw [hTr]
        omega
      have heqs : createIndexScan t1 s key ((TAIL_RID_START + (k0 : Int), e2) :: l') d =
          createIndexScan t1 s key l' d := by
        rw [createIndexScan, if_neg hnlt]
      obtain ⟨dres, heq, hF, hC⟩ := ih d
        (fun e' he' => hl e' (List.mem_cons_of_mem _ he')) hlnd.2
        (fun e' he' r' hr' her' => hfreshd e' (List.mem_cons_of_mem _ he') r' hr' her')
      refine ⟨dres, by rw [heqs]; exact heq, ?_, ?_⟩
      · intro v hv
        exact hF v (fun e' he' r' hr' her' =>
          hv e' (List.mem_cons_of_mem _ he') r' hr' her')
      · intro e' he' r' hr' her'
        rcases List.mem_cons.mp he' with hhd | htl
        · exfalso
          have he'1 : e'.1 = TAIL_RID_START + (k0 : Int) := by rw [hhd]
          have h1 : ((r' : Nat) : Int) = TAIL_RID_START + (k0 : Int) :=
            her'.symm.trans he'1
          have h2 := hBT
          rw [hTr] at h1 h2
          omega
        · exact hC e' htl r' hr' her'

theorem c8wf_insPks_nodup (U key : Nat) :
    ∀ (ops : List C8Op) (pks0 : List Int), c8wf U key ops pks0 = true → pks0.Nodup →
      (pks0 ++ insPks key ops).Nodup := by
  intro ops
  induction ops with
  | nil =>
    intro pks0 _ h
    rw [show insPks key [] = [] from rfl, List.append_nil]
    exact h
  | cons op rest ih =>
    intro pks0 hwf hnd
    cases op with
    | ins ts cols =>
      simp only [c8wf, Bool.and_eq_true, decide_eq_true_eq] at hwf
      obtain ⟨⟨hlen, hfresh⟩, hwf'⟩ := hwf
      have hnd1 : (pks0 ++ [cols.getD key 0]).Nodup := by
        rw [List.nodup_append]
        refine ⟨hnd, List.nodup_singleton _, ?_⟩
        intro a ha hb
        rw [List.mem_singleton] at hb
        exact hfresh a ha hb.symm
      have hres := ih (pks0 ++ [cols.getD key 0]) hwf' hnd1
      have hassoc : pks0 ++ insPks key (C8Op.ins ts cols :: rest) =
          (pks0 ++ [cols.getD key 0]) ++ insPks key rest := by
        rw [show insPks key (C8Op.ins ts cols :: rest) =
          cols.getD key 0 :: insPks key rest from rfl]
        exact (List.append_assoc pks0 [cols.getD key 0] (insPks key rest)).symm
      rw [hassoc]
      exact hres
    | upd ts pk cols =>
      simp only [c8wf, Bool.and_eq_true, decide_eq_true_eq] at hwf
      exact ih pks0 hwf.2 hnd

/-- C8 (amended): for a workload of inserts and updates on a fresh table —
inserts carrying full rows with pairwise-distinct primary keys, updates
addressing an inserted primary key with a full option row that leaves the
key column untouched — with an underscore-free table name and fewer inserts
than TAIL_RID_START: every operation succeeds, and writing out every page
(flush_all on an all-clean bufferpool) followed by `Table.recover` on a
freshly constructed table of the same name and schema reproduces the
original state with respect to the page directory (pointwise `dirLookup` at
every RID, base and tail records alike), the base and tail record counters,
and the primary-key index (pointwise `Index.locate` on the key column).
The original claim, which also covers deletes and arbitrary updates, is
refuted by the counterexample: the deleted set is not persisted, so recover
resurrects a tombstoned primary key. -/
theorem claim_c8 (name : Chars) (U key : Nat) (ops : List C8Op)
    (hund : '_' ∉ name) (hU : 0 < U) (hk : key < U)
    (hwf : c8wf U key ops [] = true)
    (hcap : ((insPks key ops).length : Int) ≤ TAIL_RID_START) :
    runOpsOk ops (Table.init name U key, { pages := [] }) = true ∧
    ∃ tr, recover name U key (flushStorage
        (runOps ops (Table.init name U key, { pages := [] })).2) = some tr ∧
      (∀ rid : Int, dirLookup tr rid =
        dirLookup (runOps ops (Table.init name U key, { pages := [] })).1 rid) ∧
      tr.base_record_count =
        (runOps ops (Table.init name U key, { pages := [] })).1.base_record_count ∧
      tr.tail_record_count =
        (runOps ops (Table.init name U key, { pages := [] })).1.tail_record_count ∧
      (∀ v : Int, locate tr key v =
        locate (runOps ops (Table.init name U key, { pages := [] })).1 key v) := by
  have hM : MAX_RECORDS_PER_PAGE = 512 := rfl
  obtain ⟨hok, tl', hinv⟩ := runOps_C8Inv name U key hU hk ops [] []
    (Table.init name U key) { pages := [] } List.nodup_nil hwf
    (by rw [List.length_nil, Nat.zero_add]; exact hcap)
    (C8Inv_init name U key hU hk)
  rw [List.nil_append] at hinv
  refine ⟨hok, ?_⟩
  set pks := insPks key ops with hpks
  set t := (runOps ops (Table.init name U key, { pages := [] })).1 with ht
  set s2 := (runOps ops (Table.init name U key, { pages := [] })).2 with hs2
  obtain ⟨hname, hkey, hnum, hbase, htail, hdel, howner, hidx, hdirB, hdirT, hdirn,
    hpgB, hpgT, hpidn, hsnd⟩ := hinv
  have hBT : (pks.length : Int) ≤ TAIL_RID_START := hcap
  have hndpks : pks.Nodup := by
    have h1 := c8wf_insPks_nodup U key ops [] hwf List.nodup_nil
    rw [List.nil_append] at h1
    exact h1
  have hent : ∀ e ∈ s2.pages,
      (∃ c p : Nat, c < META_COLUMNS + U ∧ MAX_RECORDS_PER_PAGE * p < pks.length ∧
        e.1 = tablePid name c p true ∧
        (c = RID_COLUMN →
          e.2.num_records =
            min MAX_RECORDS_PER_PAGE (pks.length - MAX_RECORDS_PER_PAGE * p) ∧
          (∀ j, j < e.2.num_records →
            e.2.read j = some ((MAX_RECORDS_PER_PAGE * p + j : Nat) : Int)))) ∨
      (∃ c q : Nat, c < META_COLUMNS + U ∧ MAX_RECORDS_PER_PAGE * q < tl'.length ∧
        e.1 = tablePid name c q false ∧
        (c = RID_COLUMN →
          e.2.num_records =
            min MAX_RECORDS_PER_PAGE (tl'.length - MAX_RECORDS_PER_PAGE * q) ∧
          (∀ j, j < e.2.num_records →
            e.2.read j = some (TAIL_RID_START +
              ((MAX_RECORDS_PER_PAGE * q + j : Nat) : Int))))) := by
    intro e he
    have hal : alookup s2.pages e.1 = some e.2 :=
      alookup_of_mem_nodup s2.pages e.1 e.2 (by rw [Prod.mk.eta]; exact he) hsnd
    by_cases hexB : ∃ c p : Nat, c < META_COLUMNS + U ∧ e.1 = tablePid name c p true
    · obtain ⟨c, p, hc, hpid⟩ := hexB
      left
      rw [hpid] at hal
      have hplt : MAX_RECORDS_PER_PAGE * p < pks.length := by
        by_contra hge
        push_neg at hge
        have hnone := (hpgB c hc p).2 hge
        rw [hnone] at hal
        exact absurd hal (by simp)
      obtain ⟨pg', hq1, hq2, hq3, hqR, _, _⟩ := (hpgB c hc p).1 hplt
      rw [hal] at hq1
      have hpg' : e.2 = pg' := by injection hq1
      refine ⟨c, p, hc, hplt, hpid, fun hcR => ?_⟩
      rw [hpg']
      exact ⟨hq2, hqR hcR⟩
    · by_cases hexT : ∃ c q : Nat, c < META_COLUMNS + U ∧ e.1 = tablePid name c q false
      · obtain ⟨c, q, hc, hpid⟩ := hexT
        right
        rw [hpid] at hal
        have hqlt : MAX_RECORDS_PER_PAGE * q < tl'.length := by
          by_contra hge
          push_neg at hge
          have hnone := (hpgT c hc q).2 hge
          rw [hnone] at hal
          exact absurd hal (by simp)
        obtain ⟨pg', hq1, hq2, hq3, hqR, _⟩ := (hpgT c hc q).1 hqlt
        rw [hal] at hq1
        have hpg' : e.2 = pg' := by injection hq1
        refine ⟨c, q, hc, hqlt, hpid, fun hcR => ?_⟩
        rw [hpg']
        exact ⟨hq2, hqR hcR⟩
      · push_neg at hexB hexT
        have hnone := hpidn e.1 (fun c p hc => hexB c p hc) (fun c q hc => hexT c q hc)
        rw [hnone] at hal
        exact absurd hal (by simp)
  obtain ⟨acc2, hacc2, hra2, hrnd2, hsB2, hsT2, hcovB2, hcovT2, hbmono2, hbub2, hblb2,
    htmono2, htub2, htlb2⟩ :=
    recoverFiles_c8 name U pks.length tl'.length hund hBT s2.pages
      { dir := [], baseCount := 0, maxTailSeq := -1 } hent
      (fun e he => absurd he (List.not_mem_nil _)) (by simp)
  have hstripeB : ∀ r : Nat, r < pks.length →
      ∃ pg, (tablePid name RID_COLUMN (r / MAX_RECORDS_PER_PAGE) true, pg) ∈ s2.pages := by
    intro r hr
    have hplt : MAX_RECORDS_PER_PAGE * (r / MAX_RECORDS_PER_PAGE) < pks.length := by
      rw [hM]
      omega
    obtain ⟨pg', hq1, _, _, _, _, _⟩ := (hpgB RID_COLUMN
      (by unfold RID_COLUMN META_COLUMNS; omega) (r / MAX_RECORDS_PER_PAGE)).1 hplt
    exact ⟨pg', alookup_mem _ _ _ hq1⟩
  have hstripeT : ∀ k : Nat, k < tl'.length →
      ∃ pg, (tablePid name RID_COLUMN (k / MAX_RECORDS_PER_PAGE) false, pg) ∈
        s2.pages := by
    intro k hkk
    have hqlt : MAX_RECORDS_PER_PAGE * (k / MAX_RECORDS_PER_PAGE) < tl'.length := by
      rw [hM]
      omega
    obtain ⟨pg', hq1, _, _, _, _⟩ := (hpgT RID_COLUMN
      (by unfold RID_COLUMN META_COLUMNS; omega) (k / MAX_RECORDS_PER_PAGE)).1 hqlt
    exact ⟨pg', alookup_mem _ _ _ hq1⟩
  have hcovB : ∀ r : Nat, r < pks.length →
      alookup acc2.dir (r : Int) = some (C8Row name (META_COLUMNS + U) r) :=
    fun r hr => hcovB2 r hr (hstripeB r hr)
  have hcovT : ∀ k : Nat, k < tl'.length →
      alookup acc2.dir (TAIL_RID_START + (k : Int)) =
        some (C8RowT name (META_COLUMNS + U) k) :=
    fun k hkk => hcovT2 k hkk (hstripeT k hkk)
  have hbase2 : acc2.baseCount = pks.length := by
    dsimp only at hbub2 hbmono2
    rcases Nat.eq_zero_or_pos pks.length with h0 | hpos
    · rw [h0] at hbub2
      omega
    · have hlbB := hblb2 (pks.length - 1) (by omega) (hstripeB (pks.length - 1) (by omega))
      omega
  have hts2 : acc2.maxTailSeq = (tl'.length : Int) - 1 := by
    dsimp only at htub2 htmono2
    rcases Nat.eq_zero_or_pos tl'.length with h0 | hpos
    · rw [h0] at htub2
      omega
    · have hlbT := htlb2 (tl'.length - 1) (by omega) (hstripeT (tl'.length - 1) (by omega))
      omega
  have htcnt : (acc2.maxTailSeq + 1).toNat = tl'.length := by
    rw [hts2]
    omega
  have hmatAll : ∀ r : Nat, r < pks.length → ∃ vals,
      materialize_latest { Table.init name U key with page_directory := acc2.dir, base_record_count := acc2.baseCount, tail_record_count := (acc2.maxTailSeq + 1).toNat }
        { pages := s2.pages } (r : Int) = some vals ∧
      vals.get? key = some (pks.getD r 0) := by
    intro r hr
    obtain ⟨vals, h1, h2, _⟩ := C8_materialize name U key pks tl'
      { Table.init name U key with page_directory := acc2.dir, base_record_count := acc2.baseCount, tail_record_count := (acc2.maxTailSeq + 1).toNat }
      { pages := s2.pages } hk rfl howner
      (fun r' hr' => hcovB r' hr') (fun k' hk' => hcovT k' hk') hpgB hpgT r hr
    exact ⟨vals, h1, h2⟩
  obtain ⟨dres, hscan, hFd, hCd⟩ := createIndexScan_c8 name U key pks tl'.length
    { Table.init name U key with page_directory := acc2.dir, base_record_count := acc2.baseCount, tail_record_count := (acc2.maxTailSeq + 1).toNat }
    { pages := s2.pages } rfl hndpks hBT hmatAll acc2.dir [] hra2 hrnd2
    (fun e he r hr her => rfl)
  have hrec : recover name U key (flushStorage s2) =
      some { Table.init name U key with page_directory := acc2.dir, base_record_count := acc2.baseCount, tail_record_count := (acc2.maxTailSeq + 1).toNat, indices := (List.range U).map (fun c => if c = key then some dres else none) } := by
    unfold recover
    rw [show flushStorage s2 = s2.pages from rfl, hacc2]
    dsimp only
    rw [hscan]
  refine ⟨_, hrec, ?_, ?_, ?_, ?_⟩
  · intro rid
    show alookup acc2.dir rid = dirLookup t rid
    by_cases hexB : ∃ r : Nat, r < pks.length ∧ rid = ((r : Nat) : Int)
    · obtain ⟨r, hr, rfl⟩ := hexB
      rw [hcovB r hr, hdirB r hr]
    · by_cases hexT : ∃ k : Nat, k < tl'.length ∧ rid = TAIL_RID_START + (k : Int)
      · obtain ⟨k, hkk, rfl⟩ := hexT
        rw [hcovT k hkk, hdirT k hkk]
      · push_neg at hexB hexT
        rw [hdirn rid (fun r hr => hexB r hr) (fun k hkk => hexT k hkk)]
        apply alookup_none_of_forall
        intro e he
        rcases hra2 e he with ⟨r, hrB, he1, _⟩ | ⟨k, hkT, he1, _⟩
        · intro hcon
          exact hexB r hrB (hcon.symm.trans he1)
        · intro hcon
          exact hexT k hkT (hcon.symm.trans he1)
  · show acc2.baseCount = t.base_record_count
    rw [hbase2, hbase]
  · show (acc2.maxTailSeq + 1).toNat = t.tail_record_count
    rw [htcnt, htail]
  · intro v
    have hlocT := locate_of_indices t key
      ((List.range pks.length).map (fun r => (pks.getD r 0, [(r : Int)])))
      (by rw [hnum]; exact hk)
      (by rw [hidx, get?_map_range, if_pos hk, if_pos rfl])
    have hlocR := locate_of_indices
      { Table.init name U key with page_directory := acc2.dir, base_record_count := acc2.baseCount, tail_record_count := (acc2.maxTailSeq + 1).toNat, indices := (List.range U).map (fun c => if c = key then some dres else none) }
      key dres hk
      (by show ((List.range U).map (fun c => if c = key then some dres else none)).get? key =
            some (some dres)
          rw [get?_map_range, if_pos hk, if_pos rfl])
    rw [hlocR v, hlocT v]
    by_cases hex : ∃ r : Nat, r < pks.length ∧ v = pks.getD r 0
    · obtain ⟨r, hr, rfl⟩ := hex
      have hmem := alookup_mem acc2.dir ((r : Nat) : Int)
        (C8Row name (META_COLUMNS + U) r) (hcovB r hr)
      have h1 := hCd (((r : Nat) : Int), C8Row name (META_COLUMNS + U) r) hmem r hr rfl
      have hkeys : (((List.range pks.length).map
          (fun r => (pks.getD r 0, [(r : Int)]))).map Prod.fst) = pks := by
        rw [List.map_map]
        exact map_range_getD pks 0
      have h2 : alookup ((List.range pks.length).map
          (fun r => (pks.getD r 0, [(r : Int)]))) (pks.getD r 0) = some [(r : Int)] := by
        apply alookup_of_mem_nodup
        · exact List.mem_map.mpr ⟨r, List.mem_range.mpr hr, rfl⟩
        · rw [hkeys]
          exact hndpks
      rw [h1, h2]
    · push_neg at hex
      have h1 := hFd v (fun e he r hr her => hex r hr)
      have h2 : alookup ((List.range pks.length).map
          (fun r => (pks.getD r 0, [(r : Int)]))) v = none := by
        apply alookup_none_of_forall
        intro e he
        obtain ⟨r, hrmem, rfl⟩ := List.mem_map.mp he
        intro hcon
        exact hex r (List.mem_range.mp hrmem) hcon.symm
      rw [h1, h2]
      rfl

/-- C8 witness: a three-operation workload on a 3-column table with PK
column 1 — two inserts and one update that changes only non-key columns;
every operation succeeds and the flush / recover round-trip agrees on the
page directory, both record counters and the PK index lookups. -/
theorem claim_c8_witness :
    runOpsOk [C8Op.ins 0 [5, 100, 6], C8Op.upd 1 100 [some 50, none, some 7],
        C8Op.ins 3 [9, 200, 3]] (Table.init ['w'] 3 1, { pages := [] }) = true ∧
    ∃ tr, recover ['w'] 3 1 (flushStorage
        (runOps [C8Op.ins 0 [5, 100, 6], C8Op.upd 1 100 [some 50, none, some 7],
          C8Op.ins 3 [9, 200, 3]] (Table.init ['w'] 3 1, { pages := [] })).2) = some tr ∧
      (∀ rid : Int, dirLookup tr rid =
        dirLookup (runOps [C8Op.ins 0 [5, 100, 6], C8Op.upd 1 100 [some 50, none, some 7],
          C8Op.ins 3 [9, 200, 3]] (Table.init ['w'] 3 1, { pages := [] })).1 rid) ∧
      tr.base_record_count =
        (runOps [C8Op.ins 0 [5, 100, 6], C8Op.upd 1 100 [some 50, none, some 7],
          C8Op.ins 3 [9, 200, 3]] (Table.init ['w'] 3 1, { pages := [] })).1.base_record_count ∧
      tr.tail_record_count =
        (runOps [C8Op.ins 0 [5, 100, 6], C8Op.upd 1 100 [some 50, none, some 7],
          C8Op.ins 3 [9, 200, 3]] (Table.init ['w'] 3 1, { pages := [] })).1.tail_record_count ∧
      (∀ v : Int, locate tr 1 v =
        locate (runOps [C8Op.ins 0 [5, 100, 6], C8Op.upd 1 100 [some 50, none, some 7],
          C8Op.ins 3 [9, 200, 3]] (Table.init ['w'] 3 1, { pages := [] })).1 1 v) :=
  claim_c8 ['w'] 3 1 [C8Op.ins 0 [5, 100, 6], C8Op.upd 1 100 [some 50, none, some 7],
      C8Op.ins 3 [9, 200, 3]] (by decide) (by decide) (by decide) (by decide) (by decide)

end LStore
